import Mathlib

/-! # Astera: a caching Go module proxy

A shallow embedding of the query pipeline of `astera` (package `modstore`),
its SQLite module repository (package `sqlite3`) and the library functions
they call, followed by theorems about them.

Conventions of the embedding

* A Go `string` is a list of characters (`Str`).  A Go `[]byte` is an
  optional list of characters (`Bytes`): `none` is the nil slice, which the
  SQLite driver binds as SQL `NULL`, and `some []` is the empty, non-nil slice.
  The conversions `string(b)` and `[]byte(s)` are the identity on the
  characters.
* A Go `error` is a value of `Error`; a nil error is the `ok` side of `Except`
  (or `none` where only an error is returned).
* Collaborators behind interfaces (`astera.ModuleRepository`, `astera.VCS`,
  the HTTP transport) are records of functions; the repository carries an
  explicit state that only `InsertModule` may change.
* Every collaborator call made by the resolver is appended to a trace.
-/

namespace Astera

/-- A Go string, as its sequence of characters. -/
abbrev Str := List Char

/-- A Go byte slice; `none` is the nil slice. -/
abbrev Bytes := Option (List Char)

/-! ## Go package `strings` -/

namespace strings

/-- Go `strings.HasPrefix`. -/
def HasPrefix (s pre : Str) : Bool := pre.isPrefixOf s

/-- Go `strings.HasSuffix`. -/
def HasSuffix (s suf : Str) : Bool := suf.isSuffixOf s

/-- Go `strings.TrimPrefix`. -/
def TrimPrefix (s pre : Str) : Str :=
  if HasPrefix s pre then s.drop pre.length else s

/-- Go `strings.TrimSuffix`. -/
def TrimSuffix (s suf : Str) : Str :=
  if HasSuffix s suf then s.take (s.length - suf.length) else s

/-- The scan of `strings.Split` for a non-empty separator: `skip` counts the
characters of a separator still to be passed over, `acc` is the current piece,
reversed. -/
def splitGo (sep : Str) : Nat → Str → Str → List Str
  | _, [], acc => [acc.reverse]
  | skip + 1, _ :: cs, acc => splitGo sep skip cs acc
  | 0, c :: cs, acc =>
      if sep.isPrefixOf (c :: cs) then acc.reverse :: splitGo sep (sep.length - 1) cs []
      else splitGo sep 0 cs (c :: acc)

/-- Go `strings.Split`: the pieces of `s` between the non-overlapping
occurrences of `sep`, found left to right; an empty separator splits after
every character. -/
def Split (s sep : Str) : List Str :=
  if sep = [] then s.map (fun c => [c]) else splitGo sep 0 s []

/-- Go `strings.Join`. -/
def Join (elems : List Str) (sep : Str) : Str := sep.intercalate elems

/-- Go `strings.Contains`. -/
def Contains (s sub : Str) : Bool := s.tails.any (fun t => sub.isPrefixOf t)

/-- Go `strings.Count` for a one-character substring. -/
def CountChar (s : Str) (c : Char) : Nat := s.count c

/-- Go `strings.Index` for a one-character substring; `none` is `-1`. -/
def IndexChar (s : Str) (c : Char) : Option Nat :=
  if c ∈ s then some (s.indexOf c) else none

/-- ASCII lower-casing of one character. -/
def lowerASCII (c : Char) : Char :=
  if 65 ≤ c.toNat ∧ c.toNat ≤ 90 then Char.ofNat (c.toNat + 32) else c

/-- Go `strings.EqualFold` when one side is made of ASCII letters and digits
none of which is `k`, `K`, `s` or `S`: equality up to ASCII case. -/
def EqualFoldASCII (s t : Str) : Bool := s.map lowerASCII == t.map lowerASCII

end strings

/-! ## Go package `golang.org/x/mod/module` (imported as `xmod`)

The library is a dependency of the repository; its functions are rendered
from the library's own text.  Their error values are reduced to success or
failure, the message being of no consequence to the callers. -/

namespace xmod

/-- The three kinds of path of `checkPath`. -/
inductive pathKind where
  | modulePath
  | importPath
  | filePath
  deriving DecidableEq, Repr

/-- ASCII digit. -/
def isDigit (r : Char) : Bool := decide (48 ≤ r.toNat ∧ r.toNat ≤ 57)

/-- ASCII lower-case letter. -/
def isLower (r : Char) : Bool := decide (97 ≤ r.toNat ∧ r.toNat ≤ 122)

/-- ASCII upper-case letter. -/
def isUpper (r : Char) : Bool := decide (65 ≤ r.toNat ∧ r.toNat ≤ 90)

/-- Library `modPathOK`: ASCII letters, digits and `-._~`. -/
def modPathOK (r : Char) : Bool :=
  decide (r.toNat < 128) &&
    (r == '-' || r == '.' || r == '_' || r == '~' || isDigit r || isUpper r || isLower r)

/-- Library `importPathOK`. -/
def importPathOK (r : Char) : Bool := modPathOK r || r == '+'

/-- Library `fileNameOK`.  For a character outside ASCII the library asks
`unicode.IsLetter`; the callers here only pass ASCII text (the output of
`unescapeString`), so that branch is rendered as a refusal. -/
def fileNameOK (r : Char) : Bool :=
  if r.toNat < 128 then
    isDigit r || isUpper r || isLower r || "!#$%&()+,-.=@[]^_\x7b\x7d~ ".toList.contains r
  else false

/-- Library `firstPathOK`. -/
def firstPathOK (r : Char) : Bool := r == '-' || r == '.' || isDigit r || isLower r

/-- Library `badWindowsNames`. -/
def badWindowsNames : List Str :=
  ["CON", "PRN", "AUX", "NUL", "COM1", "COM2", "COM3", "COM4", "COM5", "COM6", "COM7",
   "COM8", "COM9", "LPT1", "LPT2", "LPT3", "LPT4", "LPT5", "LPT6", "LPT7", "LPT8",
   "LPT9"].map String.toList

/-- The text of `elem` before its first dot (`short` in `checkElem`). -/
def shortName (elem : Str) : Str := elem.takeWhile (fun c => c != '.')

/-- The Windows short-name test of `checkElem`: the text after the last tilde
of `short` is non-empty and all digits. -/
def tildeDigits (short : Str) : Bool :=
  let suffix := (short.reverse.takeWhile (fun c => c != '~')).reverse
  short.contains '~' && !suffix.isEmpty && suffix.all isDigit

/-- Library `checkElem`; `true` is a nil error. -/
def checkElem (elem : Str) (kind : pathKind) : Bool :=
  if elem = [] then false
  else if strings.CountChar elem '.' = elem.length then false
  else if elem.head? = some '.' ∧ kind = pathKind.modulePath then false
  else if elem.getLast? = some '.' then false
  else if !(elem.all (fun r =>
      match kind with
      | pathKind.modulePath => modPathOK r
      | pathKind.importPath => importPathOK r
      | pathKind.filePath => fileNameOK r)) then false
  else if badWindowsNames.any (fun bad => strings.EqualFoldASCII bad (shortName elem)) then false
  else if kind = pathKind.filePath then true
  else !(tildeDigits (shortName elem))

/-- Library `checkPath`; `true` is a nil error. -/
def checkPath (path : Str) (kind : pathKind) : Bool :=
  if path = [] then false
  else if path.head? = some '-' ∧ kind ≠ pathKind.filePath then false
  else if strings.Contains path "//".toList then false
  else if path.getLast? = some (Char.ofNat 47) then false
  else (strings.Split path "/".toList).all (fun elem => checkElem elem kind)

/-- Library `splitGopkgIn`, reduced to its `ok` result. -/
def splitGopkgInOk (path : Str) : Bool :=
  if !(strings.HasPrefix path "gopkg.in/".toList) then false
  else
    let p := if strings.HasSuffix path "-unstable".toList
             then path.take (path.length - "-unstable".toList.length) else path
    let digits := (p.reverse.takeWhile isDigit).reverse
    match p.reverse.dropWhile isDigit with
    | c1 :: c2 :: _ =>
        if c1 != 'v' || c2 != '.' then false
        else
          let pathMajor := '.' :: 'v' :: (digits ++ path.drop p.length)
          !(pathMajor.length ≤ 2 || (pathMajor.get? 2 = some '0' && pathMajor != ".v0".toList))
    | _ => false

/-- Library `SplitPathVersion`, reduced to its `ok` result. -/
def SplitPathVersionOk (path : Str) : Bool :=
  if strings.HasPrefix path "gopkg.in/".toList then splitGopkgInOk path
  else
    let isTail := fun (c : Char) => isDigit c || c == '.'
    let tail := (path.reverse.takeWhile isTail).reverse
    match path.reverse.dropWhile isTail with
    | c1 :: c2 :: _ =>
        if tail = [] || c1 != 'v' || c2 != (Char.ofNat 47) then true
        else
          let pathMajor := (Char.ofNat 47) :: 'v' :: tail
          !(tail.contains '.' || pathMajor.length ≤ 2 || pathMajor.get? 2 = some '0'
              || pathMajor == "/v1".toList)
    | _ => true

/-- Library `CheckPath`; `true` is a nil error. -/
def CheckPath (path : Str) : Bool :=
  if !(checkPath path pathKind.modulePath) then false
  else
    let first := path.takeWhile (fun c => c != (Char.ofNat 47))
    if first = [] then false
    else if !(first.contains '.') then false
    else if path.head? = some '-' then false
    else if !(first.all firstPathOK) then false
    else SplitPathVersionOk path

/-- The loop of `unescapeString`; `bang` records a pending `!`. -/
def unescapeGo : Bool → Str → Option Str
  | bang, [] => if bang then none else some []
  | bang, r :: rs =>
      if r.toNat ≥ 128 then none
      else if bang then
        if isLower r then (unescapeGo false rs).map (fun t => Char.ofNat (r.toNat - 32) :: t)
        else none
      else if r = '!' then unescapeGo true rs
      else if isUpper r then none
      else (unescapeGo false rs).map (fun t => r :: t)

/-- Library `unescapeString`; `none` is `ok = false`. -/
def unescapeString (escaped : Str) : Option Str := unescapeGo false escaped

/-- Library `UnescapePath`; `none` is an error. -/
def UnescapePath (escaped : Str) : Option Str :=
  match unescapeString escaped with
  | none => none
  | some path => if CheckPath path then some path else none

/-- Library `UnescapeVersion`; `none` is an error. -/
def UnescapeVersion (escaped : Str) : Option Str :=
  match unescapeString escaped with
  | none => none
  | some v => if checkElem v pathKind.filePath then some v else none

end xmod

/-! ## Go package `path`: glob matching -/

namespace gopath

/-- The backslash. -/
def backslash : Char := Char.ofNat 92

/-- The scan of `scanChunk` after the leading stars: the chunk (reversed in
`acc`) runs up to the first star outside a bracket expression. -/
def scanChunkGo : Bool → Str → Str → Str × Str
  | _, [], acc => (acc.reverse, [])
  | inrange, c :: cs, acc =>
      if c = backslash then
        match cs with
        | [] => ((c :: acc).reverse, [])
        | d :: ds => scanChunkGo inrange ds (d :: c :: acc)
      else if c = '[' then scanChunkGo true cs (c :: acc)
      else if c = ']' then scanChunkGo false cs (c :: acc)
      else if c = '*' ∧ inrange = false then (acc.reverse, c :: cs)
      else scanChunkGo inrange cs (c :: acc)

/-- Go `scanChunk`: `(star, chunk, rest)`. -/
def scanChunk (pattern : Str) : Bool × Str × Str :=
  let stripped := pattern.dropWhile (fun c => c == '*')
  let r := scanChunkGo false stripped []
  (decide (stripped.length < pattern.length), r.1, r.2)

/-- Go `getEsc`: the next character of a bracket expression and the rest of
the chunk; `none` is `ErrBadPattern`. -/
def getEsc (chunk : Str) : Option (Char × Str) :=
  match chunk with
  | [] => none
  | c :: cs =>
      if c = '-' ∨ c = ']' then none
      else
        let chunk1 := if c = backslash then cs else c :: cs
        match chunk1 with
        | [] => none
        | r :: nchunk => if nchunk = [] then none else some (r, nchunk)

/-- The range loop of a bracket expression in `matchChunk`: `r` is the
character under test; gives `(match, rest of chunk)`, `none` on a bad pattern. -/
def classLoop : Nat → Str → Char → Nat → Bool → Option (Bool × Str)
  | 0, _, _, _, _ => none
  | fuel + 1, chunk, r, nrange, mtch =>
      if chunk.head? = some ']' ∧ 0 < nrange then some (mtch, chunk.tail)
      else
        match getEsc chunk with
        | none => none
        | some (lo, chunk1) =>
            if chunk1.head? = some '-' then
              match getEsc chunk1.tail with
              | none => none
              | some (hi, chunk2) =>
                  classLoop fuel chunk2 r (nrange + 1) (mtch || (lo ≤ r && r ≤ hi))
            else classLoop fuel chunk1 r (nrange + 1) (mtch || (lo ≤ r && r ≤ lo))

/-- The loop of Go `matchChunk`.  Result: `none` is `ErrBadPattern`,
`some none` is no match, `some (some rest)` is a match leaving `rest`. -/
def matchChunkGo : Nat → Str → Str → Bool → Option (Option Str)
  | 0, _, _, _ => none
  | _ + 1, [], s, failed => if failed then some none else some (some s)
  | fuel + 1, c :: cs, s, failed0 =>
      let failed := failed0 || s.isEmpty
      if c = '[' then
        let r := if failed then Char.ofNat 0 else s.headD (Char.ofNat 0)
        let s1 := if failed then s else s.tail
        let negated := decide (cs.head? = some '^')
        let chunk1 := if negated then cs.tail else cs
        match classLoop (fuel + 1) chunk1 r 0 false with
        | none => none
        | some (mtch, chunk2) => matchChunkGo fuel chunk2 s1 (failed || (mtch == negated))
      else if c = '?' then
        if failed then matchChunkGo fuel cs s true
        else matchChunkGo fuel cs s.tail (decide (s.head? = some (Char.ofNat 47)))
      else if c = backslash then
        match cs with
        | [] => none
        | d :: ds =>
            if failed then matchChunkGo fuel ds s true
            else matchChunkGo fuel ds s.tail (decide (s.head? ≠ some d))
      else
        if failed then matchChunkGo fuel cs s true
        else matchChunkGo fuel cs s.tail (decide (s.head? ≠ some c))

/-- Go `matchChunk`. -/
def matchChunk (chunk s : Str) : Option (Option Str) :=
  matchChunkGo (chunk.length + 1) chunk s false

/-- The search of `Match` after a star: try the chunk after skipping one more
character of `name`, never a slash.  `last` says the chunk is the last one.
Result: `none` is `ErrBadPattern`, `some none` is not found. -/
def starLoop (chunk : Str) ( last : Bool) : Str → Option (Option Str)
  | [] => some none
  | c :: cs =>
      if c = Char.ofNat 47 then some none
      else
        match matchChunk chunk cs with
        | none => none
        | some (some t) => if last && !t.isEmpty then starLoop chunk last cs else some (some t)
        | some none => starLoop chunk last cs

/-- The final pass of `Match`: the rest of the pattern is well formed. -/
def checkRest : Nat → Str → Bool
  | 0, _ => true
  | fuel + 1, pattern =>
      if pattern = [] then true
      else
        let sc := scanChunk pattern
        match matchChunk sc.2.1 [] with
        | none => false
        | some _ => checkRest fuel sc.2.2

/-- The loop of Go `path.Match`; `none` is `ErrBadPattern`. -/
def MatchGo : Nat → Str → Str → Option Bool
  | 0, _, _ => none
  | fuel + 1, pattern, name =>
      if pattern = [] then some name.isEmpty
      else
        let sc := scanChunk pattern
        let star := sc.1
        let chunk := sc.2.1
        let rest := sc.2.2
        if star ∧ chunk = [] then some (!(name.contains (Char.ofNat 47)))
        else
          let giveUp : Option Bool :=
            if star then
              match starLoop chunk rest.isEmpty name with
              | none => none
              | some (some t) => MatchGo fuel rest t
              | some none => if checkRest (rest.length + 1) rest then some false else none
            else if checkRest (rest.length + 1) rest then some false else none
          match matchChunk chunk name with
          | none => none
          | some (some t) => if t.isEmpty || !rest.isEmpty then MatchGo fuel rest t else giveUp
          | some none => giveUp

/-- Go `path.Match`; `none` is `ErrBadPattern`. -/
def Match (pattern name : Str) : Option Bool := MatchGo (pattern.length + 1) pattern name

end gopath

namespace xmod

/-- The walk of `MatchPrefixPatterns` over `target`: count `n` slashes down
and cut at the next one.  Gives the slashes still owed and the text kept. -/
def walkTarget : Nat → Str → Str → Nat × Str
  | n, [], acc => (n, acc.reverse)
  | n, c :: cs, acc =>
      if c = Char.ofNat 47 then
        match n with
        | 0 => (0, acc.reverse)
        | k + 1 => walkTarget k cs (c :: acc)
      else walkTarget n cs (c :: acc)

/-- The loop of `MatchPrefixPatterns` over the comma-separated globs. -/
def MatchPrefixPatternsGo : Nat → Str → Str → Bool
  | 0, _, _ => false
  | fuel + 1, globs, target =>
      if globs = [] then false
      else
        let glob0 := globs.takeWhile (fun c => c != ',')
        let globs1 := (globs.dropWhile (fun c => c != ',')).tail
        let glob := strings.TrimSuffix glob0 "/".toList
        if glob = [] then MatchPrefixPatternsGo fuel globs1 target
        else
          let w := walkTarget (strings.CountChar glob (Char.ofNat 47)) target []
          if 0 < w.1 then MatchPrefixPatternsGo fuel globs1 target
          else if gopath.Match glob w.2 = some true then true
          else MatchPrefixPatternsGo fuel globs1 target

/-- Library `MatchPrefixPatterns`: some path prefix of `target` matches one of
the comma-separated glob patterns. -/
def MatchPrefixPatterns (globs target : Str) : Bool :=
  MatchPrefixPatternsGo (globs.length + 1) globs target

end xmod

/-! ## Go package `golang.org/x/mod/semver` -/

namespace semver

/-- Library record `parsed`. -/
structure parsed where
  major : Str
  minor : Str
  patch : Str
  short : Str
  prerelease : Str
  build : Str
  deriving DecidableEq, Repr

/-- Library `isIdentChar`. -/
def isIdentChar (c : Char) : Bool :=
  xmod.isUpper c || xmod.isLower c || xmod.isDigit c || c == '-'

/-- Library `isBadNum`: all digits, longer than one, leading zero. -/
def isBadNum (v : Str) : Bool := v.all xmod.isDigit && decide (1 < v.length) && v.head? == some '0'

/-- Library `isNum`. -/
def isNum (v : Str) : Bool := v.all xmod.isDigit

/-- Library `parseInt`: `(t, rest)`, `none` when `ok` is false. -/
def parseInt (v : Str) : Option (Str × Str) :=
  match v with
  | [] => none
  | c :: _ =>
      if !(xmod.isDigit c) then none
      else
        let t := v.takeWhile xmod.isDigit
        if c = '0' ∧ t.length ≠ 1 then none else some (t, v.dropWhile xmod.isDigit)

/-- Library `parsePrerelease`: the text from the hyphen up to a `+` or the
end, made of non-empty dot-separated identifiers none of which is a bad number. -/
def parsePrerelease (v : Str) : Option (Str × Str) :=
  match v with
  | [] => none
  | c :: cs =>
      if c ≠ '-' then none
      else
        let body := cs.takeWhile (fun d => d != '+')
        if body.all (fun d => isIdentChar d || d == '.')
            && (strings.Split body ".".toList).all (fun ident => !ident.isEmpty && !isBadNum ident)
        then some (c :: body, cs.dropWhile (fun d => d != '+'))
        else none

/-- Library `parseBuild`: the text from the `+` to the end, made of non-empty
dot-separated identifiers. -/
def parseBuild (v : Str) : Option (Str × Str) :=
  match v with
  | [] => none
  | c :: cs =>
      if c ≠ '+' then none
      else if cs.all (fun d => isIdentChar d || d == '.')
          && (strings.Split cs ".".toList).all (fun ident => !ident.isEmpty)
      then some (c :: cs, [])
      else none

/-- The end of library `parse`, after the patch number. -/
def parseTail (major minor patch v : Str) : Option parsed :=
  let pre : Option (Str × Str) :=
    if v.head? = some '-' then parsePrerelease v else some ([], v)
  match pre with
  | none => none
  | some (prerelease, v1) =>
      let bld : Option (Str × Str) :=
        if v1.head? = some '+' then parseBuild v1 else some ([], v1)
      match bld with
      | none => none
      | some (build, v2) =>
          if v2 ≠ [] then none
          else some { major := major, minor := minor, patch := patch, short := [],
                      prerelease := prerelease, build := build }

/-- Library `parse`; `none` when `ok` is false. -/
def parse (v : Str) : Option parsed :=
  match v with
  | [] => none
  | c :: rest =>
      if c ≠ 'v' then none
      else
        match parseInt rest with
        | none => none
        | some (major, v1) =>
            match v1 with
            | [] => some { major := major, minor := "0".toList, patch := "0".toList,
                           short := ".0.0".toList, prerelease := [], build := [] }
            | c1 :: r1 =>
                if c1 ≠ '.' then none
                else
                  match parseInt r1 with
                  | none => none
                  | some (minor, v2) =>
                      match v2 with
                      | [] => some { major := major, minor := minor, patch := "0".toList,
                                     short := ".0".toList, prerelease := [], build := [] }
                      | c2 :: r2 =>
                          if c2 ≠ '.' then none
                          else
                            match parseInt r2 with
                            | none => none
                            | some (patch, v3) => parseTail major minor patch v3

/-- Library `compareInt`: by length, then as text. -/
def compareInt (x y : Str) : Int :=
  if x = y then 0
  else if x.length < y.length then -1
  else if x.length > y.length then 1
  else if x < y then -1 else 1

/-- Library `nextIdent`. -/
def nextIdent (x : Str) : Str × Str :=
  (x.takeWhile (fun c => c != '.'), x.dropWhile (fun c => c != '.'))

/-- The loop of library `comparePrerelease`. -/
def comparePrereleaseGo : Nat → Str → Str → Int
  | 0, x, _ => if x = [] then -1 else 1
  | fuel + 1, x, y =>
      if x ≠ [] ∧ y ≠ [] then
        let dx := (nextIdent x.tail).1
        let dy := (nextIdent y.tail).1
        if dx ≠ dy then
          let ix := isNum dx
          let iy := isNum dy
          if ix ≠ iy then (if ix then -1 else 1)
          else if ix ∧ dx.length < dy.length then -1
          else if ix ∧ dx.length > dy.length then 1
          else if dx < dy then -1 else 1
        else comparePrereleaseGo fuel (nextIdent x.tail).2 (nextIdent y.tail).2
      else if x = [] then -1 else 1

/-- Library `comparePrerelease`. -/
def comparePrerelease (x y : Str) : Int :=
  if x = y then 0
  else if x = [] then 1
  else if y = [] then -1
  else comparePrereleaseGo (x.length + 1) x y

/-- Library `Compare`. -/
def Compare (v w : Str) : Int :=
  match parse v, parse w with
  | none, none => 0
  | none, some _ => -1
  | some _, none => 1
  | some pv, some pw =>
      if compareInt pv.major pw.major ≠ 0 then compareInt pv.major pw.major
      else if compareInt pv.minor pw.minor ≠ 0 then compareInt pv.minor pw.minor
      else if compareInt pv.patch pw.patch ≠ 0 then compareInt pv.patch pw.patch
      else comparePrerelease pv.prerelease pw.prerelease

/-- Library `ByVersion.Less`: by `Compare`, ties broken by the text. -/
def Less (a b : Str) : Bool :=
  if Compare a b ≠ 0 then decide (Compare a b < 0) else decide (a < b)

/-- Library `semver.Sort` (that name is reserved in Lean): sorts by
`ByVersion`.  The order is total and only equal strings tie, so the sorted
arrangement is unique whatever the algorithm; it is computed here by insertion. -/
def SortStrings (list : List Str) : List Str :=
  list.insertionSort (fun a b => Less b a = false)

/-! ### Order keys

The comparisons of the library, read as comparisons in linear orders: the keys
below are what `Compare` and `ByVersion.Less` compare by. -/

/-- The three-way comparison of a linear order, as the library's comparisons
report it: 0, -1 or +1. -/
def sgn {α : Type} [LinearOrder α] (a b : α) : Int :=
  if a = b then 0 else if a < b then -1 else 1

/-- The order key of a number: its length, then its text. -/
def intKey (x : Str) : Lex (Nat × Str) := toLex (x.length, x)

/-- The order key of a prerelease identifier: the numeric ones, by length and
text, below the others, by text. -/
def identKey (d : Str) : Lex (Sum (Lex (Nat × Str)) Str) :=
  if isNum d then toLex (Sum.inl (intKey d)) else toLex (Sum.inr d)

/-- The identifiers that the loop of `comparePrerelease` reads off a
prerelease, in order. -/
def identsGo : Nat → Str → List Str
  | 0, _ => []
  | fuel + 1, x =>
      if x = [] then [] else (nextIdent x.tail).1 :: identsGo fuel (nextIdent x.tail).2

/-- The order keys of the identifiers of a prerelease. -/
def identKeys (x : Str) : List (Lex (Sum (Lex (Nat × Str)) Str)) :=
  (identsGo (x.length + 1) x).map identKey

/-- The order key of a prerelease: no prerelease is above every prerelease. -/
def preKey (x : Str) : WithTop (List (Lex (Sum (Lex (Nat × Str)) Str))) :=
  if x = [] then ⊤ else ((identKeys x : List (Lex (Sum (Lex (Nat × Str)) Str))) :
    WithTop (List (Lex (Sum (Lex (Nat × Str)) Str))))

/-- The order key of a parsed version. -/
def parsedKey (p : parsed) :
    Lex (Lex (Nat × Str) × Lex (Lex (Nat × Str) × Lex (Lex (Nat × Str)
      × WithTop (List (Lex (Sum (Lex (Nat × Str)) Str)))))) :=
  toLex (intKey p.major, toLex (intKey p.minor, toLex (intKey p.patch, preKey p.prerelease)))

/-- The order key of a version text: an invalid version is below every valid
one. -/
def versionKey (v : Str) :
    WithBot (Lex (Lex (Nat × Str) × Lex (Lex (Nat × Str) × Lex (Lex (Nat × Str)
      × WithTop (List (Lex (Sum (Lex (Nat × Str)) Str))))))) :=
  match parse v with
  | none => ⊥
  | some p => ((parsedKey p : Lex (Lex (Nat × Str) × Lex (Lex (Nat × Str) × Lex (Lex (Nat × Str)
      × WithTop (List (Lex (Sum (Lex (Nat × Str)) Str))))))) : WithBot _)

/-- The order key of the sort: the version, then the text. -/
def sortKey (v : Str) :
    Lex (WithBot (Lex (Lex (Nat × Str) × Lex (Lex (Nat × Str) × Lex (Lex (Nat × Str)
      × WithTop (List (Lex (Sum (Lex (Nat × Str)) Str))))))) × Str) :=
  toLex (versionKey v, v)

end semver

/-! ## Package `astera`: errors and the module record -/

/-- Go error values.  The first three are the sentinels of `astera.go`;
`New` is any error without a wrapped cause (`errors.New`, `fmt.Errorf`
without `%w`, errors of libraries); `Wrap` is `fmt.Errorf` with a `%w` operand. -/
inductive Error where
  | ErrModuleAlreadyExists
  | ErrModuleNotFound
  | ErrInvalidResource
  | New (msg : Str)
  | Wrap (msg : Str) (err : Error)
  deriving DecidableEq, Repr

/-- Go `errors.Is err target` for a comparable target: `err` or an error in
its unwrap chain equals `target`. -/
def Error.Is : Error → Error → Bool
  | Error.Wrap msg inner, target =>
      decide (Error.Wrap msg inner = target) || Error.Is inner target
  | e, target => decide (e = target)

/-- The record `astera.Module`. -/
structure Module where
  Name : Str
  Version : Str
  ZipHash : Str
  Info : Bytes
  Mod : Bytes
  Zip : Bytes
  deriving DecidableEq, Repr

/-- The record `astera.Origin`. -/
structure Origin where
  VCS : Str
  URL : Str
  Hash : Str
  Ref : Str
  deriving DecidableEq, Repr

/-- The record `astera.Info`. -/
structure Info where
  Version : Str
  Time : Str
  Origin : Origin
  deriving DecidableEq, Repr

/-! ## Package `sqlite3`: the module repository -/

namespace sqlite3

/-- One row of table `module`.  A blob column is `none` when it is SQL `NULL`. -/
structure Row where
  name : Str
  version : Str
  mod : Bytes
  info : Bytes
  zip_hash : Str
  zip : Bytes
  deriving DecidableEq, Repr

/-- Modelled from the spec: the schema of table `module` (the migrations are
not part of the sources): columns `name, version, mod, info, zip_hash, zip`
with primary key `(name, version)` and `mod BLOB NOT NULL`; the table is the
list of its rows in insertion order.  The connection is healthy: statements fail only in the ways
the getters distinguish (`sql.ErrNoRows`). -/
structure DB where
  rows : List Row
  deriving DecidableEq, Repr

/-- The primary-key constraint: no two rows share `(name, version)`. -/
def DB.Valid (d : DB) : Prop :=
  (d.rows.map (fun r => (r.name, r.version))).Nodup

instance (d : DB) : Decidable d.Valid := by
  unfold DB.Valid; infer_instance

/-- The row selected by `WHERE name = ? AND version = ?`. -/
def DB.find (d : DB) (name version : Str) : Option Row :=
  d.rows.find? (fun r => decide (r.name = name ∧ r.version = version))

/-- The values bound by `InsertModule`, in the columns they go to. -/
def Row.ofModule (module : Module) : Row where
  name := module.Name
  version := module.Version
  mod := module.Mod
  info := module.Info
  zip_hash := module.ZipHash
  zip := module.Zip

/-- The error of the driver for a `NULL` bound to a `NOT NULL` column: the
statement is refused. -/
def errNotNullMod : Error := Error.New "NOT NULL constraint failed: module.mod".toList

/-- `DB.InsertModule`: `INSERT ... ON CONFLICT DO NOTHING`.  A nil byte slice
is bound as `NULL`; column `mod` is `NOT NULL`, which the conflict clause does
not cover (it answers uniqueness only), so a record with a nil `Mod` is refused
whatever the table holds.  Otherwise a row is added unless the key is present.
Returns the error and the new table. -/
def InsertModule (d : DB) (module : Module) : Option Error × DB :=
  match module.Mod with
  | none => (some errNotNullMod, d)
  | some _ =>
      match d.find module.Name module.Version with
      | some _ => (none, d)
      | none => (none, { rows := d.rows ++ [Row.ofModule module] })

/-- `DB.GetVersionList`: `SELECT version FROM module WHERE name = ?`. -/
def GetVersionList (d : DB) (name : Str) : Except Error (List Str) :=
  Except.ok ((d.rows.filter (fun r => decide (r.name = name))).map (fun r => r.version))

/-- `DB.GetVersionInfo`: scans column `info` into a `sql.Null`; no row or an
invalid (NULL) value is `ErrModuleNotFound`. -/
def GetVersionInfo (d : DB) (name version : Str) : Except Error Bytes :=
  match d.find name version with
  | none => Except.error Error.ErrModuleNotFound
  | some row =>
      match row.info with
      | none => Except.error Error.ErrModuleNotFound
      | some v => Except.ok (some v)

/-- `DB.GetModFile`: as `GetVersionInfo`, over column `mod`. -/
def GetModFile (d : DB) (name version : Str) : Except Error Bytes :=
  match d.find name version with
  | none => Except.error Error.ErrModuleNotFound
  | some row =>
      match row.mod with
      | none => Except.error Error.ErrModuleNotFound
      | some v => Except.ok (some v)

/-- `DB.GetModuleZip`: scans column `zip` straight into a `[]byte`; only the
absence of the row is `ErrModuleNotFound`, a NULL column scans to the nil slice. -/
def GetModuleZip (d : DB) (name version : Str) : Except Error Bytes :=
  match d.find name version with
  | none => Except.error Error.ErrModuleNotFound
  | some row => Except.ok row.zip

/-- `DB.ModuleExists`: `SELECT EXISTS(...)`. -/
def ModuleExists (d : DB) (name version : Str) : Except Error Bool :=
  Except.ok (d.find name version).isSome

end sqlite3

/-! ## Collaborators of the resolver -/

/-- The interface `astera.ModuleRepository` over a store state `σ`.  The
getters read the state; `InsertModule` returns its error and the next state. -/
structure ModuleRepository (σ : Type) where
  InsertModule : σ → Module → Option Error × σ
  GetVersionList : σ → Str → Except Error (List Str)
  GetVersionInfo : σ → Str → Str → Except Error Bytes
  GetModFile : σ → Str → Str → Except Error Bytes
  GetModuleZip : σ → Str → Str → Except Error Bytes
  ModuleExists : σ → Str → Str → Except Error Bool

/-- The SQLite repository as an `astera.ModuleRepository`. -/
def sqlite3.repository : ModuleRepository sqlite3.DB where
  InsertModule := sqlite3.InsertModule
  GetVersionList := sqlite3.GetVersionList
  GetVersionInfo := sqlite3.GetVersionInfo
  GetModFile := sqlite3.GetModFile
  GetModuleZip := sqlite3.GetModuleZip
  ModuleExists := sqlite3.ModuleExists

/-- The interface `astera.VCS`. -/
structure VCS where
  Clone : Str → Str → Except Error Module
  FetchTags : Str → Except Error (List Str)

/-- An HTTP response as `fetch` sees it: the status code and the outcome of
reading the body to its end. -/
structure Response where
  StatusCode : Nat
  Body : Except Error (List Char)

/-- The record `GoProxyClient`: its HTTP client, as the functions of `net/url`
and `net/http` that the methods call.  `JoinPath base elems` is
`url.JoinPath`, `NewRequest url` is the error of
`http.NewRequestWithContext` for a GET of `url`, and `Do url` is
`client.Do` on that request. -/
structure GoProxyClient where
  JoinPath : Str → List Str → Except Error Str
  NewRequest : Str → Option Error
  Do : Str → Except Error Response

/-- One call made by the resolver on a collaborator. -/
inductive Call where
  | InsertModule (m : Module)
  | GetVersionList (name : Str)
  | GetVersionInfo (name version : Str)
  | GetModFile (name version : Str)
  | GetModuleZip (name version : Str)
  | ModuleExists (name version : Str)
  | Clone (repo tag : Str)
  | FetchTags (repo : Str)
  | FetchLatest (module : Str)
  | FetchModuleInfo (module version : Str)
  | FetchModuleMod (module version : Str)
  | FetchModuleZip (module version : Str)
  deriving DecidableEq, Repr

/-- The call is one on the upstream proxy client. -/
def Call.isUpstream : Call → Bool
  | Call.FetchLatest _ => true
  | Call.FetchModuleInfo _ _ => true
  | Call.FetchModuleMod _ _ => true
  | Call.FetchModuleZip _ _ => true
  | _ => false

/-- The call is one on the VCS adapter. -/
def Call.isVCS : Call → Bool
  | Call.Clone _ _ => true
  | Call.FetchTags _ => true
  | _ => false

/-- The call is `InsertModule`. -/
def Call.isInsert : Call → Bool
  | Call.InsertModule _ => true
  | _ => false

/-- The call is `ModuleExists`. -/
def Call.isExists : Call → Bool
  | Call.ModuleExists _ _ => true
  | _ => false

/-- What a run has reached: the state of the store and the calls made so far. -/
structure Run (σ : Type) where
  store : σ
  trace : List Call

/-- Append a call to the trace. -/
def Run.log {σ : Type} (run : Run σ) (c : Call) : Run σ :=
  { store := run.store, trace := run.trace ++ [c] }

/-- How a Go function call ends: with a value and a nil error, with a non-nil
error, or in a run-time panic. -/
inductive Outcome (α : Type) where
  | ok (a : α)
  | error (e : Error)
  | panic
  deriving DecidableEq, Repr

/-- An `Except` as an `Outcome`. -/
def Outcome.ofExcept {α : Type} : Except Error α → Outcome α
  | Except.ok a => Outcome.ok a
  | Except.error e => Outcome.error e

/-! ## Package `modstore`: the upstream client (`goproxyclient.go`) -/

namespace modstore

/-- Constant `proxyGolangURL`. -/
def proxyGolangURL : Str := "https://proxy.golang.org".toList

/-- `GoProxyClient.fetch`. -/
def GoProxyClient.fetch (c : GoProxyClient) (url : Str) : Except Error Bytes :=
  match c.NewRequest url with
  | some err => Except.error err
  | none =>
      match c.Do url with
      | Except.error err => Except.error err
      | Except.ok resp =>
          if resp.StatusCode = 404 ∨ resp.StatusCode = 410 then
            Except.error Error.ErrModuleNotFound
          else if resp.StatusCode ≠ 200 then
            Except.error (Error.New
              ("request failed with status code ".toList ++ (Nat.repr resp.StatusCode).toList))
          else
            match resp.Body with
            | Except.error err => Except.error err
            | Except.ok body => Except.ok (some body)

/-- `GoProxyClient.FetchLatest`. -/
def GoProxyClient.FetchLatest (c : GoProxyClient) (module : Str) : Except Error Bytes :=
  match c.JoinPath proxyGolangURL [module, "@latest".toList] with
  | Except.error err => Except.error err
  | Except.ok u => GoProxyClient.fetch c u

/-- `GoProxyClient.FetchModuleMod`. -/
def GoProxyClient.FetchModuleMod (c : GoProxyClient) (module version : Str) :
    Except Error Bytes :=
  match c.JoinPath proxyGolangURL [module, "@v".toList, version ++ ".mod".toList] with
  | Except.error err => Except.error err
  | Except.ok u => GoProxyClient.fetch c u

/-- `GoProxyClient.FetchModuleZip`. -/
def GoProxyClient.FetchModuleZip (c : GoProxyClient) (module version : Str) :
    Except Error Bytes :=
  match c.JoinPath proxyGolangURL [module, "@v".toList, version ++ ".zip".toList] with
  | Except.error err => Except.error err
  | Except.ok u => GoProxyClient.fetch c u

/-- `GoProxyClient.FetchModuleInfo`. -/
def GoProxyClient.FetchModuleInfo (c : GoProxyClient) (module version : Str) :
    Except Error Bytes :=
  match c.JoinPath proxyGolangURL [module, "@v".toList, version ++ ".info".toList] with
  | Except.error err => Except.error err
  | Except.ok u => GoProxyClient.fetch c u

/-! ## Package `modstore`: the resolver (`modstore.go`) -/

/-- Constant `infoSuffix`. -/
def infoSuffix : Str := ".info".toList

/-- Constant `modSuffix`. -/
def modSuffix : Str := ".mod".toList

/-- Constant `zipSuffix`. -/
def zipSuffix : Str := ".zip".toList

/-- Constant `zipHashSuffix`. -/
def zipHashSuffix : Str := ".ziphash".toList

/-- The record `ModuleStore`.  Field `weakCache` is left out: the single-flight
cache is taken in its sequential meaning, where `Do key f` runs `f` (see
`Do`).  Field `json` stands for `json.Unmarshal` into an `astera.Info`, a
function of package `encoding/json`. -/
structure ModuleStore (σ : Type) where
  moduleRepository : ModuleRepository σ
  vcs : VCS
  goProxyClient : GoProxyClient
  goPrivate : Str
  json : Bytes → Except Error Info

/-- `cacheKey`: the text `module-version.suffix`. -/
def cacheKey (module version suffix : Str) : Str :=
  module ++ "-".toList ++ version ++ suffix

/-- `weakCache.Do` for a single sequential caller: the producer is run. -/
def Do {α : Type} (_key : Str) (f : α) : α := f

/-- The error of `xmod.UnescapePath` (its text is abbreviated). -/
def errUnescapePath (escaped : Str) : Error :=
  Error.New ("invalid escaped module path ".toList ++ escaped)

/-- The error of `xmod.UnescapeVersion` (its text is abbreviated). -/
def errUnescapeVersion (escaped : Str) : Error :=
  Error.New ("invalid escaped version ".toList ++ escaped)

/-- The error `fmt.Errorf("%w: query %s", astera.ErrInvalidResource, query)`. -/
def errInvalidQuery (query : Str) : Error :=
  Error.Wrap ("invalid resource: query ".toList ++ query) Error.ErrInvalidResource

/-- `ModuleStore.queryVersionsList`. -/
def queryVersionsList {σ : Type} (c : ModuleStore σ) (module : Str) (run : Run σ) :
    Except Error (List Str) × Run σ :=
  if xmod.MatchPrefixPatterns c.goPrivate module then
    match xmod.UnescapePath module with
    | none => (Except.error (errUnescapePath module), run)
    | some module1 => (c.vcs.FetchTags module1, run.log (Call.FetchTags module1))
  else
    (c.moduleRepository.GetVersionList run.store module, run.log (Call.GetVersionList module))

/-- `ModuleStore.queryLatest`.  Indexing the sorted tags at `len - 1` panics
when there is no tag. -/
def queryLatest {σ : Type} (c : ModuleStore σ) (module : Str) (run : Run σ) :
    Outcome Str × Run σ :=
  if xmod.MatchPrefixPatterns c.goPrivate module then
    match xmod.UnescapePath module with
    | none => (Outcome.error (errUnescapePath module), run)
    | some module1 =>
        match c.vcs.FetchTags module1 with
        | Except.error err => (Outcome.error err, run.log (Call.FetchTags module1))
        | Except.ok tagLists =>
            match (semver.SortStrings tagLists).getLast? with
            | none => (Outcome.panic, run.log (Call.FetchTags module1))
            | some latest => (Outcome.ok latest, run.log (Call.FetchTags module1))
  else
    match GoProxyClient.FetchLatest c.goProxyClient module with
    | Except.error err => (Outcome.error err, run.log (Call.FetchLatest module))
    | Except.ok tag => (Outcome.ok (tag.getD []), run.log (Call.FetchLatest module))

/-- `ModuleStore.queryRepository`. -/
def queryRepository (_module _version _modulePostfix : Str)
    (repositoryGet : Except Error Bytes) : Except Error Bytes :=
  match repositoryGet with
  | Except.error err => Except.error err
  | Except.ok result => Except.ok result

/-- `ModuleStore.queryModuleInfoCache`. -/
def queryModuleInfoCache {σ : Type} (c : ModuleStore σ) (module version : Str)
    (run : Run σ) : Except Error Bytes × Run σ :=
  Do (cacheKey module version infoSuffix)
    (queryRepository module version "info".toList
        (c.moduleRepository.GetVersionInfo run.store module version),
      run.log (Call.GetVersionInfo module version))

/-- `ModuleStore.queryModuleModCache`. -/
def queryModuleModCache {σ : Type} (c : ModuleStore σ) (module version : Str)
    (run : Run σ) : Except Error Bytes × Run σ :=
  Do (cacheKey module version modSuffix)
    (queryRepository module version "mod".toList
        (c.moduleRepository.GetModFile run.store module version),
      run.log (Call.GetModFile module version))

/-- `ModuleStore.queryModuleZipCache`. -/
def queryModuleZipCache {σ : Type} (c : ModuleStore σ) (module version : Str)
    (run : Run σ) : Except Error Bytes × Run σ :=
  Do (cacheKey module version zipSuffix)
    (queryRepository module version "zip".toList
        (c.moduleRepository.GetModuleZip run.store module version),
      run.log (Call.GetModuleZip module version))

/-- `ModuleStore.fetchAndCache`, for each of the three fetch functions. -/
def fetchAndCache {σ : Type} (module version suffix : Str) (call : Call)
    (fetchFn : Str → Str → Except Error Bytes) (run : Run σ) : Except Error Bytes × Run σ :=
  Do (cacheKey module version suffix) (fetchFn module version, run.log call)

/-- `ModuleStore.fetchModule`. -/
def fetchModule {σ : Type} (c : ModuleStore σ) (module version : Str) (run : Run σ) :
    Except Error Module × Run σ :=
  match fetchAndCache module version infoSuffix (Call.FetchModuleInfo module version)
      (GoProxyClient.FetchModuleInfo c.goProxyClient) run with
  | (Except.error err, run1) => (Except.error err, run1)
  | (Except.ok info, run1) =>
      match fetchAndCache module version modSuffix (Call.FetchModuleMod module version)
          (GoProxyClient.FetchModuleMod c.goProxyClient) run1 with
      | (Except.error err, run2) => (Except.error err, run2)
      | (Except.ok mod, run2) =>
          match fetchAndCache module version zipSuffix (Call.FetchModuleZip module version)
              (GoProxyClient.FetchModuleZip c.goProxyClient) run2 with
          | (Except.error err, run3) => (Except.error err, run3)
          | (Except.ok zip, run3) =>
              match c.json info with
              | Except.error err => (Except.error err, run3)
              | Except.ok infoResponse =>
                  (Except.ok { Name := module, Version := version, Info := info, Mod := mod,
                               Zip := zip, ZipHash := infoResponse.Origin.Hash }, run3)

/-- `ModuleStore.fetchAndSetModule`; the result is the returned error. -/
def fetchAndSetModule {σ : Type} (c : ModuleStore σ) (module version : Str) (run : Run σ) :
    Option Error × Run σ :=
  let run1 := run.log (Call.ModuleExists module version)
  match c.moduleRepository.ModuleExists run.store module version with
  | Except.error err => (some err, run1)
  | Except.ok true => (none, run1)
  | Except.ok false =>
      let fetched : Except Error Module × Run σ :=
        if xmod.MatchPrefixPatterns c.goPrivate module then
          match xmod.UnescapePath module with
          | none => (Except.error (errUnescapePath module), run1)
          | some module1 =>
              match xmod.UnescapeVersion version with
              | none => (Except.error (errUnescapeVersion version), run1)
              | some version1 =>
                  (c.vcs.Clone module1 version1, run1.log (Call.Clone module1 version1))
        else fetchModule c module version run1
      match fetched with
      | (Except.error err, run2) => (some err, run2)
      | (Except.ok m, run2) =>
          ((c.moduleRepository.InsertModule run2.store m).1,
            { store := (c.moduleRepository.InsertModule run2.store m).2,
              trace := run2.trace ++ [Call.InsertModule m] })

/-- `ModuleStore.queryModuleInfo`. -/
def queryModuleInfo {σ : Type} (c : ModuleStore σ) (module version : Str) (run : Run σ) :
    Except Error Bytes × Run σ :=
  match queryModuleInfoCache c module version run with
  | (Except.ok result, run1) => (Except.ok result, run1)
  | (Except.error err, run1) =>
      if err.Is Error.ErrModuleNotFound then
        match fetchAndSetModule c module version run1 with
        | (some err1, run2) => (Except.error err1, run2)
        | (none, run2) => queryModuleInfoCache c module version run2
      else (Except.error err, run1)

/-- `ModuleStore.queryModuleMod`. -/
def queryModuleMod {σ : Type} (c : ModuleStore σ) (module version : Str) (run : Run σ) :
    Except Error Bytes × Run σ :=
  match queryModuleModCache c module version run with
  | (Except.ok result, run1) => (Except.ok result, run1)
  | (Except.error err, run1) =>
      if err.Is Error.ErrModuleNotFound then
        match fetchAndSetModule c module version run1 with
        | (some err1, run2) => (Except.error err1, run2)
        | (none, run2) => queryModuleModCache c module version run2
      else (Except.error err, run1)

/-- `ModuleStore.queryModuleZip`. -/
def queryModuleZip {σ : Type} (c : ModuleStore σ) (module version : Str) (run : Run σ) :
    Except Error Bytes × Run σ :=
  match queryModuleZipCache c module version run with
  | (Except.ok result, run1) => (Except.ok result, run1)
  | (Except.error err, run1) =>
      if err.Is Error.ErrModuleNotFound then
        match fetchAndSetModule c module version run1 with
        | (some err1, run2) => (Except.error err1, run2)
        | (none, run2) => queryModuleZipCache c module version run2
      else (Except.error err, run1)

/-- The first part of `ModuleStore.Query`: the path, already without its
leading slash, is cut into `(module, resource)`; `none` is the early return
with `ErrInvalidResource`. -/
def splitQuery (query : Str) : Option (Str × Str) :=
  if strings.HasSuffix query "/@latest".toList then
    some (strings.TrimSuffix query "/@latest".toList, "@latest".toList)
  else if strings.HasSuffix query "/list".toList then
    some (strings.TrimSuffix query "/@v/list".toList, "list".toList)
  else
    match strings.Split query "/@v/".toList with
    | [module, resource] => some (module, resource)
    | _ => none

/-- The artifact cases of the `switch` of `ModuleStore.Query`: the version is
unescaped for validation, then the getter for the kind is called. -/
def queryArtifact {σ : Type} (ver : Str)
    (getter : Str → Run σ → Except Error Bytes × Run σ) (run : Run σ) :
    Outcome Bytes × Run σ :=
  match xmod.UnescapeVersion ver with
  | none => (Outcome.error (errUnescapeVersion ver), run)
  | some _ => (Outcome.ofExcept (getter ver run).1, (getter ver run).2)

/-- `ModuleStore.Query`. -/
def Query {σ : Type} (c : ModuleStore σ) (query0 : Str) (run : Run σ) :
    Outcome Bytes × Run σ :=
  let query := strings.TrimPrefix query0 "/".toList
  match splitQuery query with
  | none => (Outcome.error (errInvalidQuery query), run)
  | some (module, resource) =>
      match xmod.UnescapePath module with
      | none => (Outcome.error (errUnescapePath module), run)
      | some _ =>
          if resource = "list".toList then
            match queryVersionsList c module run with
            | (Except.error err, run1) => (Outcome.error err, run1)
            | (Except.ok versionLists, run1) =>
                (Outcome.ok (some (strings.Join versionLists [Char.ofNat 10])), run1)
          else if resource = "@latest".toList then
            match queryLatest c module run with
            | (Outcome.ok latest, run1) => (Outcome.ok (some latest), run1)
            | (Outcome.error err, run1) => (Outcome.error err, run1)
            | (Outcome.panic, run1) => (Outcome.panic, run1)
          else if strings.HasSuffix resource infoSuffix then
            queryArtifact (strings.TrimSuffix resource infoSuffix) (queryModuleInfo c module) run
          else if strings.HasSuffix resource modSuffix then
            queryArtifact (strings.TrimSuffix resource modSuffix) (queryModuleMod c module) run
          else if strings.HasSuffix resource zipSuffix then
            queryArtifact (strings.TrimSuffix resource zipSuffix) (queryModuleZip c module) run
          else (Outcome.error (errInvalidQuery query), run)

/-! ### The artifact requests, by kind

The three artifact cases of `Query` differ in the suffix, the getter and the
`queryModule...` function; they are indexed by a kind so that statements
about "a request of kind k" can be written once. -/

/-- The kind of an artifact. -/
inductive Kind where
  | info
  | mod
  | zip
  deriving DecidableEq, Repr

/-- The suffix of the kind. -/
def Kind.suffix : Kind → Str
  | Kind.info => infoSuffix
  | Kind.mod => modSuffix
  | Kind.zip => zipSuffix

/-- The request path `module/@v/version.kind`. -/
def artifactPath (module version : Str) (k : Kind) : Str :=
  module ++ "/@v/".toList ++ version ++ k.suffix

/-- The repository getter of the kind. -/
def Kind.read {σ : Type} (repo : ModuleRepository σ) : Kind → σ → Str → Str → Except Error Bytes
  | Kind.info => repo.GetVersionInfo
  | Kind.mod => repo.GetModFile
  | Kind.zip => repo.GetModuleZip

/-- The trace entry of the repository getter of the kind. -/
def Kind.call : Kind → Str → Str → Call
  | Kind.info => Call.GetVersionInfo
  | Kind.mod => Call.GetModFile
  | Kind.zip => Call.GetModuleZip

/-- The `queryModule...` function of the kind. -/
def Kind.query {σ : Type} (c : ModuleStore σ) :
    Kind → Str → Str → Run σ → Except Error Bytes × Run σ
  | Kind.info => queryModuleInfo c
  | Kind.mod => queryModuleMod c
  | Kind.zip => queryModuleZip c

/-- The field of a module record that holds the artifact of the kind. -/
def Kind.field (m : Module) : Kind → Bytes
  | Kind.info => m.Info
  | Kind.mod => m.Mod
  | Kind.zip => m.Zip

end modstore

/-! ## Go packages `strings` (white space) and `strconv` -/

namespace strings

/-- Go `unicode.IsSpace`: the ASCII white space, NEL, NBSP and the Unicode
space separators. -/
def isSpace (c : Char) : Bool :=
  let n := c.toNat
  decide (n = 9 ∨ n = 10 ∨ n = 11 ∨ n = 12 ∨ n = 13 ∨ n = 32 ∨ n = 0x85 ∨ n = 0xA0
    ∨ n = 0x1680 ∨ (0x2000 ≤ n ∧ n ≤ 0x200A) ∨ n = 0x2028 ∨ n = 0x2029 ∨ n = 0x202F
    ∨ n = 0x205F ∨ n = 0x3000)

/-- Go `strings.TrimSpace`. -/
def TrimSpace (s : Str) : Str :=
  ((s.dropWhile isSpace).reverse.dropWhile isSpace).reverse

end strings

namespace strconv

/-- The value of a run of decimal digits. -/
def digitsValue (s : Str) : Nat :=
  s.foldl (fun acc c => 10 * acc + (c.toNat - 48)) 0

/-- Go `strconv.Atoi` on a 64-bit platform: an optional sign, then one or more
decimal digits, the value within the range of `int`; `none` is an error
(syntax or range). -/
def Atoi (s : Str) : Option Int :=
  let neg := decide (s.head? = some '-')
  let body := if s.head? = some '-' ∨ s.head? = some '+' then s.tail else s
  if body = [] ∨ body.all xmod.isDigit = false then none
  else if neg then
    (if digitsValue body ≤ 2 ^ 63 then some (-(digitsValue body : Int)) else none)
  else
    (if digitsValue body < 2 ^ 63 then some (digitsValue body : Int) else none)

end strconv

/-! ## Package `git`: the VCS adapter (`git.go`) -/

namespace git

/-- The record `Git`, with the means to run a command: `CombinedOutput name
args` is `exec.Command(name, args...).CombinedOutput()`, the output and the
error of the process. -/
structure Git where
  GtiBinary : Str
  tempDir : Str
  CombinedOutput : Str → List Str → List Char × Option Error

/-- `stripModuleMajorSuffix`. -/
def stripModuleMajorSuffix (p0 : Str) : Str :=
  let p := strings.TrimSpace p0
  if p = [] then p
  else
    let parts := strings.Split p "/".toList
    let last := parts.getLastD []
    if 1 < last.length ∧ last.head? = some 'v' then
      match strconv.Atoi last.tail with
      | some n => if n ≥ 2 then strings.Join parts.dropLast "/".toList else p
      | none => p
    else p

/-- The final segments that are taken for a major-version suffix, in the
words of the amended claim: `v`, an optional `+`, then one or more decimal
digits whose value is at least 2 and at most `2^63 - 1`. -/
def isMajorSuffix (last : Str) : Bool :=
  match last with
  | [] => false
  | c :: rest =>
      let ds := if rest.head? = some '+' then rest.tail else rest
      c == 'v' && !ds.isEmpty && ds.all xmod.isDigit
        && decide (2 ≤ strconv.digitsValue ds) && decide (strconv.digitsValue ds < 2 ^ 63)

/-- `Git.AddPrefixToRepo`. -/
def AddPrefixToRepo (repo0 : Str) : Str :=
  let repo := stripModuleMajorSuffix repo0
  if strings.HasPrefix repo "http://".toList ∨ strings.HasPrefix repo "https://".toList then repo
  else "https://".toList ++ repo

/-- A line of `ls-remote --tags` for a tag: the hash, a tab, and the
reference `refs/tags/name`. -/
def tagLine (hash name : Str) : Str :=
  hash ++ [Char.ofNat 9] ++ "refs/tags/".toList ++ name

/-- The loop of `Git.FetchTags` over the lines of the output. -/
def parseTagLines : List Str → List Str
  | [] => []
  | line :: rest =>
      if line = [] then parseTagLines rest
      else
        match strings.Split line [Char.ofNat 9] with
        | [_, ref] =>
            match (strings.Split ref "/".toList).getLast? with
            | none => parseTagLines rest
            | some tag => tag :: parseTagLines rest
        | _ => parseTagLines rest

/-- A line of the output of `ls-remote --tags`, as the claim on tag parsing
sorts them: a tag line, or any other text. -/
inductive OutputLine where
  | tag (hash name : Str)
  | other (text : Str)

/-- The text of the line. -/
def OutputLine.render : OutputLine → Str
  | OutputLine.tag hash name => tagLine hash name
  | OutputLine.other text => text

/-- The tag name the line stands for, if it is a tag line. -/
def OutputLine.name? : OutputLine → Option Str
  | OutputLine.tag _ name => some name
  | OutputLine.other _ => none

/-- The line is of its form: a tag line has a hash without tab or newline and
a name without slash, tab or newline; any other line has no newline and is
empty or does not split into exactly two tab-separated fields. -/
def OutputLine.WellFormed : OutputLine → Prop
  | OutputLine.tag hash name =>
      Char.ofNat 9 ∉ hash ∧ Char.ofNat 10 ∉ hash
        ∧ Char.ofNat 47 ∉ name ∧ Char.ofNat 9 ∉ name ∧ Char.ofNat 10 ∉ name
  | OutputLine.other text =>
      Char.ofNat 10 ∉ text ∧ (text = [] ∨ (strings.Split text [Char.ofNat 9]).length ≠ 2)

instance (e : OutputLine) : Decidable e.WellFormed := by
  cases e <;> unfold OutputLine.WellFormed <;> infer_instance

/-- `Git.FetchTags`. -/
def FetchTags (g : Git) (repo : Str) : Except Error (List Str) :=
  let repoURL := AddPrefixToRepo repo
  match g.CombinedOutput g.GtiBinary ["ls-remote".toList, "--tags".toList, repoURL] with
  | (out, some cmdErr) =>
      Except.error (Error.Wrap ("failed to fetch tags: ".toList ++ out) cmdErr)
  | (out, none) => Except.ok (parseTagLines (strings.Split out [Char.ofNat 10]))

end git

/-! ## Package `handler` (`handler.go`) -/

namespace handler

/-- Constant `sumDbPath`. -/
def sumDbPath : Str := "/sumdb/sum.golang.org/supported".toList

/-- What was written to the `http.ResponseWriter`: the status code and the body. -/
structure Written where
  status : Nat
  body : Str
  deriving DecidableEq, Repr

/-- The record `Handler`: field `cache` is an `astera.GoProxyService`, of which
`ServeHTTP` uses `Query`. -/
structure Handler where
  cache : Str → Outcome Bytes

/-- Go `http.Error`: the status code, and the message followed by a newline. -/
def httpError (error : Str) (code : Nat) : Written :=
  { status := code, body := error ++ [Char.ofNat 10] }

/-- `Handler.ServeHTTP` on a request for `path`: what is written (`none` when
`Query` panics, and the panic leaves the handler), and the paths `Query` was
called with. -/
def ServeHTTP (h : Handler) (path : Str) : Option Written × List Str :=
  if path = sumDbPath then (some (httpError "not found".toList 404), [])
  else
    match h.cache path with
    | Outcome.panic => (none, [path])
    | Outcome.error err =>
        if err.Is Error.ErrModuleNotFound then
          (some (httpError "module not found".toList 404), [path])
        else (some (httpError "internal server error".toList 500), [path])
    | Outcome.ok resp => (some { status := 200, body := resp.getD [] }, [path])

end handler

/-! ## Go packages `path`, `os` and `path/filepath`: the file system -/

namespace gopath

/-- The loop of Go `path.Clean` over the elements of the path: `ups` counts
the leading `..` elements that were kept, `reals` holds the other elements
kept so far, last first. -/
def cleanGo (rooted : Bool) : List Str → Nat → List Str → Nat × List Str
  | [], ups, reals => (ups, reals)
  | e :: es, ups, reals =>
      if e = [] ∨ e = ".".toList then cleanGo rooted es ups reals
      else if e = "..".toList then
        match reals with
        | _ :: rs => cleanGo rooted es ups rs
        | [] => if rooted then cleanGo rooted es ups [] else cleanGo rooted es (ups + 1) []
      else cleanGo rooted es ups (e :: reals)

/-- Go `path.Clean`. -/
def Clean (path : Str) : Str :=
  if path = [] then ".".toList
  else
    let rooted := decide (path.head? = some (Char.ofNat 47))
    let r := cleanGo rooted (strings.Split path "/".toList) 0 []
    let elems := List.replicate r.1 "..".toList ++ r.2.reverse
    if rooted then Char.ofNat 47 :: strings.Join elems "/".toList
    else if elems = [] then ".".toList
    else strings.Join elems "/".toList

/-- Go `path.Join`: the elements from the first non-empty one on, joined by
slashes and cleaned; the empty text when all are empty. -/
def Join (elem : List Str) : Str :=
  if elem.all (fun e => e.isEmpty) then []
  else Clean (strings.Join (elem.dropWhile (fun e => e.isEmpty)) "/".toList)

/-- Go `path.Base`: the last element of the path, trailing slashes apart. -/
def Base (path : Str) : Str :=
  if path = [] then ".".toList
  else
    match ((strings.Split path "/".toList).filter (fun e => !e.isEmpty)).getLast? with
    | none => "/".toList
    | some e => e

end gopath

namespace os

/-- The file system, as a finite map from path to bytes: the regular files,
each under its clean path, relative to the working directory or absolute.  A
directory is a proper ancestor of a file; the working directory, the
directories above it and the root directory exist always.  There are no
symbolic links and no permissions: an operation fails only as the resolution
of its path does. -/
structure FS where
  files : List (Str × List Char)

/-- Go `os.ErrNotExist`. -/
def ErrNotExist : Error := Error.New "file does not exist".toList

/-- Go `syscall.EISDIR`. -/
def EISDIR : Error := Error.New "is a directory".toList

/-- Go `syscall.ENOTDIR`. -/
def ENOTDIR : Error := Error.New "not a directory".toList

/-- The `*fs.PathError` of an operation on a path that does not exist; it
unwraps to `ErrNotExist`. -/
def errPathNotExist (op path : Str) : Error :=
  Error.Wrap (op ++ " ".toList ++ path ++ ": no such file or directory".toList) ErrNotExist

/-- The `*fs.PathError` of reading a directory as a file; it does not unwrap to
`ErrNotExist`. -/
def errPathIsDir (op path : Str) : Error :=
  Error.Wrap (op ++ " ".toList ++ path ++ ": is a directory".toList) EISDIR

/-- The `*fs.PathError` of a path that leads through a regular file; it does
not unwrap to `ErrNotExist`. -/
def errPathNotDir (op path : Str) : Error :=
  Error.Wrap (op ++ " ".toList ++ path ++ ": not a directory".toList) ENOTDIR

/-- The bytes that the map holds at the path, if any. -/
def FS.lookup (fs : FS) (path : Str) : Option (List Char) :=
  (fs.files.find? (fun f => decide (f.1 = path))).map (fun f => f.2)

/-- The directories that hold the path: its proper prefixes that end before a
slash (the root directory for a leading slash). -/
def ancestors (path : Str) : List Str :=
  (List.range path.length).filterMap (fun i =>
    if path.get? i = some (Char.ofNat 47) then
      some (if i = 0 then "/".toList else path.take i)
    else none)

/-- The directories that hold a file of the map. -/
def FS.dirs (fs : FS) : List Str :=
  (fs.files.flatMap (fun f => ancestors f.1)).dedup

/-- The clean paths of the directories above the working directory: `..`,
`../..` and so on. -/
def upward (path : Str) : Bool :=
  !path.isEmpty && (strings.Split path "/".toList).all (fun e => decide (e = "..".toList))

/-- The clean path is a directory. -/
def FS.isDir (fs : FS) (path : Str) : Bool :=
  decide (path = ".".toList) || decide (path = "/".toList) || upward path
    || fs.dirs.contains path

/-- What path resolution finds: a directory, a regular file with its bytes,
nothing (`ENOENT`), or a regular file where a directory is needed (`ENOTDIR`). -/
inductive Node where
  | dir
  | file (content : List Char)
  | notExist
  | notDir
  deriving DecidableEq, Repr

/-- What there is at a clean path. -/
def FS.nodeAt (fs : FS) (path : Str) : Node :=
  if fs.isDir path then Node.dir
  else
    match fs.lookup path with
    | some content => Node.file content
    | none => Node.notExist

/-- The resolution of a path, element by element, from the directory `cur`:
every element is looked up in a directory; `.` and the empty element stay, `..`
goes up. -/
def resolveGo (fs : FS) : List Str → Str → Node
  | [], cur => fs.nodeAt cur
  | e :: rest, cur =>
      match fs.nodeAt cur with
      | Node.dir =>
          if e = [] ∨ e = ".".toList then resolveGo fs rest cur
          else resolveGo fs rest (gopath.Clean (cur ++ "/".toList ++ e))
      | Node.file _ => Node.notDir
      | other => other

/-- Go `os.Stat` (and `os.Lstat`): the file information or the error, as what
path resolution finds. -/
def Stat (fs : FS) (path : Str) : Node :=
  if path = [] then Node.notExist
  else
    resolveGo fs (strings.Split path "/".toList)
      (if path.head? = some (Char.ofNat 47) then "/".toList else ".".toList)

/-- Go `os.ReadFile`. -/
def ReadFile (fs : FS) (path : Str) : Except Error Bytes :=
  match Stat fs path with
  | Node.file content => Except.ok (some content)
  | Node.dir => Except.error (errPathIsDir "read".toList path)
  | Node.notExist => Except.error (errPathNotExist "open".toList path)
  | Node.notDir => Except.error (errPathNotDir "open".toList path)

/-- Go `os.IsNotExist` of the error of `os.Stat`. -/
def statNotExist (fs : FS) (path : Str) : Bool :=
  decide (Stat fs path = Node.notExist)

/-- The bytes of the regular file at the path, if there is one. -/
def content (fs : FS) (path : Str) : Bytes :=
  match Stat fs path with
  | Node.file c => some c
  | _ => none

/-- The path is a regular file or does not exist. -/
def Plain (fs : FS) (path : Str) : Bool :=
  match Stat fs path with
  | Node.file _ => true
  | Node.notExist => true
  | _ => false

/-- The clean path `d` lies below the directory with the clean path `croot`. -/
def below (croot d : Str) : Bool :=
  if croot = ".".toList then
    decide (d ≠ ".".toList) && decide (d.head? ≠ some (Char.ofNat 47))
      && !(decide (d = "..".toList) || strings.HasPrefix d "../".toList)
  else if croot = "/".toList then
    decide (d ≠ croot) && decide (d.head? = some (Char.ofNat 47))
  else
    strings.HasPrefix d (croot ++ "/".toList)
      && !(decide (d = croot ++ "/..".toList) || strings.HasPrefix d (croot ++ "/../".toList))

/-- The directories that Go `filepath.Walk` visits from `root`, in order: the
root as it was given, when it is a directory, then the directories below it
under their clean paths, the entries of each directory by name and a directory
before what it holds. -/
def walkDirs (fs : FS) (root : Str) : List Str :=
  match Stat fs root with
  | Node.dir =>
      root :: (fs.dirs.filter (below (gopath.Clean root))).insertionSort
        (fun a b => strings.Split a "/".toList ≤ strings.Split b "/".toList)
  | _ => []

end os

/-! ## Package `modstore`: the bulk importer (`modstore.go`) -/

namespace modstore

/-- The reading of an optional file in `createModuleCache`: `os.Stat`, and
`os.ReadFile` unless the path does not exist; a nil slice when it does not. -/
def readOptional (fs : os.FS) (path : Str) : Except Error Bytes :=
  if os.statNotExist fs path then Except.ok none else os.ReadFile fs path

/-- The record that `createModuleCache` builds for a version when its reads
succeed: each artifact is the bytes of the regular file at its path, nil when
there is none. -/
def recordOf (fs : os.FS) (module modulePath version : Str) : Module where
  Name := module
  Version := version
  Info := os.content fs (gopath.Join [modulePath, version ++ infoSuffix])
  Mod := os.content fs (gopath.Join [modulePath, version ++ modSuffix])
  ZipHash := (os.content fs (gopath.Join [modulePath, version ++ zipHashSuffix])).getD []
  Zip := os.content fs (gopath.Join [modulePath, version ++ zipSuffix])

/-- The row that stands for a version of a module after the import of the tree
under `root`: the record built from the files of `root/module/@v`. -/
def importedRow (fs : os.FS) (root module version : Str) : sqlite3.Row :=
  sqlite3.Row.ofModule
    (recordOf fs module (root ++ "/".toList ++ module ++ "/@v".toList) version)

/-- The body of the loop of `createModuleCache` for a non-empty line `v` of
the list: the error returned from the function, if any, and the store. -/
def importVersion {σ : Type} (c : ModuleStore σ) (fs : os.FS) (module modulePath v : Str)
    (store : σ) : Option Error × σ :=
  let version := strings.TrimSpace v
  match os.ReadFile fs (gopath.Join [modulePath, version ++ modSuffix]) with
  | Except.error err => (some err, store)
  | Except.ok modFile =>
      match readOptional fs (gopath.Join [modulePath, version ++ infoSuffix]) with
      | Except.error err => (some err, store)
      | Except.ok infoFile =>
          match readOptional fs (gopath.Join [modulePath, version ++ zipSuffix]) with
          | Except.error err => (some err, store)
          | Except.ok zip =>
              match readOptional fs (gopath.Join [modulePath, version ++ zipHashSuffix]) with
              | Except.error err => (some err, store)
              | Except.ok zipHash =>
                  match c.moduleRepository.InsertModule store
                      { Name := module, Version := version, Info := infoFile, Mod := modFile,
                        ZipHash := zipHash.getD [], Zip := zip } with
                  | (some err, store1) =>
                      if err.Is Error.ErrModuleAlreadyExists then (none, store1)
                      else (some err, store1)
                  | (none, store1) => (none, store1)

/-- The loop of `createModuleCache` over the lines of the list. -/
def importVersions {σ : Type} (c : ModuleStore σ) (fs : os.FS) (module modulePath : Str) :
    List Str → σ → Option Error × σ
  | [], store => (none, store)
  | v :: rest, store =>
      if v = [] then importVersions c fs module modulePath rest store
      else
        match importVersion c fs module modulePath v store with
        | (some err, store1) => (some err, store1)
        | (none, store1) => importVersions c fs module modulePath rest store1

/-- The module name that `createModuleCache` derives from the path of the `@v`
directory. -/
def moduleOfPath (dir modulePath : Str) : Str :=
  strings.TrimSuffix (strings.TrimPrefix modulePath (dir ++ "/".toList)) "/@v".toList

/-- `ModuleStore.createModuleCache`. -/
def createModuleCache {σ : Type} (c : ModuleStore σ) (fs : os.FS) (dir modulePath : Str)
    (store : σ) : Option Error × σ :=
  match os.ReadFile fs (gopath.Join [modulePath, "list".toList]) with
  | Except.error err => (some err, store)
  | Except.ok listBody =>
      importVersions c fs (moduleOfPath dir modulePath) modulePath
        (strings.Split (listBody.getD []) [Char.ofNat 10]) store

/-- The walk of `ImportCachedModules` with its callback, over the directories
still to visit: a directory named `@v` is imported, and an error other than
`os.ErrNotExist` ends the walk. -/
def importWalk {σ : Type} (c : ModuleStore σ) (fs : os.FS) (dir : Str) :
    List Str → σ → Option Error × σ
  | [], store => (none, store)
  | path :: rest, store =>
      if gopath.Base path = "@v".toList then
        match createModuleCache c fs dir path store with
        | (some err, store1) =>
            if err.Is os.ErrNotExist then importWalk c fs dir rest store1
            else (some err, store1)
        | (none, store1) => importWalk c fs dir rest store1
      else importWalk c fs dir rest store

/-- `ModuleStore.ImportCachedModules`.  When `os.Stat` fails otherwise than
with a not-exist error, `filepath.Walk` hands the callback a nil `FileInfo`
and `info.IsDir()` panics; a root that is a regular file is visited and
nothing else. -/
def ImportCachedModules {σ : Type} (c : ModuleStore σ) (fs : os.FS) (dir : Str) (store : σ) :
    Outcome Unit × σ :=
  match os.Stat fs dir with
  | os.Node.notExist =>
      (Outcome.error (Error.New "module cache directory does not exist".toList), store)
  | os.Node.notDir => (Outcome.panic, store)
  | _ =>
      match importWalk c fs dir (os.walkDirs fs dir) store with
      | (some err, store1) => (Outcome.error err, store1)
      | (none, store1) => (Outcome.ok (), store1)

/-- The four artifact paths of a version under an `@v` directory are regular
files or do not exist. -/
def PlainVersion (fs : os.FS) (modulePath v : Str) : Prop :=
  os.Plain fs (gopath.Join [modulePath, strings.TrimSpace v ++ modSuffix]) = true
  ∧ os.Plain fs (gopath.Join [modulePath, strings.TrimSpace v ++ infoSuffix]) = true
  ∧ os.Plain fs (gopath.Join [modulePath, strings.TrimSpace v ++ zipSuffix]) = true
  ∧ os.Plain fs (gopath.Join [modulePath, strings.TrimSpace v ++ zipHashSuffix]) = true

/-- No artifact path of the `@v` directory is a directory or leads through a
regular file: the `list` and, for each of its non-empty lines, the `.mod`,
`.info`, `.zip` and `.ziphash` of the version are regular files or do not
exist. -/
def PlainCache (fs : os.FS) (modulePath : Str) : Bool :=
  os.Plain fs (gopath.Join [modulePath, "list".toList])
    && (strings.Split ((os.content fs (gopath.Join [modulePath, "list".toList])).getD [])
          [Char.ofNat 10]).all (fun v =>
        v.isEmpty
          || (os.Plain fs (gopath.Join [modulePath, strings.TrimSpace v ++ modSuffix])
            && os.Plain fs (gopath.Join [modulePath, strings.TrimSpace v ++ infoSuffix])
            && os.Plain fs (gopath.Join [modulePath, strings.TrimSpace v ++ zipSuffix])
            && os.Plain fs (gopath.Join [modulePath, strings.TrimSpace v ++ zipHashSuffix])))

/-- What the import keeps true of the table: each key selects the row it
selected at the start, or the row imported for it. -/
def ImportInv (fs : os.FS) (root : Str) (store0 store : sqlite3.DB) : Prop :=
  ∀ n v, store.find n v = store0.find n v ∨ store.find n v = some (importedRow fs root n v)

/-- A key that selects a row in the first table selects one in the second. -/
def KeepsRows (s s' : sqlite3.DB) : Prop :=
  ∀ n v, (s.find n v).isSome → (s'.find n v).isSome

end modstore

/-! ## Test doubles and scenarios

Stand-ins for the collaborators, in the manner of the repository's own tests
(`mock.Repository`, `mock.VCS`, `mockRoundTripper`), and the concrete requests
the theorems are evaluated at. -/

namespace Scenario

/-- A `url.JoinPath` for plain segments: the base and the elements, joined by
slashes. -/
def joinSegments (base : Str) (elems : List Str) : Except Error Str :=
  Except.ok (base ++ "/".toList ++ strings.Join elems "/".toList)

/-- An upstream that answers every request with the same status and body. -/
def upstreamAnswering (code : Nat) (body : String) : GoProxyClient where
  JoinPath := joinSegments
  NewRequest := fun _ => none
  Do := fun _ => Except.ok { StatusCode := code, Body := Except.ok body.toList }

/-- A VCS adapter whose `Clone` returns a record named by the repo and tag it
was called with, as `git.Clone` does, and whose `FetchTags` lists `tags`. -/
def vcsReturning (tags : List String) : VCS where
  Clone := fun repo tag =>
    Except.ok { Name := repo, Version := tag, ZipHash := "h1".toList,
                Info := some "info".toList, Mod := some "mod".toList,
                Zip := some "zip".toList }
  FetchTags := fun _ => Except.ok (tags.map String.toList)

/-- A JSON decoder that fails on every input. -/
def jsonFailing : Bytes → Except Error Info :=
  fun _ => Except.error (Error.New "unexpected end of JSON input".toList)

/-- The resolver over the SQLite repository, a 404 upstream and a cloning VCS. -/
def sqliteStore (goPrivate : String) : modstore.ModuleStore sqlite3.DB where
  moduleRepository := sqlite3.repository
  vcs := vcsReturning ["v0.9.0", "v1.0.0", "v1.0.0-rc1"]
  goProxyClient := upstreamAnswering 404 ""
  goPrivate := goPrivate.toList
  json := jsonFailing

/-- A run starting from the empty table. -/
def emptyRun : Run sqlite3.DB := { store := { rows := [] }, trace := [] }

/-- A repository in the manner of `mock.Repository` that has lost a race: it
holds nothing when asked, and answers `InsertModule` with
`ErrModuleAlreadyExists`. -/
def racingRepository : ModuleRepository Unit where
  InsertModule := fun s _ => (some Error.ErrModuleAlreadyExists, s)
  GetVersionList := fun _ _ => Except.ok []
  GetVersionInfo := fun _ _ _ => Except.error Error.ErrModuleNotFound
  GetModFile := fun _ _ _ => Except.error Error.ErrModuleNotFound
  GetModuleZip := fun _ _ _ => Except.error Error.ErrModuleNotFound
  ModuleExists := fun _ _ _ => Except.ok false

/-- The resolver over `racingRepository`, with a private prefix `example.com`. -/
def racingStore : modstore.ModuleStore Unit where
  moduleRepository := racingRepository
  vcs := vcsReturning []
  goProxyClient := upstreamAnswering 404 ""
  goPrivate := "example.com".toList
  json := jsonFailing

/-- A record as the bulk importer builds it for a version with neither `.info`
nor `.zip` on disk. -/
def legacyModule : Module where
  Name := "example.com/m".toList
  Version := "v1.0.0".toList
  ZipHash := []
  Info := none
  Mod := some "module example.com/m\n".toList
  Zip := none

/-- The first record of `TestSqlite3`. -/
def module1 : Module where
  Name := "github.com/tmwalaszek/module1".toList
  Version := "v1.0.0".toList
  ZipHash := "hash".toList
  Info := some "info".toList
  Mod := some "mod".toList
  Zip := some "zip".toList

/-- A record with the key of `module1` and another payload. -/
def module1Changed : Module where
  Name := "github.com/tmwalaszek/module1".toList
  Version := "v1.0.0".toList
  ZipHash := "hash2".toList
  Info := some "info2".toList
  Mod := some "mod2".toList
  Zip := some "zip2".toList

/-- A third record with the key of `module1`. -/
def module1Third : Module where
  Name := "github.com/tmwalaszek/module1".toList
  Version := "v1.0.0".toList
  ZipHash := "hash3".toList
  Info := some "info3".toList
  Mod := some "mod3".toList
  Zip := some "zip3".toList

/-- The table holding the row of `module1` only. -/
def tableWithModule1 : sqlite3.DB := { rows := [sqlite3.Row.ofModule module1] }

/-- A repository in the manner of the mock of `TestQueryInfoModZip` for its
`module1` cases: every getter answers with the given bytes. -/
def answeringRepository (info mod zip : String) : ModuleRepository Unit where
  InsertModule := fun s _ => (none, s)
  GetVersionList := fun _ _ => Except.ok []
  GetVersionInfo := fun _ _ _ => Except.ok (some info.toList)
  GetModFile := fun _ _ _ => Except.ok (some mod.toList)
  GetModuleZip := fun _ _ _ => Except.ok (some zip.toList)
  ModuleExists := fun _ _ _ => Except.ok false

/-- The resolver over `answeringRepository`, as `TestQueryInfoModZip` builds it. -/
def answeringStore (info mod zip : String) : modstore.ModuleStore Unit where
  moduleRepository := answeringRepository info mod zip
  vcs := vcsReturning []
  goProxyClient := upstreamAnswering 404 ""
  goPrivate := []
  json := jsonFailing

/-- The info blob of the cold-miss scenario. -/
def scenarioInfo : String :=
  "\x7b\"Version\":\"v1.0.0\",\"Time\":\"2024-01-02T03:04:05Z\",\"Origin\":\x7b\"VCS\":\"git\",\"URL\":\"https://example.com/a\",\"Hash\":\"h1\",\"Ref\":\"refs/tags/v1.0.0\"\x7d\x7d"

/-- An upstream in the manner of `mockRoundTripper`: status 200 and the info,
mod or zip body according to the end of the URL. -/
def upstreamServing (info mod zip : String) : GoProxyClient where
  JoinPath := joinSegments
  NewRequest := fun _ => none
  Do := fun url =>
    Except.ok { StatusCode := 200,
                Body := Except.ok
                  (if strings.HasSuffix url ".info".toList then info.toList
                   else if strings.HasSuffix url ".mod".toList then mod.toList
                   else zip.toList) }

/-- A JSON decoder that knows the blob of the scenario and fails on any other. -/
def jsonScenario : Bytes → Except Error Info :=
  fun b =>
    if b = some scenarioInfo.toList then
      Except.ok { Version := "v1.0.0".toList, Time := "2024-01-02T03:04:05Z".toList,
                  Origin := { VCS := "git".toList, URL := "https://example.com/a".toList,
                              Hash := "h1".toList, Ref := "refs/tags/v1.0.0".toList } }
    else Except.error (Error.New "invalid character".toList)

/-- The resolver of the cold-miss scenario: SQLite repository, an upstream
serving the three blobs, no private prefix. -/
def coldStore : modstore.ModuleStore sqlite3.DB where
  moduleRepository := sqlite3.repository
  vcs := vcsReturning []
  goProxyClient := upstreamServing scenarioInfo "module example.com/a\n" "zipbytes"
  goPrivate := []
  json := jsonScenario

end Scenario

/-! ## Test doubles and scenarios for the later theorems -/

namespace Scenario

/-- A repository in the manner of the mock of `TestQueryList`: `GetVersionList`
answers with the given outcome. -/
def listingRepository (answer : Except Error (List String)) : ModuleRepository Unit where
  InsertModule := fun s _ => (none, s)
  GetVersionList := fun _ _ =>
    match answer with
    | Except.ok l => Except.ok (l.map String.toList)
    | Except.error e => Except.error e
  GetVersionInfo := fun _ _ _ => Except.error Error.ErrModuleNotFound
  GetModFile := fun _ _ _ => Except.error Error.ErrModuleNotFound
  GetModuleZip := fun _ _ _ => Except.error Error.ErrModuleNotFound
  ModuleExists := fun _ _ _ => Except.ok false

/-- The resolver over `listingRepository`, as `TestQueryList` builds it. -/
def listingStore (answer : Except Error (List String)) : modstore.ModuleStore Unit where
  moduleRepository := listingRepository answer
  vcs := vcsReturning []
  goProxyClient := upstreamAnswering 404 ""
  goPrivate := []
  json := jsonFailing

/-- The resolver of `TestQueryLatest`: an upstream answering every request with
the given status and body, no private prefix. -/
def latestStore (code : Nat) (body : String) : modstore.ModuleStore Unit where
  moduleRepository := listingRepository (Except.ok [])
  vcs := vcsReturning []
  goProxyClient := upstreamAnswering code body
  goPrivate := []
  json := jsonFailing

end Scenario

namespace Scenario

/-- A `Git` whose command prints the given text and succeeds. -/
def gitPrinting (out : String) : git.Git where
  GtiBinary := "git".toList
  tempDir := []
  CombinedOutput := fun _ _ => (out.toList, none)

/-- The resolver over the SQLite repository with `GOPRIVATE=example.com`, whose
VCS adapter is `git.FetchTags` on a repository without tags: `ls-remote`
prints nothing. -/
def untaggedStore : modstore.ModuleStore sqlite3.DB where
  moduleRepository := sqlite3.repository
  vcs := { Clone := (vcsReturning []).Clone, FetchTags := git.FetchTags (gitPrinting "") }
  goProxyClient := upstreamAnswering 404 ""
  goPrivate := "example.com".toList
  json := jsonFailing

/-- The resolver over the SQLite repository with `GOPRIVATE=example.com`, whose
VCS adapter lists the given tags. -/
def taggedStore (tags : List String) : modstore.ModuleStore sqlite3.DB where
  moduleRepository := sqlite3.repository
  vcs := vcsReturning tags
  goProxyClient := upstreamAnswering 404 ""
  goPrivate := "example.com".toList
  json := jsonFailing

/-- The tree of the bulk-import scenario: `root/example.com/m/@v` with a list
naming `v1.0.0` and its `.mod`, no `.info`, no `.zip`. -/
def cacheTree : os.FS where
  files := [("root/example.com/m/@v/list".toList, "v1.0.0\n".toList),
            ("root/example.com/m/@v/v1.0.0.mod".toList, "module example.com/m\n".toList)]

/-- A tree whose list names `v1.0.0` and `v1.1.0`, with a `.mod` for `v1.1.0`
only. -/
def cacheTreeMissingMod : os.FS where
  files := [("root/example.com/m/@v/list".toList, "v1.0.0\nv1.1.0\n".toList),
            ("root/example.com/m/@v/v1.1.0.mod".toList, "module example.com/m\n".toList)]

/-- The tree of the bulk-import scenario, with a directory where the `.info`
of the version would be. -/
def cacheTreeInfoDir : os.FS where
  files := [("root/example.com/m/@v/list".toList, "v1.0.0\n".toList),
            ("root/example.com/m/@v/v1.0.0.info/x".toList, "x".toList),
            ("root/example.com/m/@v/v1.0.0.mod".toList, "module example.com/m\n".toList)]

end Scenario

/-! # Theorems -/

/-! ## The SQLite repository -/

/-- Looking a key up after a row was appended to a table that lacked the key. -/
theorem find_append_none (rows : List sqlite3.Row) (n v : Str) (r : sqlite3.Row)
    (h : sqlite3.DB.find { rows := rows } n v = none) :
    sqlite3.DB.find { rows := rows ++ [r] } n v
      = if r.name = n ∧ r.version = v then some r else none := by
  simp only [sqlite3.DB.find] at *
  rw [List.find?_append, h]
  by_cases hk : r.name = n ∧ r.version = v
  · simp [hk]
  · simp [hk]

/-- Under the primary key, a version that is present for a name is listed once
among the versions of that name. -/
theorem count_version_of_find (rows : List sqlite3.Row) (n v : Str)
    (hv : (rows.map (fun r => (r.name, r.version))).Nodup)
    (h : (rows.find? (fun r => decide (r.name = n ∧ r.version = v))).isSome) :
    (((rows.filter (fun r => decide (r.name = n))).map (fun r => r.version)).count v) = 1 := by
  induction rows with
  | nil => simp at h
  | cons r rs ih =>
    simp only [List.map_cons, List.nodup_cons] at hv
    by_cases hk : r.name = n ∧ r.version = v
    · obtain ⟨h1, h2⟩ := hk
      have hnot : v ∉ (rs.filter (fun r => decide (r.name = n))).map (fun r => r.version) := by
        intro hmem
        simp only [List.mem_map, List.mem_filter, decide_eq_true_eq] at hmem
        obtain ⟨r', ⟨hr', hn'⟩, hv'⟩ := hmem
        apply hv.1
        simp only [List.mem_map]
        exact ⟨r', hr', by rw [hn', hv', h1, h2]⟩
      simp [List.filter_cons, h1, h2, List.count_cons, List.count_eq_zero_of_not_mem hnot]
    · have h' : (rs.find? (fun r => decide (r.name = n ∧ r.version = v))).isSome := by
        simpa [List.find?_cons, hk] using h
      have := ih hv.2 h'
      by_cases hn : r.name = n
      · have hne : r.version ≠ v := fun hvv => hk ⟨hn, hvv⟩
        simp [List.filter_cons, hn, List.count_cons, hne, this]
      · simp [List.filter_cons, hn, this]

/-- `InsertModule` of a record with a nil `Mod` is refused and leaves the table
as it was. -/
theorem InsertModule_nil_mod (db : sqlite3.DB) (r : Module) (h : r.Mod = none) :
    sqlite3.InsertModule db r = (some sqlite3.errNotNullMod, db) := by
  unfold sqlite3.InsertModule
  rw [h]

/-- `InsertModule` of a record with a non-nil `Mod` does not fail. -/
theorem InsertModule_fst (db : sqlite3.DB) (r : Module) (hm : r.Mod.isSome) :
    (sqlite3.InsertModule db r).1 = none := by
  obtain ⟨b, hb⟩ := Option.isSome_iff_exists.mp hm
  unfold sqlite3.InsertModule
  rw [hb]
  simp only []
  split <;> rfl

/-- `InsertModule` on a key that is present changes nothing. -/
theorem InsertModule_of_present (db : sqlite3.DB) (r : Module)
    (h : (db.find r.Name r.Version).isSome) : (sqlite3.InsertModule db r).2 = db := by
  unfold sqlite3.InsertModule
  cases r.Mod with
  | none => rfl
  | some b =>
    simp only []
    split
    · rfl
    · rename_i h0; rw [h0] at h; simp at h

/-- `InsertModule` of a record with a non-nil `Mod` on a key that is absent
appends the record's row. -/
theorem InsertModule_of_absent (db : sqlite3.DB) (r : Module) (hm : r.Mod.isSome)
    (h : db.find r.Name r.Version = none) :
    (sqlite3.InsertModule db r).2 = { rows := db.rows ++ [sqlite3.Row.ofModule r] } := by
  obtain ⟨b, hb⟩ := Option.isSome_iff_exists.mp hm
  unfold sqlite3.InsertModule
  rw [hb, h]

/-- After `InsertModule` of a record with a non-nil `Mod`, the key of the record
selects the row that was there before or else the record's row. -/
theorem find_InsertModule (db : sqlite3.DB) (r : Module) (hm : r.Mod.isSome) :
    (sqlite3.InsertModule db r).2.find r.Name r.Version
      = some ((db.find r.Name r.Version).getD (sqlite3.Row.ofModule r)) := by
  cases h : db.find r.Name r.Version with
  | some row => rw [InsertModule_of_present db r (by simp [h]), h]; rfl
  | none =>
    rw [InsertModule_of_absent db r hm h, find_append_none db.rows _ _ _ h]
    simp [sqlite3.Row.ofModule]

/-- `InsertModule` keeps the primary-key constraint. -/
theorem InsertModule_valid (db : sqlite3.DB) (r : Module) (hv : db.Valid) :
    (sqlite3.InsertModule db r).2.Valid := by
  cases hmod : r.Mod with
  | none => rw [InsertModule_nil_mod db r hmod]; exact hv
  | some b =>
  have hm : r.Mod.isSome := by rw [hmod]; rfl
  cases h : db.find r.Name r.Version with
  | some row => rw [InsertModule_of_present db r (by simp [h])]; exact hv
  | none =>
    rw [InsertModule_of_absent db r hm h]
    have hnot : ∀ x ∈ db.rows, ¬ (x.name = r.Name ∧ x.version = r.Version) := by
      have := h
      simp only [sqlite3.DB.find, List.find?_eq_none, decide_eq_true_eq] at this
      exact this
    have hv' : (db.rows.map (fun r => (r.name, r.version))).Nodup := hv
    show ((db.rows ++ [sqlite3.Row.ofModule r]).map (fun r => (r.name, r.version))).Nodup
    rw [List.map_append, List.nodup_append]
    refine ⟨hv', by simp, ?_⟩
    simp only [List.map_cons, List.map_nil, List.disjoint_singleton, List.mem_map,
      Prod.mk.injEq, not_exists, not_and]
    intro x hx h1' h2'
    exact hnot x hx ⟨h1', h2'⟩

/-- C8, as amended: for every table that satisfies the primary key and every
two records with the same `(name, version)` and a non-nil `Mod`,
`InsertModule r1` followed by `InsertModule r2` both succeed and leave the
table exactly as after `InsertModule r1` alone, and `GetVersionList` lists the
version once.  When the key was absent before, `GetVersionInfo` returns the
info of `r1` (`ErrModuleNotFound` for a nil one), `GetModFile` returns the mod
of `r1` and `GetModuleZip` returns the zip of `r1`; when it was present, the
table is the one before the inserts.  A record with a nil `Mod` is refused by
the `NOT NULL` constraint and leaves the table as it was. -/
theorem InsertModule_twice (db : sqlite3.DB) (r1 r2 : Module) (hv : db.Valid)
    (hn : r1.Name = r2.Name) (hver : r1.Version = r2.Version)
    (hm1 : r1.Mod.isSome) (hm2 : r2.Mod.isSome) :
    (sqlite3.InsertModule db r1).1 = none
    ∧ (sqlite3.InsertModule (sqlite3.InsertModule db r1).2 r2).1 = none
    ∧ (sqlite3.InsertModule (sqlite3.InsertModule db r1).2 r2).2 = (sqlite3.InsertModule db r1).2
    ∧ (∃ versions,
        sqlite3.GetVersionList (sqlite3.InsertModule (sqlite3.InsertModule db r1).2 r2).2 r1.Name
          = Except.ok versions ∧ versions.count r1.Version = 1)
    ∧ (db.find r1.Name r1.Version = none →
        sqlite3.GetVersionInfo (sqlite3.InsertModule (sqlite3.InsertModule db r1).2 r2).2
            r1.Name r1.Version
          = (match r1.Info with
             | some b => Except.ok (some b)
             | none => Except.error Error.ErrModuleNotFound)
        ∧ sqlite3.GetModFile (sqlite3.InsertModule (sqlite3.InsertModule db r1).2 r2).2
            r1.Name r1.Version = Except.ok r1.Mod
        ∧ sqlite3.GetModuleZip (sqlite3.InsertModule (sqlite3.InsertModule db r1).2 r2).2
            r1.Name r1.Version = Except.ok r1.Zip)
    ∧ ((db.find r1.Name r1.Version).isSome →
        (sqlite3.InsertModule (sqlite3.InsertModule db r1).2 r2).2 = db)
    ∧ (∀ r : Module, r.Mod = none →
        sqlite3.InsertModule db r = (some sqlite3.errNotNullMod, db)) := by
  have hfind1 := find_InsertModule db r1 hm1
  have hsame : (sqlite3.InsertModule (sqlite3.InsertModule db r1).2 r2).2
      = (sqlite3.InsertModule db r1).2 := by
    apply InsertModule_of_present
    rw [← hn, ← hver, hfind1]; rfl
  refine ⟨InsertModule_fst _ _ hm1, InsertModule_fst _ _ hm2, hsame, ?_, ?_, ?_,
    fun r hr => InsertModule_nil_mod db r hr⟩
  · rw [hsame]
    refine ⟨_, rfl, ?_⟩
    apply count_version_of_find _ _ _ (InsertModule_valid db r1 hv)
    have : (sqlite3.InsertModule db r1).2.rows.find?
        (fun r => decide (r.name = r1.Name ∧ r.version = r1.Version)) = some _ := hfind1
    rw [this]; rfl
  · intro hnone
    rw [hsame]
    rw [hnone] at hfind1
    refine ⟨?_, ?_, ?_⟩
    · simp only [sqlite3.GetVersionInfo, hfind1, Option.getD, sqlite3.Row.ofModule]
      cases r1.Info <;> rfl
    · obtain ⟨b, hb⟩ := Option.isSome_iff_exists.mp hm1
      simp only [sqlite3.GetModFile, hfind1, Option.getD, sqlite3.Row.ofModule, hb]
    · simp only [sqlite3.GetModuleZip, hfind1, Option.getD, sqlite3.Row.ofModule]
  · intro hsome
    rw [hsame]
    exact InsertModule_of_present db r1 hsome

/-- C8, witness: `module1` at `v1.0.0` inserted twice into the empty table,
the second time with another payload, is listed once. -/
theorem InsertModule_twice_witness :
    sqlite3.DB.Valid { rows := [] }
    ∧ ∃ versions,
        sqlite3.GetVersionList
            (sqlite3.InsertModule (sqlite3.InsertModule { rows := [] } Scenario.module1).2
              Scenario.module1Changed).2 Scenario.module1.Name
          = Except.ok versions ∧ versions.count Scenario.module1.Version = 1 :=
  ⟨by decide,
    (InsertModule_twice { rows := [] } Scenario.module1 Scenario.module1Changed
      (by decide) rfl rfl rfl rfl).2.2.2.1⟩

/-- C8, counterexample to the claim as stated: on a table that already holds a
row for the key, two further inserts succeed and `GetModFile` returns the bytes
of the row that was there, not those of the first inserted record. -/
theorem InsertModule_keeps_present_row :
    sqlite3.DB.Valid Scenario.tableWithModule1
    ∧ sqlite3.GetModFile
        (sqlite3.InsertModule
          (sqlite3.InsertModule Scenario.tableWithModule1 Scenario.module1Changed).2
          Scenario.module1Third).2
        Scenario.module1Changed.Name Scenario.module1Changed.Version
      = Except.ok (some "mod".toList)
    ∧ Scenario.module1Changed.Mod = some "mod2".toList
    ∧ (some "mod".toList : Bytes) ≠ some "mod2".toList := by
  refine ⟨by decide, rfl, rfl, by decide⟩

/-- C9, at the failing input: on a row inserted with no zip (the record of a
legacy import), `GetModuleZip` succeeds with the nil slice where
`GetVersionInfo`, on the same row with no info, answers `ErrModuleNotFound`. -/
theorem GetModuleZip_null_column :
    sqlite3.GetModuleZip (sqlite3.InsertModule { rows := [] } Scenario.legacyModule).2
        "example.com/m".toList "v1.0.0".toList = Except.ok none
    ∧ sqlite3.GetVersionInfo (sqlite3.InsertModule { rows := [] } Scenario.legacyModule).2
        "example.com/m".toList "v1.0.0".toList = Except.error Error.ErrModuleNotFound := by
  constructor <;> rfl

open strings modstore

/-! ## Lemmas on strings -/

/-- A suffix shares its last character with the whole. -/
theorem getLast?_of_HasSuffix (s suf : Str) (h : HasSuffix s suf = true) (hne : suf ≠ []) :
    s.getLast? = suf.getLast? := by
  simp only [HasSuffix, List.isSuffixOf_iff_suffix] at h
  obtain ⟨t, rfl⟩ := h
  rw [List.getLast?_append_of_ne_nil _ hne]

/-- A text ends in what was appended to it. -/
theorem HasSuffix_append (v suf : Str) : HasSuffix (v ++ suf) suf = true := by
  simp [HasSuffix, List.isSuffixOf_iff_suffix]

/-- Trimming the suffix that was appended gives the text back. -/
theorem TrimSuffix_append (v suf : Str) : TrimSuffix (v ++ suf) suf = v := by
  simp [TrimSuffix, HasSuffix_append]

/-- A text without the first character of the separator stays whole. -/
theorem splitGo_no_head (d : Char) (sep : Str) (r acc : Str) (h : d ∉ r) :
    splitGo (d :: sep) 0 r acc = [acc.reverse ++ r] := by
  induction r generalizing acc with
  | nil => simp [splitGo]
  | cons c cs ih =>
    have hc : d ≠ c := fun e => h (by simp [e])
    have hcs : d ∉ cs := fun e => h (by simp [e])
    have : (d :: sep).isPrefixOf (c :: cs) = false := by
      simp [List.isPrefixOf, hc]
    rw [splitGo, this]
    simp [ih (c :: acc) hcs]

/-- Passing over the rest of a separator. -/
theorem splitGo_skip (sep : Str) (a b acc : Str) :
    splitGo sep a.length (a ++ b) acc = splitGo sep 0 b acc := by
  induction a with
  | nil => rfl
  | cons c cs ih => simpa [splitGo] using ih

/-- Cutting `m/@v/r` at `/@v/` when `m` has no `@` and `r` has no slash. -/
theorem Split_at_v (m r : Str) (hm : '@' ∉ m) (hr : '/' ∉ r) :
    Split (m ++ "/@v/".toList ++ r) "/@v/".toList = [m, r] := by
  have key : ∀ (m acc : Str), '@' ∉ m →
      splitGo "/@v/".toList 0 (m ++ "/@v/".toList ++ r) acc = [acc.reverse ++ m, r] := by
    intro m
    induction m with
    | nil =>
      intro acc _
      have h1 : ([] : Str) ++ "/@v/".toList ++ r = '/' :: (['@', 'v', '/'] ++ r) := rfl
      rw [h1, splitGo]
      have : ("/@v/".toList).isPrefixOf ('/' :: (['@', 'v', '/'] ++ r)) = true := by
        simp [List.isPrefixOf]
      rw [if_pos this]
      have h3 : "/@v/".toList.length - 1 = (['@', 'v', '/'] : Str).length := rfl
      rw [h3, splitGo_skip]
      have := splitGo_no_head '/' "@v/".toList r [] hr
      simp only [String.toList] at this ⊢
      simp [this]
    | cons c cs ih =>
      intro acc hm
      have hc : c ≠ '@' := fun e => hm (by simp [e])
      have hcs : '@' ∉ cs := fun e => hm (by simp [e])
      have h1 : (c :: cs) ++ "/@v/".toList ++ r = c :: (cs ++ "/@v/".toList ++ r) := rfl
      rw [h1, splitGo]
      have : ("/@v/".toList).isPrefixOf (c :: (cs ++ "/@v/".toList ++ r)) = false := by
        cases cs with
        | nil => simp [List.isPrefixOf]
        | cons d ds =>
          have hd : d ≠ '@' := fun e => hcs (by simp [e])
          simp [List.isPrefixOf, hd]
          intro _ h; exact absurd h.symm hd
      rw [this]
      simpa using ih (c :: acc) hcs
  have := key m [] hm
  simpa [Split] using this

/-! ## Lemmas on escaped paths and versions -/

/-- A character that is neither `!` nor a lower-case letter passes through
`unescapeString` unchanged. -/
theorem mem_unescapeGo (c : Char) (hbang : c ≠ '!') (hlow : xmod.isLower c = false)
    (m : Str) : ∀ (b : Bool) (p : Str), xmod.unescapeGo b m = some p → c ∈ m → c ∈ p := by
  induction m with
  | nil => intro b p _ h; simp at h
  | cons r rs ih =>
    intro b p hp hmem
    unfold xmod.unescapeGo at hp
    by_cases h128 : r.toNat ≥ 128
    · simp [h128] at hp
    · simp only [h128, if_false] at hp
      cases b with
      | true =>
        simp only [if_true] at hp
        by_cases hl : xmod.isLower r = true
        · simp only [hl, if_true, Option.map_eq_some'] at hp
          obtain ⟨t, ht, rfl⟩ := hp
          have hne : c ≠ r := fun e => by rw [e, hl] at hlow; cases hlow
          have : c ∈ rs := by
            rcases List.mem_cons.mp hmem with h | h
            · exact absurd h hne
            · exact h
          exact List.mem_cons_of_mem _ (ih false t ht this)
        · simp [hl] at hp
      | false =>
        simp only [Bool.false_eq_true, if_false] at hp
        by_cases hb : r = '!'
        · simp only [hb, if_true] at hp
          have hne : c ≠ r := by rw [hb]; exact hbang
          have : c ∈ rs := by
            rcases List.mem_cons.mp hmem with h | h
            · exact absurd h hne
            · exact h
          exact ih true p hp this
        · simp only [hb, if_false] at hp
          by_cases hu : xmod.isUpper r = true
          · simp [hu] at hp
          · simp only [hu, Bool.false_eq_true, if_false, Option.map_eq_some'] at hp
            obtain ⟨t, ht, rfl⟩ := hp
            rcases List.mem_cons.mp hmem with h | h
            · rw [h]; exact List.mem_cons_self _ _
            · exact List.mem_cons_of_mem _ (ih false t ht h)

/-- The first character of the escaped text, when it is a slash, is the first
character of the unescaped text. -/
theorem head_unescapeGo (rs p : Str)
    (h : xmod.unescapeGo false ('/' :: rs) = some p) : p.head? = some '/' := by
  unfold xmod.unescapeGo at h
  have h1 : ¬ ('/'.toNat ≥ 128) := by decide
  have h2 : ¬ ('/' = '!') := by decide
  have h3 : ¬ (xmod.isUpper '/' = true) := by decide
  simp only [h1, h2, h3, if_false, Bool.false_eq_true, Option.map_eq_some'] at h
  obtain ⟨t, _, rfl⟩ := h
  rfl

/-- Every character of a text other than the separator lies in a piece of the
split at that separator. -/
theorem mem_piece_of_splitGo (d c : Char) (hcd : c ≠ d) (s : Str) :
    ∀ acc : Str, (c ∈ s ∨ c ∈ acc) → ∃ piece ∈ splitGo [d] 0 s acc, c ∈ piece := by
  induction s with
  | nil =>
    intro acc h
    rcases h with h | h
    · simp at h
    · exact ⟨acc.reverse, by simp [splitGo], by simpa using h⟩
  | cons x xs ih =>
    intro acc h
    rw [splitGo]
    by_cases hx : d = x
    · have : ([d] : Str).isPrefixOf (x :: xs) = true := by simp [List.isPrefixOf, hx]
      rw [if_pos this]
      have hcx : c ≠ x := by rw [← hx]; exact hcd
      rcases h with h | h
      · have hxs : c ∈ xs := by
          rcases List.mem_cons.mp h with h | h
          · exact absurd h hcx
          · exact h
        obtain ⟨piece, hp, hc⟩ := ih [] (Or.inl hxs)
        refine ⟨piece, ?_, hc⟩
        simp only [List.length_singleton, Nat.sub_self]
        exact List.mem_cons_of_mem _ hp
      · exact ⟨acc.reverse, List.mem_cons_self _ _, by simpa using h⟩
    · have : ([d] : Str).isPrefixOf (x :: xs) = false := by simp [List.isPrefixOf, hx]
      rw [this]
      simp only [Bool.false_eq_true, if_false]
      apply ih
      rcases h with h | h
      · rcases List.mem_cons.mp h with h | h
        · right; rw [h]; exact List.mem_cons_self _ _
        · left; exact h
      · right; exact List.mem_cons_of_mem _ h

/-- Every character of a path that `checkPath` accepts as a module path is a
slash or a character of `modPathOK`. -/
theorem modPathOK_of_checkPath (p : Str) (h : xmod.checkPath p xmod.pathKind.modulePath = true)
    (c : Char) (hc : c ∈ p) : c = '/' ∨ xmod.modPathOK c = true := by
  by_cases hs : c = '/'
  · exact Or.inl hs
  · right
    unfold xmod.checkPath at h
    split at h; · cases h
    split at h; · cases h
    split at h; · cases h
    split at h; · cases h
    rw [List.all_eq_true] at h
    obtain ⟨piece, hp, hcp⟩ := mem_piece_of_splitGo '/' c hs p [] (Or.inl hc)
    have hp' : piece ∈ Split p "/".toList := by
      simpa [Split] using hp
    have he := h piece hp'
    unfold xmod.checkElem at he
    split at he; · cases he
    split at he; · cases he
    split at he; · cases he
    split at he; · cases he
    split at he; · cases he
    rename_i hall
    simp only [Bool.not_eq_true', Bool.not_eq_false] at hall
    rw [List.all_eq_true] at hall
    exact hall c hcp

/-- Every character of a version that `checkElem` accepts as a file name is a
character of `fileNameOK`. -/
theorem fileNameOK_of_checkElem (w : Str) (h : xmod.checkElem w xmod.pathKind.filePath = true)
    (c : Char) (hc : c ∈ w) : xmod.fileNameOK c = true := by
  unfold xmod.checkElem at h
  split at h; · cases h
  split at h; · cases h
  split at h; · cases h
  split at h; · cases h
  split at h; · cases h
  rename_i hall
  simp only [Bool.not_eq_true', Bool.not_eq_false] at hall
  rw [List.all_eq_true] at hall
  exact hall c hc

/-- An escaped module path that `UnescapePath` accepts holds no `@`. -/
theorem no_at_of_UnescapePath (m : Str) (h : (xmod.UnescapePath m).isSome) : '@' ∉ m := by
  intro hmem
  unfold xmod.UnescapePath at h
  cases hu : xmod.unescapeString m with
  | none => simp [hu] at h
  | some p =>
    simp only [hu] at h
    by_cases hcp : xmod.CheckPath p = true
    · have hin : '@' ∈ p := mem_unescapeGo '@' (by decide) (by decide) m false p hu hmem
      unfold xmod.CheckPath at hcp
      by_cases hck : xmod.checkPath p xmod.pathKind.modulePath = true
      · rcases modPathOK_of_checkPath p hck '@' hin with h1 | h1
        · exact absurd h1 (by decide)
        · exact absurd h1 (by decide)
      · simp [hck] at hcp
    · simp [hcp] at h

/-- An escaped module path that `UnescapePath` accepts does not begin with a
slash. -/
theorem head_of_UnescapePath (m : Str) (h : (xmod.UnescapePath m).isSome) :
    HasPrefix m "/".toList = false := by
  cases m with
  | nil => rfl
  | cons c cs =>
    by_cases hc : c = '/'
    · subst hc
      exfalso
      unfold xmod.UnescapePath at h
      cases hu : xmod.unescapeString ('/' :: cs) with
      | none => simp [hu] at h
      | some p =>
        simp only [hu] at h
        have hh := head_unescapeGo cs p hu
        cases p with
        | nil => simp at hh
        | cons x xs =>
          simp only [List.head?_cons, Option.some.injEq] at hh
          subst hh
          have : xmod.CheckPath ('/' :: xs) = false := by
            unfold xmod.CheckPath
            split
            · rfl
            · simp [List.takeWhile]
          simp [this] at h
    · simp [HasPrefix, List.isPrefixOf]
      intro h'; exact absurd h'.symm hc

/-- An escaped version that `UnescapeVersion` accepts holds no slash. -/
theorem no_slash_of_UnescapeVersion (v : Str) (h : (xmod.UnescapeVersion v).isSome) :
    '/' ∉ v := by
  intro hmem
  unfold xmod.UnescapeVersion at h
  cases hu : xmod.unescapeString v with
  | none => simp [hu] at h
  | some w =>
    simp only [hu] at h
    by_cases hck : xmod.checkElem w xmod.pathKind.filePath = true
    · have hin : '/' ∈ w := mem_unescapeGo '/' (by decide) (by decide) v false w hu hmem
      exact absurd (fileNameOK_of_checkElem w hck '/' hin) (by decide)
    · simp [hck] at h

/-! ## The resolver on artifact paths -/

/-- The last character of a text that ends in the suffix of a kind. -/
theorem getLast?_suffix (t : Str) (k : Kind) :
    (t ++ k.suffix).getLast? = k.suffix.getLast? := by
  apply getLast?_of_HasSuffix _ _ (HasSuffix_append t k.suffix)
  cases k <;> decide

/-- A text that ends in the suffix of a kind does not end in `suf` when the
last characters differ. -/
theorem not_HasSuffix_of_last (t : Str) (k : Kind) (suf : Str) (hne : suf ≠ [])
    (hl : suf.getLast? ≠ k.suffix.getLast?) : HasSuffix (t ++ k.suffix) suf = false := by
  cases h : HasSuffix (t ++ k.suffix) suf with
  | false => rfl
  | true =>
    have := getLast?_of_HasSuffix _ _ h hne
    rw [getLast?_suffix] at this
    exact absurd this.symm hl

/-- `splitQuery` on an artifact path with a valid module and version. -/
theorem splitQuery_artifactPath (m v : Str) (k : Kind)
    (hm : (xmod.UnescapePath m).isSome) (hv : (xmod.UnescapeVersion v).isSome) :
    splitQuery (artifactPath m v k) = some (m, v ++ k.suffix) := by
  have h1 : HasSuffix (artifactPath m v k) "/@latest".toList = false :=
    not_HasSuffix_of_last _ k _ (by decide) (by cases k <;> decide)
  have h2 : HasSuffix (artifactPath m v k) "/list".toList = false :=
    not_HasSuffix_of_last _ k _ (by decide) (by cases k <;> decide)
  have hslash : '/' ∉ v ++ k.suffix := by
    intro h
    rcases List.mem_append.mp h with h | h
    · exact no_slash_of_UnescapeVersion v hv h
    · cases k <;> exact absurd h (by decide)
  have h3 : Split (artifactPath m v k) "/@v/".toList = [m, v ++ k.suffix] := by
    have := Split_at_v m (v ++ k.suffix) (no_at_of_UnescapePath m hm) hslash
    simpa [artifactPath, List.append_assoc] using this
  unfold splitQuery
  rw [h1, h2, h3]
  rfl

/-- `Query` on an artifact path with a valid module and version comes down to
the `queryModule...` function of the kind. -/
theorem Query_artifactPath {σ : Type} (c : ModuleStore σ) (m v : Str) (k : Kind)
    (run : Run σ)
    (hm : (xmod.UnescapePath m).isSome) (hv : (xmod.UnescapeVersion v).isSome) :
    Query c (artifactPath m v k) run
      = (Outcome.ofExcept (k.query c m v run).1, (k.query c m v run).2) := by
  have hne : m ≠ [] := by
    intro h; subst h; revert hm; decide
  have htrim : TrimPrefix (artifactPath m v k) "/".toList = artifactPath m v k := by
    have h0 := head_of_UnescapePath m hm
    cases m with
    | nil => exact absurd rfl hne
    | cons x xs =>
      have : HasPrefix (artifactPath (x :: xs) v k) "/".toList = false := by
        simpa [HasPrefix, artifactPath, List.isPrefixOf] using h0
      unfold TrimPrefix
      rw [this]
      rfl
  obtain ⟨p, hp⟩ := Option.isSome_iff_exists.mp hm
  obtain ⟨w, hw⟩ := Option.isSome_iff_exists.mp hv
  have hr1 : v ++ k.suffix ≠ "list".toList := by
    intro h
    have := getLast?_suffix v k
    rw [h] at this
    revert this; cases k <;> decide
  have hr2 : v ++ k.suffix ≠ "@latest".toList := by
    intro h
    have := getLast?_suffix v k
    rw [h] at this
    revert this; cases k <;> decide
  unfold Query
  simp only [htrim, splitQuery_artifactPath m v k hm hv, hp, hr1, hr2, if_false]
  cases k with
  | info =>
    simp only [Kind.suffix, HasSuffix_append, if_true, TrimSuffix_append, queryArtifact, hw,
      Kind.query]
  | mod =>
    have e1 : HasSuffix (v ++ modSuffix) infoSuffix = false :=
      not_HasSuffix_of_last v Kind.mod _ (by decide) (by decide)
    simp only [Kind.suffix, e1, HasSuffix_append, if_true, TrimSuffix_append, queryArtifact, hw,
      Kind.query, Bool.false_eq_true, if_false]
  | zip =>
    have e1 : HasSuffix (v ++ zipSuffix) infoSuffix = false :=
      not_HasSuffix_of_last v Kind.zip _ (by decide) (by decide)
    have e2 : HasSuffix (v ++ zipSuffix) modSuffix = false :=
      not_HasSuffix_of_last v Kind.zip _ (by decide) (by decide)
    simp only [Kind.suffix, e1, e2, HasSuffix_append, if_true, TrimSuffix_append, queryArtifact,
      hw, Kind.query, Bool.false_eq_true, if_false]

/-- A leading slash of the request path is dropped. -/
theorem Query_leading_slash {σ : Type} (c : ModuleStore σ) (m v : Str) (k : Kind)
    (run : Run σ) (hm : (xmod.UnescapePath m).isSome) :
    Query c ('/' :: artifactPath m v k) run = Query c (artifactPath m v k) run := by
  have hne : m ≠ [] := by
    intro h; subst h; revert hm; decide
  have h0 := head_of_UnescapePath m hm
  have h1 : TrimPrefix ('/' :: artifactPath m v k) "/".toList = artifactPath m v k := by
    simp [TrimPrefix, HasPrefix, List.isPrefixOf]
  have h2 : TrimPrefix (artifactPath m v k) "/".toList = artifactPath m v k := by
    cases m with
    | nil => exact absurd rfl hne
    | cons x xs =>
      have : HasPrefix (artifactPath (x :: xs) v k) "/".toList = false := by
        simpa [HasPrefix, artifactPath, List.isPrefixOf] using h0
      unfold TrimPrefix
      rw [this]
      rfl
  unfold Query
  simp only [h1, h2]

/-- `queryRepository` hands the getter's result on. -/
theorem queryRepository_id (a b d : Str) (r : Except Error Bytes) :
    queryRepository a b d r = r := by
  cases r <;> rfl

/-- The `queryModule...` function of a kind, in terms of the getter of the kind. -/
theorem Kind.query_eq {σ : Type} (c : ModuleStore σ) (k : Kind) (m v : Str) (run : Run σ) :
    k.query c m v run =
      match k.read c.moduleRepository run.store m v with
      | Except.ok result => (Except.ok result, run.log (k.call m v))
      | Except.error err =>
          if err.Is Error.ErrModuleNotFound then
            match fetchAndSetModule c m v (run.log (k.call m v)) with
            | (some err1, run2) => (Except.error err1, run2)
            | (none, run2) =>
                (k.read c.moduleRepository run2.store m v, run2.log (k.call m v))
          else (Except.error err, run.log (k.call m v)) := by
  cases k
  · simp only [Kind.query, queryModuleInfo, queryModuleInfoCache, Do, queryRepository_id,
      Kind.read, Kind.call]
    cases c.moduleRepository.GetVersionInfo run.store m v <;> rfl
  · simp only [Kind.query, queryModuleMod, queryModuleModCache, Do, queryRepository_id,
      Kind.read, Kind.call]
    cases c.moduleRepository.GetModFile run.store m v <;> rfl
  · simp only [Kind.query, queryModuleZip, queryModuleZipCache, Do, queryRepository_id,
      Kind.read, Kind.call]
    cases c.moduleRepository.GetModuleZip run.store m v <;> rfl

/-- C2: for every artifact path `m/@v/v.k` with a valid escaped module and
version (with or without the leading slash), if the first store read of kind
`k` returns bytes or an error that is not `ErrModuleNotFound`, `Query` returns
exactly that outcome, leaves the store as it was, and the getter of the kind is
the only collaborator call it makes: neither `ModuleExists`, nor the upstream
fetcher, nor the VCS adapter, nor `InsertModule` is called. -/
theorem Query_store_hit {σ : Type} (c : ModuleStore σ) (m v : Str) (k : Kind) (run : Run σ)
    (q : Str) (hq : q = artifactPath m v k ∨ q = '/' :: artifactPath m v k)
    (hm : (xmod.UnescapePath m).isSome) (hv : (xmod.UnescapeVersion v).isSome)
    (hread : ∀ e, k.read c.moduleRepository run.store m v = Except.error e →
      e.Is Error.ErrModuleNotFound = false) :
    (Query c q run).1 = Outcome.ofExcept (k.read c.moduleRepository run.store m v)
    ∧ (Query c q run).2.store = run.store
    ∧ (Query c q run).2.trace = run.trace ++ [k.call m v] := by
  have hQ : Query c q run = Query c (artifactPath m v k) run := by
    rcases hq with h | h
    · rw [h]
    · rw [h, Query_leading_slash c m v k run hm]
  rw [hQ, Query_artifactPath c m v k run hm hv, Kind.query_eq]
  cases h : k.read c.moduleRepository run.store m v with
  | ok r => exact ⟨rfl, rfl, rfl⟩
  | error e =>
    simp [hread e h, Run.log]

/-- C2, witness: the three `module1` cases of `TestQueryInfoModZip`, where the
store answers `zip content`, `info content` and `mod content`. -/
theorem Query_store_hit_witness :
    (Query (Scenario.answeringStore "info content" "mod content" "zip content")
        "github.com/tmwalaszek/module1/@v/v1.0.0.zip".toList { store := (), trace := [] }).1
      = Outcome.ok (some "zip content".toList)
    ∧ (Query (Scenario.answeringStore "info content" "mod content" "zip content")
        "github.com/tmwalaszek/module1/@v/v1.0.0.info".toList { store := (), trace := [] }).1
      = Outcome.ok (some "info content".toList)
    ∧ (Query (Scenario.answeringStore "info content" "mod content" "zip content")
        "github.com/tmwalaszek/module1/@v/v1.0.0.mod".toList { store := (), trace := [] }).1
      = Outcome.ok (some "mod content".toList)
    ∧ (Query (Scenario.answeringStore "info content" "mod content" "zip content")
        "github.com/tmwalaszek/module1/@v/v1.0.0.mod".toList { store := (), trace := [] }).2.trace
      = [Call.GetModFile "github.com/tmwalaszek/module1".toList "v1.0.0".toList] :=
  ⟨(Query_store_hit (Scenario.answeringStore "info content" "mod content" "zip content")
      "github.com/tmwalaszek/module1".toList "v1.0.0".toList Kind.zip
      { store := (), trace := [] } _ (Or.inl rfl) (by decide) (by decide)
      (fun e h => by cases h)).1,
   (Query_store_hit (Scenario.answeringStore "info content" "mod content" "zip content")
      "github.com/tmwalaszek/module1".toList "v1.0.0".toList Kind.info
      { store := (), trace := [] } _ (Or.inl rfl) (by decide) (by decide)
      (fun e h => by cases h)).1,
   (Query_store_hit (Scenario.answeringStore "info content" "mod content" "zip content")
      "github.com/tmwalaszek/module1".toList "v1.0.0".toList Kind.mod
      { store := (), trace := [] } _ (Or.inl rfl) (by decide) (by decide)
      (fun e h => by cases h)).1,
   (Query_store_hit (Scenario.answeringStore "info content" "mod content" "zip content")
      "github.com/tmwalaszek/module1".toList "v1.0.0".toList Kind.mod
      { store := (), trace := [] } _ (Or.inl rfl) (by decide) (by decide)
      (fun e h => by cases h)).2.2⟩

/-! ## Cold artifact requests, upstream path -/

/-- `fetchAndSetModule` for a module outside the private set that the store
does not hold: fetch from upstream, then insert. -/
theorem fetchAndSetModule_public {σ : Type} (c : ModuleStore σ) (m v : Str) (run : Run σ)
    (hpriv : xmod.MatchPrefixPatterns c.goPrivate m = false)
    (hex : c.moduleRepository.ModuleExists run.store m v = Except.ok false) :
    fetchAndSetModule c m v run =
      match fetchModule c m v (run.log (Call.ModuleExists m v)) with
      | (Except.error err, run2) => (some err, run2)
      | (Except.ok r, run2) =>
          ((c.moduleRepository.InsertModule run2.store r).1,
            { store := (c.moduleRepository.InsertModule run2.store r).2,
              trace := run2.trace ++ [Call.InsertModule r] }) := by
  unfold fetchAndSetModule
  simp only [hex, hpriv, Bool.false_eq_true, if_false]

/-- `fetchModule` when the info fetch fails. -/
theorem fetchModule_info_error {σ : Type} (c : ModuleStore σ) (m v : Str) (run : Run σ)
    (e : Error) (hi : GoProxyClient.FetchModuleInfo c.goProxyClient m v = Except.error e) :
    fetchModule c m v run = (Except.error e, run.log (Call.FetchModuleInfo m v)) := by
  simp only [fetchModule, fetchAndCache, Do, hi]

/-- `fetchModule` when the mod fetch fails. -/
theorem fetchModule_mod_error {σ : Type} (c : ModuleStore σ) (m v : Str) (run : Run σ)
    (e : Error) (info : Bytes)
    (hi : GoProxyClient.FetchModuleInfo c.goProxyClient m v = Except.ok info)
    (hmo : GoProxyClient.FetchModuleMod c.goProxyClient m v = Except.error e) :
    fetchModule c m v run
      = (Except.error e, (run.log (Call.FetchModuleInfo m v)).log (Call.FetchModuleMod m v)) := by
  simp only [fetchModule, fetchAndCache, Do, hi, hmo]

/-- `fetchModule` when the zip fetch fails. -/
theorem fetchModule_zip_error {σ : Type} (c : ModuleStore σ) (m v : Str) (run : Run σ)
    (e : Error) (info mod : Bytes)
    (hi : GoProxyClient.FetchModuleInfo c.goProxyClient m v = Except.ok info)
    (hmo : GoProxyClient.FetchModuleMod c.goProxyClient m v = Except.ok mod)
    (hz : GoProxyClient.FetchModuleZip c.goProxyClient m v = Except.error e) :
    fetchModule c m v run
      = (Except.error e, ((run.log (Call.FetchModuleInfo m v)).log
          (Call.FetchModuleMod m v)).log (Call.FetchModuleZip m v)) := by
  simp only [fetchModule, fetchAndCache, Do, hi, hmo, hz]

/-- `fetchModule` when the three fetches succeed and the info decodes. -/
theorem fetchModule_ok {σ : Type} (c : ModuleStore σ) (m v : Str) (run : Run σ)
    (info mod zip : Bytes) (infoResponse : Info)
    (hi : GoProxyClient.FetchModuleInfo c.goProxyClient m v = Except.ok info)
    (hmo : GoProxyClient.FetchModuleMod c.goProxyClient m v = Except.ok mod)
    (hz : GoProxyClient.FetchModuleZip c.goProxyClient m v = Except.ok zip)
    (hj : c.json info = Except.ok infoResponse) :
    fetchModule c m v run
      = (Except.ok { Name := m, Version := v, Info := info, Mod := mod, Zip := zip,
                     ZipHash := infoResponse.Origin.Hash },
          ((run.log (Call.FetchModuleInfo m v)).log
            (Call.FetchModuleMod m v)).log (Call.FetchModuleZip m v)) := by
  simp only [fetchModule, fetchAndCache, Do, hi, hmo, hz, hj]

/-- `Query` on a cold artifact request whose fetch-and-persist fails before
the insert. -/
theorem Query_cold_fetch_error {σ : Type} (c : ModuleStore σ) (m v : Str) (k : Kind)
    (run run2 : Run σ) (e0 e : Error)
    (hm : (xmod.UnescapePath m).isSome) (hv : (xmod.UnescapeVersion v).isSome)
    (hpriv : xmod.MatchPrefixPatterns c.goPrivate m = false)
    (hread : k.read c.moduleRepository run.store m v = Except.error e0)
    (hnf : e0.Is Error.ErrModuleNotFound = true)
    (hex : c.moduleRepository.ModuleExists run.store m v = Except.ok false)
    (hf : fetchModule c m v ((run.log (k.call m v)).log (Call.ModuleExists m v))
      = (Except.error e, run2)) :
    Query c (artifactPath m v k) run = (Outcome.error e, run2) := by
  rw [Query_artifactPath c m v k run hm hv, Kind.query_eq, hread]
  simp only [hnf, if_true]
  rw [fetchAndSetModule_public c m v _ hpriv (by simpa [Run.log] using hex), hf]
  rfl

/-- An upstream answer 404 to the info request makes `FetchModuleInfo` fail with
`ErrModuleNotFound`. -/
theorem FetchModuleInfo_status_404 (c : GoProxyClient) (m v u : Str) (resp : Response)
    (hj : c.JoinPath proxyGolangURL [m, "@v".toList, v ++ ".info".toList] = Except.ok u)
    (hn : c.NewRequest u = none) (hd : c.Do u = Except.ok resp)
    (hs : resp.StatusCode = 404) :
    GoProxyClient.FetchModuleInfo c m v = Except.error Error.ErrModuleNotFound := by
  unfold GoProxyClient.FetchModuleInfo
  rw [hj]
  simp only [GoProxyClient.fetch, hn, hd, hs, true_or, if_true]

/-- C3: for every cold artifact request for a module outside the private set
(the first store read answers `ErrModuleNotFound`, `ModuleExists` answers
false), if the info fetch fails, or it succeeds and the mod fetch fails, or
both succeed and the zip fetch fails, each with error `e`, then `Query` returns
`e`, the store is unchanged and `InsertModule` is not among the calls made. -/
theorem Query_fetch_failure {σ : Type} (c : ModuleStore σ) (m v : Str) (k : Kind)
    (run : Run σ) (q : Str) (e0 e : Error)
    (hq : q = artifactPath m v k ∨ q = '/' :: artifactPath m v k)
    (hm : (xmod.UnescapePath m).isSome) (hv : (xmod.UnescapeVersion v).isSome)
    (hpriv : xmod.MatchPrefixPatterns c.goPrivate m = false)
    (hread : k.read c.moduleRepository run.store m v = Except.error e0)
    (hnf : e0.Is Error.ErrModuleNotFound = true)
    (hex : c.moduleRepository.ModuleExists run.store m v = Except.ok false)
    (hfail :
      GoProxyClient.FetchModuleInfo c.goProxyClient m v = Except.error e
      ∨ (∃ info, GoProxyClient.FetchModuleInfo c.goProxyClient m v = Except.ok info
          ∧ GoProxyClient.FetchModuleMod c.goProxyClient m v = Except.error e)
      ∨ (∃ info mod, GoProxyClient.FetchModuleInfo c.goProxyClient m v = Except.ok info
          ∧ GoProxyClient.FetchModuleMod c.goProxyClient m v = Except.ok mod
          ∧ GoProxyClient.FetchModuleZip c.goProxyClient m v = Except.error e)) :
    (Query c q run).1 = Outcome.error e
    ∧ (Query c q run).2.store = run.store
    ∧ ∃ calls, (Query c q run).2.trace = run.trace ++ calls
        ∧ ∀ call ∈ calls, call.isInsert = false := by
  have hQ : Query c q run = Query c (artifactPath m v k) run := by
    rcases hq with h | h
    · rw [h]
    · rw [h, Query_leading_slash c m v k run hm]
  rw [hQ]
  rcases hfail with hi | ⟨info, hi, hmo⟩ | ⟨info, mod, hi, hmo, hz⟩
  · rw [Query_cold_fetch_error c m v k run _ e0 e hm hv hpriv hread hnf hex
      (fetchModule_info_error c m v _ e hi)]
    refine ⟨rfl, rfl, [k.call m v, Call.ModuleExists m v, Call.FetchModuleInfo m v], ?_, ?_⟩
    · simp [Run.log]
    · intro call hc
      simp only [List.mem_cons, List.mem_singleton, List.not_mem_nil, or_false] at hc
      rcases hc with h | h | h <;> subst h
      · cases k <;> rfl
      · rfl
      · rfl
  · rw [Query_cold_fetch_error c m v k run _ e0 e hm hv hpriv hread hnf hex
      (fetchModule_mod_error c m v _ e info hi hmo)]
    refine ⟨rfl, rfl, [k.call m v, Call.ModuleExists m v, Call.FetchModuleInfo m v,
      Call.FetchModuleMod m v], ?_, ?_⟩
    · simp [Run.log]
    · intro call hc
      simp only [List.mem_cons, List.mem_singleton, List.not_mem_nil, or_false] at hc
      rcases hc with h | h | h | h <;> subst h
      · cases k <;> rfl
      · rfl
      · rfl
      · rfl
  · rw [Query_cold_fetch_error c m v k run _ e0 e hm hv hpriv hread hnf hex
      (fetchModule_zip_error c m v _ e info mod hi hmo hz)]
    refine ⟨rfl, rfl, [k.call m v, Call.ModuleExists m v, Call.FetchModuleInfo m v,
      Call.FetchModuleMod m v, Call.FetchModuleZip m v], ?_, ?_⟩
    · simp [Run.log]
    · intro call hc
      simp only [List.mem_cons, List.mem_singleton, List.not_mem_nil, or_false] at hc
      rcases hc with h | h | h | h | h <;> subst h
      · cases k <;> rfl
      · rfl
      · rfl
      · rfl
      · rfl

/-- C3, witness: `github.com/tmwalaszek/module3/@v/v2.0.0.zip` over an empty
table with the upstream answering 404: `Query` fails with `ErrModuleNotFound`
and the table stays empty. -/
theorem Query_fetch_failure_witness :
    (Query (Scenario.sqliteStore "") "github.com/tmwalaszek/module3/@v/v2.0.0.zip".toList
        Scenario.emptyRun).1 = Outcome.error Error.ErrModuleNotFound
    ∧ (Query (Scenario.sqliteStore "") "github.com/tmwalaszek/module3/@v/v2.0.0.zip".toList
        Scenario.emptyRun).2.store = Scenario.emptyRun.store :=
  ⟨(Query_fetch_failure (Scenario.sqliteStore "") "github.com/tmwalaszek/module3".toList
      "v2.0.0".toList Kind.zip Scenario.emptyRun _ Error.ErrModuleNotFound
      Error.ErrModuleNotFound (Or.inl rfl) (by decide) (by decide) rfl rfl rfl rfl
      (Or.inl (FetchModuleInfo_status_404 _ _ _ _ _ rfl rfl rfl rfl))).1,
   (Query_fetch_failure (Scenario.sqliteStore "") "github.com/tmwalaszek/module3".toList
      "v2.0.0".toList Kind.zip Scenario.emptyRun _ Error.ErrModuleNotFound
      Error.ErrModuleNotFound (Or.inl rfl) (by decide) (by decide) rfl rfl rfl rfl
      (Or.inl rfl)).2.1⟩

/-- C4: for every cold artifact request for a module outside the private set
where the three upstream fetches succeed and the info blob decodes, the calls
made are the getter of the kind, `ModuleExists`, the three fetches, then
`InsertModule` of the record whose `Name` and `Version` are the module and
version segments of the request, whose `Info`, `Mod` and `Zip` are the bytes
fetched for each kind and whose `ZipHash` is the `Origin.Hash` of the decoded
info; no other `InsertModule` follows. -/
theorem Query_inserted_record {σ : Type} (c : ModuleStore σ) (m v : Str) (k : Kind)
    (run : Run σ) (q : Str) (e0 : Error) (info mod zip : Bytes) (infoResponse : Info)
    (hq : q = artifactPath m v k ∨ q = '/' :: artifactPath m v k)
    (hm : (xmod.UnescapePath m).isSome) (hv : (xmod.UnescapeVersion v).isSome)
    (hpriv : xmod.MatchPrefixPatterns c.goPrivate m = false)
    (hread : k.read c.moduleRepository run.store m v = Except.error e0)
    (hnf : e0.Is Error.ErrModuleNotFound = true)
    (hex : c.moduleRepository.ModuleExists run.store m v = Except.ok false)
    (hi : GoProxyClient.FetchModuleInfo c.goProxyClient m v = Except.ok info)
    (hmo : GoProxyClient.FetchModuleMod c.goProxyClient m v = Except.ok mod)
    (hz : GoProxyClient.FetchModuleZip c.goProxyClient m v = Except.ok zip)
    (hj : c.json info = Except.ok infoResponse) :
    ∃ rest, (Query c q run).2.trace
      = run.trace ++ [k.call m v, Call.ModuleExists m v, Call.FetchModuleInfo m v,
          Call.FetchModuleMod m v, Call.FetchModuleZip m v,
          Call.InsertModule { Name := m, Version := v, Info := info, Mod := mod, Zip := zip,
                              ZipHash := infoResponse.Origin.Hash }] ++ rest
      ∧ ∀ call ∈ rest, call.isInsert = false := by
  have hQ : Query c q run = Query c (artifactPath m v k) run := by
    rcases hq with h | h
    · rw [h]
    · rw [h, Query_leading_slash c m v k run hm]
  rw [hQ, Query_artifactPath c m v k run hm hv, Kind.query_eq, hread]
  simp only [hnf, if_true]
  rw [fetchAndSetModule_public c m v _ hpriv (by simpa [Run.log] using hex),
    fetchModule_ok c m v _ info mod zip infoResponse hi hmo hz hj]
  simp only []
  cases hins : (c.moduleRepository.InsertModule
      (((((run.log (k.call m v)).log (Call.ModuleExists m v)).log
        (Call.FetchModuleInfo m v)).log (Call.FetchModuleMod m v)).log
          (Call.FetchModuleZip m v)).store
      { Name := m, Version := v, ZipHash := infoResponse.Origin.Hash, Info := info,
        Mod := mod, Zip := zip }).1 with
  | some err =>
    refine ⟨[], ?_, by simp⟩
    simp [Run.log]
  | none =>
    refine ⟨[k.call m v], ?_, ?_⟩
    · simp [Run.log]
    · intro call hc
      simp only [List.mem_singleton] at hc
      subst hc
      cases k <;> rfl

/-- C4, witness: the cold-miss scenario, whose info blob has `Origin.Hash`
`h1`: the record handed to `InsertModule` has `ZipHash` `h1`. -/
theorem Query_inserted_record_witness :
    ∃ rest,
      (Query Scenario.coldStore "/example.com/a/@v/v1.0.0.info".toList Scenario.emptyRun).2.trace
        = [] ++ [Call.GetVersionInfo "example.com/a".toList "v1.0.0".toList,
            Call.ModuleExists "example.com/a".toList "v1.0.0".toList,
            Call.FetchModuleInfo "example.com/a".toList "v1.0.0".toList,
            Call.FetchModuleMod "example.com/a".toList "v1.0.0".toList,
            Call.FetchModuleZip "example.com/a".toList "v1.0.0".toList,
            Call.InsertModule
              { Name := "example.com/a".toList, Version := "v1.0.0".toList,
                Info := some Scenario.scenarioInfo.toList,
                Mod := some "module example.com/a\n".toList,
                Zip := some "zipbytes".toList,
                ZipHash := "h1".toList }] ++ rest
      ∧ ∀ call ∈ rest, call.isInsert = false :=
  Query_inserted_record Scenario.coldStore "example.com/a".toList "v1.0.0".toList Kind.info
    Scenario.emptyRun _ Error.ErrModuleNotFound (some Scenario.scenarioInfo.toList)
    (some "module example.com/a\n".toList) (some "zipbytes".toList)
    { Version := "v1.0.0".toList, Time := "2024-01-02T03:04:05Z".toList,
      Origin := { VCS := "git".toList, URL := "https://example.com/a".toList,
                  Hash := "h1".toList, Ref := "refs/tags/v1.0.0".toList } }
    (Or.inr rfl) (by decide) (by decide) rfl rfl rfl rfl rfl rfl rfl rfl

/-! ## Cold miss then success, upstream path -/

/-- The getter of a kind on the SQLite repository, for a key that is absent. -/
theorem read_sqlite_absent (k : Kind) (db : sqlite3.DB) (m v : Str)
    (h : db.find m v = none) :
    k.read sqlite3.repository db m v = Except.error Error.ErrModuleNotFound := by
  cases k <;>
    simp [Kind.read, sqlite3.repository, sqlite3.GetVersionInfo, sqlite3.GetModFile,
      sqlite3.GetModuleZip, h]

/-- The getter of a kind on the SQLite repository, right after the insert of a
record with non-nil artifacts under a key that was absent. -/
theorem read_sqlite_inserted (k : Kind) (db : sqlite3.DB) (r : Module)
    (h : db.find r.Name r.Version = none) (hm : r.Mod.isSome) (hk : (k.field r).isSome) :
    k.read sqlite3.repository (sqlite3.InsertModule db r).2 r.Name r.Version
      = Except.ok (k.field r) := by
  have hf := find_InsertModule db r hm
  rw [h] at hf
  cases k
  · simp only [Kind.read, sqlite3.repository, sqlite3.GetVersionInfo, hf, Option.getD,
      sqlite3.Row.ofModule, Kind.field] at hk ⊢
    cases hI : r.Info with
    | none => rw [hI] at hk; cases hk
    | some b => rfl
  · simp only [Kind.read, sqlite3.repository, sqlite3.GetModFile, hf, Option.getD,
      sqlite3.Row.ofModule, Kind.field] at hk ⊢
    cases hI : r.Mod with
    | none => rw [hI] at hk; cases hk
    | some b => rfl
  · simp only [Kind.read, sqlite3.repository, sqlite3.GetModuleZip, hf, Option.getD,
      sqlite3.Row.ofModule, Kind.field]

/-- Cold miss then success on the upstream path, over the SQLite repository:
for every valid escaped module outside the private set and every valid
version, if the table has no row for the request and the three fetches and the
decoding of the info succeed, `Query` returns the fetched bytes of the kind. -/
theorem Query_cold_miss_public (c : ModuleStore sqlite3.DB) (m v : Str) (k : Kind)
    (run : Run sqlite3.DB) (q : Str) (info mod zip : List Char) (infoResponse : Info)
    (hrepo : c.moduleRepository = sqlite3.repository)
    (hq : q = artifactPath m v k ∨ q = '/' :: artifactPath m v k)
    (hm : (xmod.UnescapePath m).isSome) (hv : (xmod.UnescapeVersion v).isSome)
    (hpriv : xmod.MatchPrefixPatterns c.goPrivate m = false)
    (habsent : run.store.find m v = none)
    (hi : GoProxyClient.FetchModuleInfo c.goProxyClient m v = Except.ok (some info))
    (hmo : GoProxyClient.FetchModuleMod c.goProxyClient m v = Except.ok (some mod))
    (hz : GoProxyClient.FetchModuleZip c.goProxyClient m v = Except.ok (some zip))
    (hj : c.json (some info) = Except.ok infoResponse) :
    (Query c q run).1
      = Outcome.ok (k.field { Name := m, Version := v, Info := some info, Mod := some mod,
                              Zip := some zip, ZipHash := infoResponse.Origin.Hash }) := by
  have hQ : Query c q run = Query c (artifactPath m v k) run := by
    rcases hq with h | h
    · rw [h]
    · rw [h, Query_leading_slash c m v k run hm]
  have hex : c.moduleRepository.ModuleExists (run.log (k.call m v)).store m v
      = Except.ok false := by
    rw [hrepo]
    simp [sqlite3.repository, sqlite3.ModuleExists, Run.log, habsent]
  rw [hQ, Query_artifactPath c m v k run hm hv, Kind.query_eq, hrepo,
    read_sqlite_absent k run.store m v habsent]
  have hnf : Error.ErrModuleNotFound.Is Error.ErrModuleNotFound = true := rfl
  simp only [hnf, if_true]
  rw [fetchAndSetModule_public c m v _ hpriv hex,
    fetchModule_ok c m v _ (some info) (some mod) (some zip) infoResponse hi hmo hz hj]
  simp only [hrepo]
  have := read_sqlite_inserted k run.store
    { Name := m, Version := v, Info := some info, Mod := some mod, Zip := some zip,
      ZipHash := infoResponse.Origin.Hash } habsent rfl (by cases k <;> rfl)
  have hfst := InsertModule_fst run.store
    { Name := m, Version := v, Info := some info, Mod := some mod, Zip := some zip,
      ZipHash := infoResponse.Origin.Hash } rfl
  simp only [sqlite3.repository, Run.log, hfst] at this ⊢
  rw [this]
  rfl

/-- The cold-miss scenario: over an empty table, `/example.com/a/@v/v1.0.0.info`
returns the info blob fetched from upstream. -/
theorem Query_cold_miss_scenario :
    (Query Scenario.coldStore "/example.com/a/@v/v1.0.0.info".toList Scenario.emptyRun).1
      = Outcome.ok (some Scenario.scenarioInfo.toList) :=
  Query_cold_miss_public Scenario.coldStore "example.com/a".toList "v1.0.0".toList Kind.info
    Scenario.emptyRun _ Scenario.scenarioInfo.toList "module example.com/a\n".toList
    "zipbytes".toList _ rfl (Or.inr rfl) (by decide) (by decide) rfl rfl rfl rfl rfl rfl

/-! ## The resolver at concrete requests -/

/-- C1, at the failing input: with `GOPRIVATE=example.com`, an empty table and
a `Clone` that succeeds, the request `example.com/!a/@v/v1.0.0.info` ends in
`ErrModuleNotFound`: the cloned record is inserted under the unescaped name
`example.com/A` and the re-read asks for the escaped name `example.com/!a`. -/
theorem Query_private_uppercase_miss :
    (modstore.Query (Scenario.sqliteStore "example.com")
        "example.com/!a/@v/v1.0.0.info".toList Scenario.emptyRun).1
      = Outcome.error Error.ErrModuleNotFound
    ∧ (modstore.Query (Scenario.sqliteStore "example.com")
        "example.com/!a/@v/v1.0.0.info".toList Scenario.emptyRun).2.store.rows.map
          (fun r => (r.name, r.version, r.info))
      = [("example.com/A".toList, "v1.0.0".toList, some "info".toList)] := by
  constructor <;> rfl

/-- The paths of `TestQueryInvalid`, and the bare slash, are refused: `Query`
returns a non-nil error and calls no collaborator. -/
theorem Query_invalid_paths :
    ∀ q ∈ ["github.com/@v", "github.com/slk/@v", "github.com/tmwalaszek/module1/v1.0.0",
           "github.com/tmwalaszek/module2/@latest/asf",
           "github.com/tmwalaszek/module3/@v/@latest",
           "github.com/tmwalaszek/module4/@v/@latest/asf", "/"],
      (∃ e, (modstore.Query (Scenario.sqliteStore "") (String.toList q) Scenario.emptyRun).1
          = Outcome.error e)
      ∧ (modstore.Query (Scenario.sqliteStore "") (String.toList q) Scenario.emptyRun).2.trace
          = [] := by
  intro q hq
  simp only [List.mem_cons, List.mem_singleton, List.not_mem_nil, or_false] at hq
  rcases hq with h | h | h | h | h | h | h <;> subst h <;> exact ⟨⟨_, rfl⟩, rfl⟩

/-- C5, at the failing input: `github.com/tmwalaszek/module1/list` is none of
the recognised shapes, yet `Query` returns a nil error; it is served as the
version list of a module named `github.com/tmwalaszek/module1/list`. -/
theorem Query_list_suffix_accepted :
    (modstore.Query (Scenario.sqliteStore "")
        "github.com/tmwalaszek/module1/list".toList Scenario.emptyRun).1
      = Outcome.ok (some [])
    ∧ (modstore.Query (Scenario.sqliteStore "")
        "github.com/tmwalaszek/module1/list".toList Scenario.emptyRun).2.trace
      = [Call.GetVersionList "github.com/tmwalaszek/module1/list".toList] := by
  constructor <;> rfl

/-- C6, at the failing input: with `GOPRIVATE=github.com/MyOrg`, the request
`github.com/!my!org/repo/@latest` (import path `github.com/MyOrg/repo`) is sent
to the upstream proxy client and the VCS adapter is not consulted: the pattern
is matched against the escaped segment. -/
theorem Query_private_uppercase_leaks :
    xmod.UnescapePath "github.com/!my!org/repo".toList = some "github.com/MyOrg/repo".toList
    ∧ xmod.MatchPrefixPatterns "github.com/MyOrg".toList "github.com/MyOrg/repo".toList = true
    ∧ (modstore.Query (Scenario.sqliteStore "github.com/MyOrg")
        "github.com/!my!org/repo/@latest".toList Scenario.emptyRun).2.trace
      = [Call.FetchLatest "github.com/!my!org/repo".toList] := by
  refine ⟨?_, ?_, ?_⟩ <;> rfl

/-- C7, at the failing input: when `InsertModule` answers
`ErrModuleAlreadyExists` after a successful clone, `fetchAndSetModule` returns
that error and `Query` fails with it, without re-reading the store. -/
theorem Query_insert_already_exists :
    (modstore.fetchAndSetModule Scenario.racingStore "example.com/a".toList "v1.0.0".toList
        { store := (), trace := [] }).1 = some Error.ErrModuleAlreadyExists
    ∧ (modstore.Query Scenario.racingStore "example.com/a/@v/v1.0.0.mod".toList
        { store := (), trace := [] }).1 = Outcome.error Error.ErrModuleAlreadyExists
    ∧ (modstore.Query Scenario.racingStore "example.com/a/@v/v1.0.0.mod".toList
        { store := (), trace := [] }).2.trace
      = [Call.GetModFile "example.com/a".toList "v1.0.0".toList,
         Call.ModuleExists "example.com/a".toList "v1.0.0".toList,
         Call.Clone "example.com/a".toList "v1.0.0".toList,
         Call.InsertModule
           { Name := "example.com/a".toList, Version := "v1.0.0".toList,
             ZipHash := "h1".toList, Info := some "info".toList, Mod := some "mod".toList,
             Zip := some "zip".toList }] := by
  refine ⟨?_, ?_, ?_⟩ <;> rfl

/-! ## Version list and latest version, upstream path -/

/-- `TrimPrefix` leaves a path that begins with a valid escaped module. -/
theorem TrimPrefix_module (m rest : Str) (hm : (xmod.UnescapePath m).isSome) :
    TrimPrefix (m ++ rest) "/".toList = m ++ rest := by
  have hne : m ≠ [] := by
    intro h; subst h; revert hm; decide
  have h0 := head_of_UnescapePath m hm
  cases m with
  | nil => exact absurd rfl hne
  | cons x xs =>
    have : HasPrefix (x :: xs ++ rest) "/".toList = false := by
      simpa [HasPrefix, List.isPrefixOf] using h0
    unfold TrimPrefix
    rw [this]
    rfl

/-- A leading slash before a valid escaped module is dropped by `Query`. -/
theorem Query_slash_module {σ : Type} (c : ModuleStore σ) (m rest : Str) (run : Run σ)
    (hm : (xmod.UnescapePath m).isSome) :
    Query c ('/' :: (m ++ rest)) run = Query c (m ++ rest) run := by
  have h1 : TrimPrefix ('/' :: (m ++ rest)) "/".toList = m ++ rest := by
    simp [TrimPrefix, HasPrefix, List.isPrefixOf]
  unfold Query
  simp only [h1, TrimPrefix_module m rest hm]

/-- `Query` on `module/@latest` with a valid escaped module comes down to
`queryLatest`. -/
theorem Query_latest {σ : Type} (c : ModuleStore σ) (m : Str) (run : Run σ)
    (hm : (xmod.UnescapePath m).isSome) :
    Query c (m ++ "/@latest".toList) run =
      match queryLatest c m run with
      | (Outcome.ok latest, run1) => (Outcome.ok (some latest), run1)
      | (Outcome.error err, run1) => (Outcome.error err, run1)
      | (Outcome.panic, run1) => (Outcome.panic, run1) := by
  obtain ⟨p, hp⟩ := Option.isSome_iff_exists.mp hm
  have hs : splitQuery (m ++ "/@latest".toList) = some (m, "@latest".toList) := by
    unfold splitQuery
    rw [HasSuffix_append, if_pos rfl, TrimSuffix_append]
  have h1 : ("@latest".toList = "list".toList) = False := by decide
  unfold Query
  simp only [TrimPrefix_module m _ hm, hs, hp, h1, if_false, if_true]
  try rfl

/-- Two texts of one length: the one is a suffix of what ends in the other only
if they are equal. -/
theorem HasSuffix_same_length (t a b : Str) (hl : a.length = b.length)
    (h : HasSuffix (t ++ a) b = true) : a = b := by
  simp only [HasSuffix, List.isSuffixOf_iff_suffix] at h
  obtain ⟨s, hs⟩ := h
  exact ((List.append_inj' hs hl.symm).2).symm

/-- `Query` on `module/@v/list` with a valid escaped module comes down to
`queryVersionsList`. -/
theorem Query_list {σ : Type} (c : ModuleStore σ) (m : Str) (run : Run σ)
    (hm : (xmod.UnescapePath m).isSome) :
    Query c (m ++ "/@v/list".toList) run =
      match queryVersionsList c m run with
      | (Except.error err, run1) => (Outcome.error err, run1)
      | (Except.ok versionLists, run1) =>
          (Outcome.ok (some (strings.Join versionLists [Char.ofNat 10])), run1) := by
  obtain ⟨p, hp⟩ := Option.isSome_iff_exists.mp hm
  have hs : splitQuery (m ++ "/@v/list".toList) = some (m, "list".toList) := by
    have h1 : HasSuffix (m ++ "/@v/list".toList) "/@latest".toList = false := by
      cases h : HasSuffix (m ++ "/@v/list".toList) "/@latest".toList with
      | false => rfl
      | true =>
        exact absurd (HasSuffix_same_length m "/@v/list".toList "/@latest".toList rfl h)
          (by decide)
    have h2 : HasSuffix (m ++ "/@v/list".toList) "/list".toList = true := by
      have : m ++ "/@v/list".toList = (m ++ "/@v".toList) ++ "/list".toList := by simp
      rw [this]; exact HasSuffix_append _ _
    unfold splitQuery
    rw [h1, h2, TrimSuffix_append]
    rfl
  unfold Query
  simp only [TrimPrefix_module m _ hm, hs, hp, if_true]
  try rfl

/-- C15: for every valid escaped module outside the private set, `Query` on
`module/@v/list` (with or without the leading slash) returns exactly the
outcome of the store's `GetVersionList`: its error when it fails, otherwise its
versions joined by newlines in the store's order; an empty list gives a success
with an empty body.  The store is unchanged and `GetVersionList` is the only
call made. -/
theorem Query_list_public {σ : Type} (c : ModuleStore σ) (m : Str) (run : Run σ) (q : Str)
    (hq : q = m ++ "/@v/list".toList ∨ q = '/' :: (m ++ "/@v/list".toList))
    (hm : (xmod.UnescapePath m).isSome)
    (hpriv : xmod.MatchPrefixPatterns c.goPrivate m = false) :
    (Query c q run).1 =
        (match c.moduleRepository.GetVersionList run.store m with
         | Except.error err => Outcome.error err
         | Except.ok versions => Outcome.ok (some (strings.Join versions [Char.ofNat 10])))
    ∧ (c.moduleRepository.GetVersionList run.store m = Except.ok [] →
        (Query c q run).1 = Outcome.ok (some []))
    ∧ (Query c q run).2.store = run.store
    ∧ (Query c q run).2.trace = run.trace ++ [Call.GetVersionList m] := by
  have hQ : Query c q run = Query c (m ++ "/@v/list".toList) run := by
    rcases hq with h | h
    · rw [h]
    · rw [h, Query_slash_module c m _ run hm]
  rw [hQ, Query_list c m run hm]
  simp only [queryVersionsList, hpriv, Bool.false_eq_true, if_false]
  cases h : c.moduleRepository.GetVersionList run.store m with
  | error e => simp [Run.log]
  | ok l =>
    refine ⟨rfl, ?_, rfl, rfl⟩
    intro hl
    cases hl
    rfl

/-- C13: for every valid escaped module outside the private set, when the
upstream answers the request for `module/@latest`, `Query` returns the body
unchanged for status 200, fails with `ErrModuleNotFound` for 404 and 410, and
for every other status code fails with the error whose message is
`request failed with status code N`. -/
theorem Query_latest_public {σ : Type} (c : ModuleStore σ) (m : Str) (run : Run σ) (q u : Str)
    (resp : Response)
    (hq : q = m ++ "/@latest".toList ∨ q = '/' :: (m ++ "/@latest".toList))
    (hm : (xmod.UnescapePath m).isSome)
    (hpriv : xmod.MatchPrefixPatterns c.goPrivate m = false)
    (hj : c.goProxyClient.JoinPath proxyGolangURL [m, "@latest".toList] = Except.ok u)
    (hn : c.goProxyClient.NewRequest u = none)
    (hd : c.goProxyClient.Do u = Except.ok resp) :
    (resp.StatusCode = 200 → ∀ body, resp.Body = Except.ok body →
        (Query c q run).1 = Outcome.ok (some body))
    ∧ (resp.StatusCode = 404 ∨ resp.StatusCode = 410 →
        (Query c q run).1 = Outcome.error Error.ErrModuleNotFound)
    ∧ (resp.StatusCode ≠ 200 → resp.StatusCode ≠ 404 → resp.StatusCode ≠ 410 →
        (Query c q run).1 = Outcome.error (Error.New
          ("request failed with status code ".toList ++ (Nat.repr resp.StatusCode).toList))) := by
  have hQ : Query c q run = Query c (m ++ "/@latest".toList) run := by
    rcases hq with h | h
    · rw [h]
    · rw [h, Query_slash_module c m _ run hm]
  rw [hQ, Query_latest c m run hm]
  simp only [queryLatest, hpriv, Bool.false_eq_true, if_false, GoProxyClient.FetchLatest, hj,
    GoProxyClient.fetch, hn, hd]
  refine ⟨?_, ?_, ?_⟩
  · intro h200 body hb
    simp [h200, hb]
  · intro h4
    simp [h4]
  · intro h1 h2 h3
    simp [h1, h2, h3]

/-- C15, witnesses: the two cases of `TestQueryList`: the store lists `v1.0.0`
and `v1.0.1`; the store fails with `ErrModuleNotFound`, which is returned as is. -/
theorem Query_list_public_witness :
    (Query (Scenario.listingStore (Except.ok ["v1.0.0", "v1.0.1"]))
        "github.com/tmwalaszek/module1/@v/list".toList { store := (), trace := [] }).1
      = Outcome.ok (some "v1.0.0\nv1.0.1".toList)
    ∧ (Query (Scenario.listingStore (Except.error Error.ErrModuleNotFound))
        "github.com/tmwalaszek/module3/@v/list".toList { store := (), trace := [] }).1
      = Outcome.error Error.ErrModuleNotFound :=
  ⟨(Query_list_public (Scenario.listingStore (Except.ok ["v1.0.0", "v1.0.1"]))
      "github.com/tmwalaszek/module1".toList { store := (), trace := [] } _ (Or.inl rfl)
      (by decide) rfl).1,
   (Query_list_public (Scenario.listingStore (Except.error Error.ErrModuleNotFound))
      "github.com/tmwalaszek/module3".toList { store := (), trace := [] } _ (Or.inl rfl)
      (by decide) rfl).1⟩

/-- C13, witnesses: the four cases of `TestQueryLatest`: status 200 with a
body, 404, 410 and 500. -/
theorem Query_latest_public_witness :
    (Query (Scenario.latestStore 200 "\x7b\"Version\":\"v0.0.1\",\"Time\":\"2025-05-24T17:42:06Z\"\x7d%")
        "github.com/tmwalaszek/module1/@latest".toList { store := (), trace := [] }).1
      = Outcome.ok (some "\x7b\"Version\":\"v0.0.1\",\"Time\":\"2025-05-24T17:42:06Z\"\x7d%".toList)
    ∧ (Query (Scenario.latestStore 404 "") "github.com/tmwalaszek/module2/@latest".toList
        { store := (), trace := [] }).1 = Outcome.error Error.ErrModuleNotFound
    ∧ (Query (Scenario.latestStore 410 "") "github.com/tmwalaszek/module3/@latest".toList
        { store := (), trace := [] }).1 = Outcome.error Error.ErrModuleNotFound
    ∧ (Query (Scenario.latestStore 500 "") "github.com/tmwalaszek/module4/@latest".toList
        { store := (), trace := [] }).1
      = Outcome.error (Error.New "request failed with status code 500".toList) :=
  ⟨(Query_latest_public (Scenario.latestStore 200 _) "github.com/tmwalaszek/module1".toList
      { store := (), trace := [] } _ _ _ (Or.inl rfl) (by decide) rfl rfl rfl rfl).1 rfl _ rfl,
   (Query_latest_public (Scenario.latestStore 404 "") "github.com/tmwalaszek/module2".toList
      { store := (), trace := [] } _ _ _ (Or.inl rfl) (by decide) rfl rfl rfl rfl).2.1
      (Or.inl rfl),
   (Query_latest_public (Scenario.latestStore 410 "") "github.com/tmwalaszek/module3".toList
      { store := (), trace := [] } _ _ _ (Or.inl rfl) (by decide) rfl rfl rfl rfl).2.1
      (Or.inr rfl),
   (Query_latest_public (Scenario.latestStore 500 "") "github.com/tmwalaszek/module4".toList
      { store := (), trace := [] } _ _ _ (Or.inl rfl) (by decide) rfl rfl rfl rfl).2.2
      (by decide) (by decide) (by decide)⟩

/-! ## The single-flight key -/

/-- Two texts cut at a character that the parts after it do not hold are cut
at the same place. -/
theorem append_cons_inj (c : Char) (a a' b b' : Str) (hb : c ∉ b) (hb' : c ∉ b')
    (h : a ++ c :: b = a' ++ c :: b') : a = a' ∧ b = b' := by
  induction a generalizing a' with
  | nil =>
    cases a' with
    | nil => simpa using h
    | cons x xs =>
      simp only [List.nil_append, List.cons_append, List.cons.injEq] at h
      exact absurd (by rw [h.2]; simp) hb
  | cons y ys ih =>
    cases a' with
    | nil =>
      simp only [List.nil_append, List.cons_append, List.cons.injEq] at h
      exact absurd (by rw [← h.2]; simp) hb'
    | cons x xs =>
      simp only [List.cons_append, List.cons.injEq] at h
      obtain ⟨h1, h2⟩ := ih xs h.2
      exact ⟨by rw [h.1, h1], h2⟩

/-- C11, as amended: equal single-flight keys have the same artifact kind; for
one module they have the same version; and when neither version holds a hyphen
they have the same module and the same version. -/
theorem cacheKey_determines (m1 m2 v1 v2 : Str) (k1 k2 : Kind)
    (h : cacheKey m1 v1 k1.suffix = cacheKey m2 v2 k2.suffix) :
    k1 = k2
    ∧ (m1 = m2 → v1 = v2)
    ∧ ('-' ∉ v1 → '-' ∉ v2 → m1 = m2 ∧ v1 = v2) := by
  have hk : k1 = k2 := by
    have h1 := getLast?_suffix (m1 ++ "-".toList ++ v1) k1
    have h2 := getLast?_suffix (m2 ++ "-".toList ++ v2) k2
    unfold cacheKey at h
    rw [h, h2] at h1
    revert h1
    cases k1 <;> cases k2 <;> decide
  subst hk
  have h' : m1 ++ '-' :: v1 = m2 ++ '-' :: v2 := by
    unfold cacheKey at h
    have := List.append_cancel_right h
    simpa using this
  refine ⟨rfl, ?_, ?_⟩
  · intro hm
    subst hm
    simpa using h'
  · intro n1 n2
    exact append_cons_inj '-' m1 m2 v1 v2 n1 n2 h'

/-- C11, witness: the key of `example.com/a` at `v1.0.0`, kind info, against
itself. -/
theorem cacheKey_determines_witness :
    Kind.info = Kind.info
    ∧ ("example.com/a".toList = "example.com/a".toList → "v1.0.0".toList = "v1.0.0".toList)
    ∧ ('-' ∉ "v1.0.0".toList → '-' ∉ "v1.0.0".toList →
        "example.com/a".toList = "example.com/a".toList
        ∧ "v1.0.0".toList = "v1.0.0".toList) :=
  cacheKey_determines "example.com/a".toList "example.com/a".toList "v1.0.0".toList
    "v1.0.0".toList Kind.info Kind.info rfl

/-- C11, counterexample to the claim as stated: the valid module paths
`example.com/a` and `example.com/a-v1.0.0`, with the valid versions
`v1.0.0-v2.0.0` and `v2.0.0`, share the key
`example.com/a-v1.0.0-v2.0.0.info`. -/
theorem cacheKey_collision :
    cacheKey "example.com/a".toList "v1.0.0-v2.0.0".toList infoSuffix
      = cacheKey "example.com/a-v1.0.0".toList "v2.0.0".toList infoSuffix
    ∧ "example.com/a".toList ≠ "example.com/a-v1.0.0".toList
    ∧ (xmod.UnescapePath "example.com/a".toList).isSome
    ∧ (xmod.UnescapePath "example.com/a-v1.0.0".toList).isSome
    ∧ (xmod.UnescapeVersion "v1.0.0-v2.0.0".toList).isSome
    ∧ (xmod.UnescapeVersion "v2.0.0".toList).isSome
    ∧ (semver.parse "v1.0.0-v2.0.0".toList).isSome
    ∧ (semver.parse "v2.0.0".toList).isSome := by
  refine ⟨rfl, by decide, by decide, by decide, by decide, by decide, by decide, by decide⟩

/-! ## The HTTP handler -/

/-- C14: `ServeHTTP` answers the checksum path with 404 without calling
`Query`; a `Query` error is answered with 404 when it is `ErrModuleNotFound`
and with 500 otherwise; a success is answered with 200 and the returned bytes.
Hence a written status is 404 exactly for the checksum path or an
`ErrModuleNotFound` from `Query`; the invalid-resource error of `Query` is not
`ErrModuleNotFound`, so it is answered with 500. -/
theorem ServeHTTP_status (h : handler.Handler) (path : Str) :
    (path = handler.sumDbPath →
      handler.ServeHTTP h path = (some (handler.httpError "not found".toList 404), []))
    ∧ (path ≠ handler.sumDbPath → ∀ e, h.cache path = Outcome.error e →
        (handler.ServeHTTP h path).1
          = some (if e.Is Error.ErrModuleNotFound
                  then handler.httpError "module not found".toList 404
                  else handler.httpError "internal server error".toList 500))
    ∧ (path ≠ handler.sumDbPath → ∀ resp, h.cache path = Outcome.ok resp →
        (handler.ServeHTTP h path).1 = some { status := 200, body := resp.getD [] })
    ∧ (∀ w, (handler.ServeHTTP h path).1 = some w →
        (w.status = 404 ↔
          path = handler.sumDbPath
          ∨ ∃ e, h.cache path = Outcome.error e ∧ e.Is Error.ErrModuleNotFound = true))
    ∧ (∀ msg, (errInvalidQuery msg).Is Error.ErrModuleNotFound = false) := by
  refine ⟨?_, ?_, ?_, ?_, ?_⟩
  · intro hp
    simp [handler.ServeHTTP, hp]
  · intro hp e he
    simp only [handler.ServeHTTP, hp, if_false, he]
    split <;> rfl
  · intro hp resp hr
    simp only [handler.ServeHTTP, hp, if_false, hr]
  · intro w hw
    by_cases hp : path = handler.sumDbPath
    · simp only [handler.ServeHTTP, hp, if_true, Option.some.injEq] at hw
      subst hw
      simp [hp, handler.httpError]
    · simp only [handler.ServeHTTP, hp, if_false] at hw
      cases hc : h.cache path with
      | panic => simp [hc] at hw
      | ok resp =>
        simp only [hc, Option.some.injEq] at hw
        subst hw
        simp [hp]
      | error e =>
        simp only [hc] at hw
        by_cases hi : e.Is Error.ErrModuleNotFound = true
        · simp only [hi, if_true, Option.some.injEq] at hw
          subst hw
          simp [hp, handler.httpError, hi]
        · simp only [hi, Bool.false_eq_true, if_false, Option.some.injEq] at hw
          subst hw
          simp [hp, handler.httpError, hi]
  · intro msg
    rfl

/-! ## The VCS adapter: repository URL and tag parsing -/

/-- `strconv.Atoi` gives an integer that is at least 2 exactly on an optional
`+` followed by decimal digits of a value from 2 to `2^63 - 1`. -/
theorem Atoi_ge_two (rest : Str) :
    (∃ n, strconv.Atoi rest = some n ∧ n ≥ 2)
      ↔ (let ds := if rest.head? = some '+' then rest.tail else rest
         ds ≠ [] ∧ ds.all xmod.isDigit = true ∧ 2 ≤ strconv.digitsValue ds
           ∧ strconv.digitsValue ds < 2 ^ 63) := by
  cases rest with
  | nil => simp [strconv.Atoi]
  | cons c cs =>
    by_cases hm : c = '-'
    · subst hm
      have h1 : ¬ (('-' : Char) = '+') := by decide
      have h2 : xmod.isDigit '-' = false := by decide
      simp only [strconv.Atoi, List.head?_cons, Option.some.injEq, h1, List.tail_cons,
        true_or, if_true, decide_True, if_false, List.all_cons, h2, Bool.false_and]
      constructor
      · rintro ⟨n, hn, hge⟩
        split at hn
        · cases hn
        · split at hn
          · simp only [Option.some.injEq] at hn
            omega
          · cases hn
      · rintro ⟨_, h, _⟩
        cases h
    · by_cases hp : c = '+'
      · subst hp
        have h1 : ¬ (('+' : Char) = '-') := by decide
        simp only [strconv.Atoi, List.head?_cons, Option.some.injEq, h1, List.tail_cons,
          or_true, if_true, decide_False, Bool.false_eq_true, if_false]
        constructor
        · rintro ⟨n, hn, hge⟩
          split at hn
          · cases hn
          · rename_i hb
            split at hn
            · simp only [Option.some.injEq] at hn
              push_neg at hb
              refine ⟨hb.1, by simpa using hb.2, by omega, by assumption⟩
            · cases hn
        · rintro ⟨hne, hall, h2, hlt⟩
          refine ⟨(strconv.digitsValue cs : Int), ?_, by omega⟩
          have hlt' : strconv.digitsValue cs < 9223372036854775808 := by simpa using hlt
          simp [hne, hall, hlt']
      · simp only [strconv.Atoi, List.head?_cons, Option.some.injEq, hm, hp, or_self, if_false,
          decide_False, Bool.false_eq_true]
        constructor
        · rintro ⟨n, hn, hge⟩
          split at hn
          · cases hn
          · rename_i hb
            split at hn
            · simp only [Option.some.injEq] at hn
              push_neg at hb
              refine ⟨hb.1, by simpa using hb.2, by omega, by assumption⟩
            · cases hn
        · rintro ⟨hne, hall, h2, hlt⟩
          refine ⟨(strconv.digitsValue (c :: cs) : Int), ?_, by omega⟩
          have hlt' : strconv.digitsValue (c :: cs) < 9223372036854775808 := by
            simpa using hlt
          simp only [List.all_cons] at hall
          simp [hall, hlt']

/-- C18: `stripModuleMajorSuffix` removes the final segment of the trimmed path
exactly when that segment is `v`, an optional `+`, and decimal digits of a
value from 2 to `2^63 - 1` (what `strconv.Atoi` reads as an integer that is at
least 2); every other path is returned trimmed and otherwise unchanged. -/
theorem stripModuleMajorSuffix_eq (p : Str) :
    git.stripModuleMajorSuffix p =
      if git.isMajorSuffix ((Split (TrimSpace p) "/".toList).getLastD []) = true
      then Join (Split (TrimSpace p) "/".toList).dropLast "/".toList
      else TrimSpace p := by
  unfold git.stripModuleMajorSuffix
  by_cases hp : TrimSpace p = []
  · simp only [hp, if_true]
    rfl
  · simp only [hp, if_false]
    cases hl : (Split (TrimSpace p) "/".toList).getLastD [] with
    | nil => simp [git.isMajorSuffix]
    | cons c rest =>
      have hA := Atoi_ge_two rest
      by_cases hc : c = 'v'
      · subst hc
        by_cases hr : rest = []
        · subst hr
          simp [git.isMajorSuffix]
        · have hlen : 1 < ('v' :: rest).length := by
            cases rest with
            | nil => exact absurd rfl hr
            | cons _ _ => simp
          simp only [hlen, List.head?_cons, true_and, if_true, List.tail_cons]
          by_cases hs : git.isMajorSuffix ('v' :: rest) = true
          · rw [if_pos hs]
            have : ∃ n, strconv.Atoi rest = some n ∧ n ≥ 2 := by
              apply hA.mpr
              simp only [git.isMajorSuffix, Bool.and_eq_true, beq_self_eq_true, true_and,
                Bool.not_eq_true', decide_eq_true_eq] at hs
              obtain ⟨⟨⟨h1, h2⟩, h3⟩, h4⟩ := hs
              refine ⟨?_, h2, h3, h4⟩
              intro h0
              rw [h0] at h1
              simp at h1
            obtain ⟨n, hn, hge⟩ := this
            simp [hn, hge]
          · rw [if_neg hs]
            cases hn : strconv.Atoi rest with
            | none => rfl
            | some n =>
              by_cases hge : n ≥ 2
              · exfalso
                apply hs
                have := hA.mp ⟨n, hn, hge⟩
                obtain ⟨h1, h2, h3, h4⟩ := this
                simp only [git.isMajorSuffix, Bool.and_eq_true, beq_self_eq_true, true_and,
                  Bool.not_eq_true', decide_eq_true_eq]
                refine ⟨⟨⟨?_, h2⟩, h3⟩, h4⟩
                cases h : (if rest.head? = some '+' then rest.tail else rest) with
                | nil => exact absurd h h1
                | cons _ _ => rfl
              · simp [hge]
      · have h1 : ¬ (1 < (c :: rest).length ∧ (c :: rest).head? = some 'v') := by
          simp [hc]
        have h2 : git.isMajorSuffix (c :: rest) = false := by
          simp [git.isMajorSuffix, hc]
        simp only [h1, if_false, h2, Bool.false_eq_true]

/-- The function on the paths `example.com/m/v2`, `example.com/m/v1` and
`example.com/m`. -/
theorem stripModuleMajorSuffix_examples :
    git.stripModuleMajorSuffix "example.com/m/v2".toList = "example.com/m".toList
    ∧ git.stripModuleMajorSuffix "example.com/m/v1".toList = "example.com/m/v1".toList
    ∧ git.stripModuleMajorSuffix "example.com/m".toList = "example.com/m".toList := by
  refine ⟨?_, ?_, ?_⟩ <;> rfl

/-- C18, counterexample: the segment `v99999999999999999999` is `v` followed by
the decimal digits of an integer that is at least 2, in a valid module path,
and the path is returned unchanged (`strconv.Atoi` reports a range error);
the segment `v+2` is not `v` followed by decimal digits, and it is removed. -/
theorem stripModuleMajorSuffix_atoi_edges :
    git.stripModuleMajorSuffix "example.com/m/v99999999999999999999".toList
      = "example.com/m/v99999999999999999999".toList
    ∧ (xmod.UnescapePath "example.com/m/v99999999999999999999".toList).isSome
    ∧ git.stripModuleMajorSuffix "example.com/m/v+2".toList = "example.com/m".toList := by
  refine ⟨?_, ?_, ?_⟩ <;> rfl

/-- `Join` of two or more pieces. -/
theorem Join_cons_cons (l l' : Str) (rest : List Str) (sep : Str) :
    Join (l :: l' :: rest) sep = l ++ sep ++ Join (l' :: rest) sep := by
  simp [Join, List.intercalate, List.intersperse]

/-- `Join` of one piece. -/
theorem Join_singleton (l sep : Str) : Join [l] sep = l := by
  simp [Join, List.intercalate, List.intersperse]

/-- The scan of `Split` passes over a stretch without the separator character. -/
theorem splitGo_pass (d : Char) (l rest acc : Str) (h : d ∉ l) :
    splitGo [d] 0 (l ++ rest) acc = splitGo [d] 0 rest (l.reverse ++ acc) := by
  induction l generalizing acc with
  | nil => rfl
  | cons c cs ih =>
    have hc : d ≠ c := fun e => h (by simp [e])
    have hcs : d ∉ cs := fun e => h (by simp [e])
    have : ([d] : Str).isPrefixOf (c :: (cs ++ rest)) = false := by
      simp [List.isPrefixOf, hc]
    rw [List.cons_append, splitGo, this]
    simp only [Bool.false_eq_true, if_false]
    rw [ih (c :: acc) hcs]
    simp

/-- Splitting at a character what was joined by it gives the pieces back, when
no piece holds the character. -/
theorem Split_Join_char (d : Char) (ls : List Str) (hne : ls ≠ [])
    (h : ∀ l ∈ ls, d ∉ l) : Split (Join ls [d]) [d] = ls := by
  have key : ∀ (ls : List Str) (l acc : Str), (∀ x ∈ l :: ls, d ∉ x) →
      splitGo [d] 0 (Join (l :: ls) [d]) acc = (acc.reverse ++ l) :: ls := by
    intro ls
    induction ls with
    | nil =>
      intro l acc hl
      rw [Join_singleton]
      exact splitGo_no_head d [] l acc (hl l (by simp))
    | cons l' rest ih =>
      intro l acc hl
      rw [Join_cons_cons, List.append_assoc, splitGo_pass d l _ acc (hl l (by simp))]
      rw [List.singleton_append, splitGo, if_pos (by simp [List.isPrefixOf])]
      have ih' := ih l' [] (fun x hx => hl x (List.mem_cons_of_mem _ hx))
      simp only [List.length_singleton, Nat.sub_self, List.reverse_nil, List.nil_append] at ih' ⊢
      rw [ih']
      simp
  cases ls with
  | nil => exact absurd rfl hne
  | cons l rest =>
    have := key rest l [] h
    simpa [Split] using this

/-- A tag line splits at the tab into the hash and the reference, and the
reference ends in the name. -/
theorem parseTagLines_tag (hash name : Str) (rest : List Str)
    (h : (git.OutputLine.tag hash name).WellFormed) :
    git.parseTagLines (git.tagLine hash name :: rest) = name :: git.parseTagLines rest := by
  obtain ⟨h1, _, h3, h4, _⟩ := h
  have hne : git.tagLine hash name ≠ [] := by
    simp [git.tagLine]
  have hsplit : Split (git.tagLine hash name) [Char.ofNat 9]
      = [hash, "refs/tags/".toList ++ name] := by
    have := Split_Join_char (Char.ofNat 9) [hash, "refs/tags/".toList ++ name] (by simp)
      (by
        intro l hl
        simp only [List.mem_cons, List.mem_singleton, List.not_mem_nil, or_false] at hl
        rcases hl with hl | hl
        · rw [hl]; exact h1
        · rw [hl]
          intro hm
          rcases List.mem_append.mp hm with hm | hm
          · revert hm; decide
          · exact h4 hm)
    rw [Join_cons_cons, Join_singleton] at this
    simpa [git.tagLine, List.append_assoc] using this
  have href : Split ("refs/tags/".toList ++ name) "/".toList
      = ["refs".toList, "tags".toList, name] := by
    have := Split_Join_char (Char.ofNat 47) ["refs".toList, "tags".toList, name] (by simp)
      (by
        intro l hl
        simp only [List.mem_cons, List.mem_singleton, List.not_mem_nil, or_false] at hl
        rcases hl with hl | hl | hl
        · rw [hl]; decide
        · rw [hl]; decide
        · rw [hl]; exact h3)
    rw [Join_cons_cons, Join_cons_cons, Join_singleton] at this
    simpa using this
  rw [git.parseTagLines, if_neg hne, hsplit]
  simp only [href]
  rfl

/-- A line that is empty or does not split into two fields contributes nothing. -/
theorem parseTagLines_other (text : Str) (rest : List Str)
    (h : (git.OutputLine.other text).WellFormed) :
    git.parseTagLines (text :: rest) = git.parseTagLines rest := by
  obtain ⟨_, h2⟩ := h
  rw [git.parseTagLines]
  by_cases he : text = []
  · rw [if_pos he]
  · rw [if_neg he]
    have hlen : (Split text [Char.ofNat 9]).length ≠ 2 := by
      rcases h2 with h2 | h2
      · exact absurd h2 he
      · exact h2
    split
    · rename_i heq
      rw [heq] at hlen
      simp at hlen
    · rfl

/-- The loop of `FetchTags` over well-formed lines gives the names of the tag
lines, in order. -/
theorem parseTagLines_render (entries : List git.OutputLine)
    (h : ∀ e ∈ entries, e.WellFormed) :
    git.parseTagLines (entries.map git.OutputLine.render)
      = entries.filterMap git.OutputLine.name? := by
  induction entries with
  | nil => rfl
  | cons e es ih =>
    have hes : ∀ e ∈ es, e.WellFormed := fun x hx => h x (List.mem_cons_of_mem _ hx)
    have he := h e (List.mem_cons_self _ _)
    cases e with
    | tag hash name =>
      simp only [List.map_cons, git.OutputLine.render, List.filterMap_cons,
        git.OutputLine.name?]
      rw [parseTagLines_tag hash name _ he, ih hes]
    | other text =>
      simp only [List.map_cons, git.OutputLine.render, List.filterMap_cons,
        git.OutputLine.name?]
      rw [parseTagLines_other text _ he, ih hes]

/-- C19: when `git ls-remote --tags` succeeds and prints lines that are each
either `<hash><TAB>refs/tags/<name>`, with no tab or newline in the hash and no
slash, tab or newline in the name, or a line that is empty or does not split
into exactly two tab-separated fields, joined by newlines, `FetchTags` returns
exactly the names, one per reference line, in line order. -/
theorem FetchTags_parses (g : git.Git) (repo : Str) (entries : List git.OutputLine)
    (hwf : ∀ e ∈ entries, e.WellFormed)
    (hout : g.CombinedOutput g.GtiBinary
        ["ls-remote".toList, "--tags".toList, git.AddPrefixToRepo repo]
      = (Join (entries.map git.OutputLine.render) [Char.ofNat 10], none)) :
    git.FetchTags g repo = Except.ok (entries.filterMap git.OutputLine.name?) := by
  unfold git.FetchTags
  simp only [hout]
  cases entries with
  | nil => rfl
  | cons e es =>
    have hsplit : Split (Join ((e :: es).map git.OutputLine.render) [Char.ofNat 10])
        [Char.ofNat 10] = (e :: es).map git.OutputLine.render := by
      apply Split_Join_char _ _ (by simp)
      intro l hl
      simp only [List.mem_map] at hl
      obtain ⟨x, hx, rfl⟩ := hl
      have hw := hwf x hx
      cases x with
      | tag hash name =>
        obtain ⟨_, h2, _, _, h5⟩ := hw
        simp only [git.OutputLine.render, git.tagLine, List.mem_append, not_or]
        refine ⟨⟨⟨h2, by decide⟩, by decide⟩, h5⟩
      | other text => exact hw.1
    rw [hsplit, parseTagLines_render _ hwf]

/-- C19, witness: the single line for `refs/tags/v1.0.0`, with the newline that
ends it, gives the list of `v1.0.0` alone. -/
theorem FetchTags_parses_witness :
    git.FetchTags
        (Scenario.gitPrinting "1f0f2ae4a2a0b1c9d4e5f60718293a4b5c6d7e8f\trefs/tags/v1.0.0\n")
        "github.com/tmwalaszek/mod".toList
      = Except.ok ["v1.0.0".toList] :=
  FetchTags_parses _ _
    [git.OutputLine.tag "1f0f2ae4a2a0b1c9d4e5f60718293a4b5c6d7e8f".toList "v1.0.0".toList,
     git.OutputLine.other []]
    (by decide) rfl

/-- C20: for a private module whose repository has no tags, `FetchTags` returns
the empty list without error and `Query` on `example.com/m/@latest` neither
returns a body nor an error: the index `len(tagLists)-1` is out of range. -/
theorem Query_latest_no_tags :
    git.FetchTags (Scenario.gitPrinting "") "example.com/m".toList = Except.ok []
    ∧ (Query Scenario.untaggedStore "example.com/m/@latest".toList Scenario.emptyRun).1
      = Outcome.panic := by
  constructor <;> rfl


/-! ## The bulk importer -/

/-- `ReadFile` on a regular file gives its bytes. -/
theorem ReadFile_file (fs : os.FS) (path : Str) (c : List Char)
    (h : os.Stat fs path = os.Node.file c) : os.ReadFile fs path = Except.ok (some c) := by
  unfold os.ReadFile
  rw [h]

/-- `ReadFile` succeeds exactly on a regular file, with its bytes. -/
theorem ReadFile_ok (fs : os.FS) (path : Str) (b : Bytes)
    (h : os.ReadFile fs path = Except.ok b) : b = os.content fs path ∧ b.isSome := by
  unfold os.ReadFile at h
  unfold os.content
  cases hs : os.Stat fs path with
  | file c =>
    rw [hs] at h
    simp only [Except.ok.injEq] at h
    subst h
    exact ⟨rfl, rfl⟩
  | dir => rw [hs] at h; cases h
  | notExist => rw [hs] at h; cases h
  | notDir => rw [hs] at h; cases h

/-- On a path that is a regular file or does not exist, `ReadFile` fails only
with a not-exist error. -/
theorem ReadFile_error (fs : os.FS) (path : Str) (e : Error) (hp : os.Plain fs path = true)
    (h : os.ReadFile fs path = Except.error e) : e.Is os.ErrNotExist = true := by
  unfold os.ReadFile at h
  unfold os.Plain at hp
  cases hs : os.Stat fs path with
  | file c => rw [hs] at h; cases h
  | dir => rw [hs] at hp; cases hp
  | notExist =>
    rw [hs] at h
    simp only [Except.error.injEq] at h
    subst h
    rfl
  | notDir => rw [hs] at hp; cases hp

/-- On a path that is a regular file or does not exist, the reading of an
optional file gives the bytes of the file, nil when there is none. -/
theorem readOptional_eq (fs : os.FS) (path : Str) (hp : os.Plain fs path = true) :
    readOptional fs path = Except.ok (os.content fs path) := by
  unfold readOptional os.statNotExist os.ReadFile os.content
  unfold os.Plain at hp
  cases hs : os.Stat fs path with
  | file c => simp
  | dir => rw [hs] at hp; cases hp
  | notExist => simp
  | notDir => rw [hs] at hp; cases hp

/-- One turn of the loop of `createModuleCache` over the SQLite repository,
when the optional paths are regular files or do not exist: the error of
reading the `.mod`, or the insert of the record built from the files. -/
theorem importVersion_sqlite (c : ModuleStore sqlite3.DB) (fs : os.FS)
    (module modulePath v : Str) (store : sqlite3.DB)
    (hrepo : c.moduleRepository = sqlite3.repository)
    (hinfo : os.Plain fs (gopath.Join [modulePath, TrimSpace v ++ infoSuffix]) = true)
    (hzip : os.Plain fs (gopath.Join [modulePath, TrimSpace v ++ zipSuffix]) = true)
    (hhash : os.Plain fs (gopath.Join [modulePath, TrimSpace v ++ zipHashSuffix]) = true) :
    importVersion c fs module modulePath v store =
      match os.ReadFile fs (gopath.Join [modulePath, TrimSpace v ++ modSuffix]) with
      | Except.error err => (some err, store)
      | Except.ok _ =>
          (none, (sqlite3.InsertModule store (recordOf fs module modulePath (TrimSpace v))).2) := by
  unfold importVersion
  simp only [readOptional_eq _ _ hinfo, readOptional_eq _ _ hzip, readOptional_eq _ _ hhash,
    hrepo, sqlite3.repository]
  cases hmod : os.ReadFile fs (gopath.Join [modulePath, TrimSpace v ++ modSuffix]) with
  | error e => rfl
  | ok b =>
    obtain ⟨hb, hsome⟩ := ReadFile_ok _ _ _ hmod
    subst hb
    simp only []
    have h1 := InsertModule_fst store (recordOf fs module modulePath (TrimSpace v)) hsome
    split
    · rename_i err store1 heq
      have h2 : (sqlite3.InsertModule store (recordOf fs module modulePath (TrimSpace v))).1
          = some err := congrArg Prod.fst heq
      rw [h1] at h2
      cases h2
    · rename_i store1 heq
      have h2 : (sqlite3.InsertModule store (recordOf fs module modulePath (TrimSpace v))).2
          = store1 := congrArg Prod.snd heq
      rw [h2]

/-- The loop of `createModuleCache` returns an error when a listed version has
no `.mod` file. -/
theorem importVersions_missing_mod {σ : Type} (c : ModuleStore σ) (fs : os.FS)
    (module modulePath v : Str) (lines : List Str) (store : σ)
    (hv : v ∈ lines) (hne : v ≠ [])
    (hmod : os.Stat fs (gopath.Join [modulePath, TrimSpace v ++ modSuffix])
      = os.Node.notExist) :
    ∃ e, (importVersions c fs module modulePath lines store).1 = some e := by
  induction lines generalizing store with
  | nil => simp at hv
  | cons l rest ih =>
    rw [importVersions]
    by_cases hl : l = []
    · rw [if_pos hl]
      rcases List.mem_cons.mp hv with h | h
      · exact absurd (h.trans hl) hne
      · exact ih store h
    · rw [if_neg hl]
      cases hr : importVersion c fs module modulePath l store with
      | mk err store1 =>
        cases err with
        | some e => exact ⟨e, rfl⟩
        | none =>
          simp only []
          rcases List.mem_cons.mp hv with h | h
          · subst h
            exfalso
            unfold importVersion at hr
            simp only [os.ReadFile, hmod] at hr
            cases hr
          · exact ih store1 h

/-- What `PlainCache` says of the list and of the versions it names. -/
theorem PlainCache_spec (fs : os.FS) (modulePath : Str) (h : PlainCache fs modulePath = true) :
    os.Plain fs (gopath.Join [modulePath, "list".toList]) = true
    ∧ ∀ L, os.ReadFile fs (gopath.Join [modulePath, "list".toList]) = Except.ok L →
        ∀ v ∈ Split (L.getD []) [Char.ofNat 10], v ≠ [] → PlainVersion fs modulePath v := by
  unfold PlainCache at h
  simp only [Bool.and_eq_true, List.all_eq_true, Bool.or_eq_true, List.isEmpty_iff] at h
  refine ⟨h.1, ?_⟩
  intro L hL v hv hne
  obtain ⟨hb, _⟩ := ReadFile_ok _ _ _ hL
  rw [hb] at hv
  rcases h.2 v hv with h0 | h0
  · exact absurd h0 hne
  · exact ⟨h0.1.1.1, h0.1.1.2, h0.1.2, h0.2⟩

/-- Over the SQLite repository, when the artifact paths are regular files or do
not exist, the loop of `createModuleCache` fails only with a not-exist error. -/
theorem importVersions_error (c : ModuleStore sqlite3.DB) (fs : os.FS)
    (module modulePath : Str) (lines : List Str) (store : sqlite3.DB)
    (hrepo : c.moduleRepository = sqlite3.repository)
    (hplain : ∀ v ∈ lines, v ≠ [] → PlainVersion fs modulePath v)
    (e : Error) (h : (importVersions c fs module modulePath lines store).1 = some e) :
    e.Is os.ErrNotExist = true := by
  induction lines generalizing store with
  | nil => cases h
  | cons l rest ih =>
    have hrest : ∀ v ∈ rest, v ≠ [] → PlainVersion fs modulePath v :=
      fun v hv => hplain v (List.mem_cons_of_mem _ hv)
    rw [importVersions] at h
    by_cases hl : l = []
    · rw [if_pos hl] at h
      exact ih store hrest h
    · obtain ⟨p1, p2, p3, p4⟩ := hplain l (List.mem_cons_self _ _) hl
      rw [if_neg hl, importVersion_sqlite c fs module modulePath l store hrepo p2 p3 p4] at h
      cases hmod : os.ReadFile fs (gopath.Join [modulePath, TrimSpace l ++ modSuffix]) with
      | error e0 =>
        rw [hmod] at h
        simp only [Option.some.injEq] at h
        subst h
        exact ReadFile_error _ _ _ p1 hmod
      | ok b =>
        rw [hmod] at h
        exact ih _ hrest h

/-- Over the SQLite repository, when the artifact paths of the directory are
regular files or do not exist, `createModuleCache` fails only with a not-exist
error. -/
theorem createModuleCache_error (c : ModuleStore sqlite3.DB) (fs : os.FS)
    (dir modulePath : Str) (store : sqlite3.DB)
    (hrepo : c.moduleRepository = sqlite3.repository)
    (hplain : PlainCache fs modulePath = true)
    (e : Error) (h : (createModuleCache c fs dir modulePath store).1 = some e) :
    e.Is os.ErrNotExist = true := by
  obtain ⟨hl, hvs⟩ := PlainCache_spec fs modulePath hplain
  unfold createModuleCache at h
  cases hlist : os.ReadFile fs (gopath.Join [modulePath, "list".toList]) with
  | error e0 =>
    rw [hlist] at h
    simp only [Option.some.injEq] at h
    subst h
    exact ReadFile_error _ _ _ hl hlist
  | ok L =>
    rw [hlist] at h
    exact importVersions_error c fs _ modulePath _ store hrepo (hvs L hlist) e h

/-- Over the SQLite repository, when the artifact paths of the `@v` directories
are regular files or do not exist, the walk of `ImportCachedModules` does not
end in an error. -/
theorem importWalk_sqlite (c : ModuleStore sqlite3.DB) (fs : os.FS) (dir : Str)
    (dirs : List Str) (store : sqlite3.DB)
    (hrepo : c.moduleRepository = sqlite3.repository)
    (hplain : ∀ D ∈ dirs, gopath.Base D = "@v".toList → PlainCache fs D = true) :
    (importWalk c fs dir dirs store).1 = none := by
  induction dirs generalizing store with
  | nil => rfl
  | cons p rest ih =>
    have hrest : ∀ D ∈ rest, gopath.Base D = "@v".toList → PlainCache fs D = true :=
      fun D hD => hplain D (List.mem_cons_of_mem _ hD)
    rw [importWalk]
    by_cases hb : gopath.Base p = "@v".toList
    · rw [if_pos hb]
      cases hc : createModuleCache c fs dir p store with
      | mk err store1 =>
        cases err with
        | none => exact ih store1 hrest
        | some e =>
          have hIs := createModuleCache_error c fs dir p store hrepo
            (hplain p (List.mem_cons_self _ _) hb) e (by rw [hc])
          simp only [hIs, if_true]
          exact ih store1 hrest
    · rw [if_neg hb]
      exact ih store hrest

/-- C16, as amended: when the list of an `@v` directory names a version whose
`.mod` file does not exist, `createModuleCache` returns an error for that
directory.  Over the SQLite repository: when the artifact paths of the
directory are regular files or do not exist, every error it returns is a
not-exist error; and when that holds of every `@v` directory of the walk and
the root is a directory, `ImportCachedModules` passes over these errors and
returns nil. -/
theorem createModuleCache_missing_mod {σ : Type} (c : ModuleStore σ) (fs : os.FS)
    (dir modulePath v : Str) (listBody : List Char) (store : σ)
    (hlist : os.ReadFile fs (gopath.Join [modulePath, "list".toList])
      = Except.ok (some listBody))
    (hv : v ∈ Split listBody [Char.ofNat 10]) (hne : v ≠ [])
    (hmod : os.Stat fs (gopath.Join [modulePath, TrimSpace v ++ modSuffix])
      = os.Node.notExist) :
    (∃ e, (createModuleCache c fs dir modulePath store).1 = some e)
    ∧ ∀ (cs : ModuleStore sqlite3.DB) (db : sqlite3.DB),
        cs.moduleRepository = sqlite3.repository →
        (PlainCache fs modulePath = true →
          ∀ e, (createModuleCache cs fs dir modulePath db).1 = some e →
            e.Is os.ErrNotExist = true)
        ∧ (os.Stat fs dir = os.Node.dir →
            (∀ D ∈ os.walkDirs fs dir, gopath.Base D = "@v".toList → PlainCache fs D = true) →
            (ImportCachedModules cs fs dir db).1 = Outcome.ok ()) := by
  constructor
  · unfold createModuleCache
    simp only [hlist, Option.getD]
    exact importVersions_missing_mod c fs _ modulePath v _ store hv hne hmod
  · intro cs db hrepo
    refine ⟨fun hp e he => createModuleCache_error cs fs dir modulePath db hrepo hp e he, ?_⟩
    intro hroot hplain
    have hw := importWalk_sqlite cs fs dir (os.walkDirs fs dir) db hrepo hplain
    unfold ImportCachedModules
    rw [hroot]
    simp only []
    cases hr : importWalk cs fs dir (os.walkDirs fs dir) db with
    | mk err store1 =>
      rw [hr] at hw
      simp only at hw
      subst hw
      rfl

/-- C16, witness: the tree whose list names `v1.0.0` and `v1.1.0` with a `.mod`
for `v1.1.0` only. -/
theorem createModuleCache_missing_mod_witness :
    (∃ e, (createModuleCache (Scenario.sqliteStore "") Scenario.cacheTreeMissingMod
        "root".toList "root/example.com/m/@v".toList { rows := [] }).1 = some e)
    ∧ (ImportCachedModules (Scenario.sqliteStore "") Scenario.cacheTreeMissingMod
        "root".toList { rows := [] }).1 = Outcome.ok () :=
  ⟨(createModuleCache_missing_mod (Scenario.sqliteStore "") Scenario.cacheTreeMissingMod
      "root".toList "root/example.com/m/@v".toList "v1.0.0".toList "v1.0.0\nv1.1.0\n".toList
      { rows := [] } rfl (by decide) (by decide) rfl).1,
   ((createModuleCache_missing_mod (Scenario.sqliteStore "") Scenario.cacheTreeMissingMod
      "root".toList "root/example.com/m/@v".toList "v1.0.0".toList "v1.0.0\nv1.1.0\n".toList
      { rows := [] } rfl (by decide) (by decide) rfl).2
      (Scenario.sqliteStore "") { rows := [] } rfl).2 rfl (by decide)⟩

/-- C16, counterexample to the claim as stated: the list names `v1.0.0`, the
path `v1.0.0.mod` does not exist, and `ImportCachedModules` returns nil and
leaves the table empty. -/
theorem ImportCachedModules_swallows_missing_mod :
    os.ReadFile Scenario.cacheTreeMissingMod "root/example.com/m/@v/list".toList
      = Except.ok (some "v1.0.0\nv1.1.0\n".toList)
    ∧ os.Stat Scenario.cacheTreeMissingMod "root/example.com/m/@v/v1.0.0.mod".toList
      = os.Node.notExist
    ∧ ImportCachedModules (Scenario.sqliteStore "") Scenario.cacheTreeMissingMod
        "root".toList { rows := [] } = (Outcome.ok (), { rows := [] }) := by
  refine ⟨rfl, rfl, rfl⟩

/-- `InsertModule` leaves the rows of other keys as they are. -/
theorem find_InsertModule_other (db : sqlite3.DB) (r : Module) (n v : Str)
    (h : ¬ (r.Name = n ∧ r.Version = v)) :
    (sqlite3.InsertModule db r).2.find n v = db.find n v := by
  cases hmod : r.Mod with
  | none => rw [InsertModule_nil_mod db r hmod]
  | some b =>
    have hm : r.Mod.isSome := by rw [hmod]; rfl
    cases hf : db.find r.Name r.Version with
    | some row => rw [InsertModule_of_present db r (by simp [hf])]
    | none =>
      rw [InsertModule_of_absent db r hm hf]
      simp only [sqlite3.DB.find, List.find?_append]
      have : [sqlite3.Row.ofModule r].find? (fun x => decide (x.name = n ∧ x.version = v))
          = none := by
        simp [sqlite3.Row.ofModule, h]
      rw [this]
      simp

/-- `InsertModule` keeps the rows the table holds. -/
theorem KeepsRows_insert (db : sqlite3.DB) (r : Module) :
    KeepsRows db (sqlite3.InsertModule db r).2 := by
  intro n v h
  by_cases hk : r.Name = n ∧ r.Version = v
  · obtain ⟨h1, h2⟩ := hk
    subst h1; subst h2
    rw [InsertModule_of_present db r h]
    exact h
  · rw [find_InsertModule_other db r n v hk]; exact h

/-- `InsertModule` of the record built for a version with a `.mod` file keeps
`ImportInv`. -/
theorem ImportInv_insert (fs : os.FS) (root module version : Str) (store0 store : sqlite3.DB)
    (hm : (recordOf fs module (root ++ "/".toList ++ module ++ "/@v".toList) version).Mod.isSome)
    (h : ImportInv fs root store0 store) :
    ImportInv fs root store0
      (sqlite3.InsertModule store
        (recordOf fs module (root ++ "/".toList ++ module ++ "/@v".toList) version)).2 := by
  intro n v
  by_cases hk : module = n ∧ version = v
  · obtain ⟨h1, h2⟩ := hk
    subst h1; subst h2
    have hf := find_InsertModule store
      (recordOf fs module (root ++ "/".toList ++ module ++ "/@v".toList) version) hm
    have hf' : (sqlite3.InsertModule store
        (recordOf fs module (root ++ "/".toList ++ module ++ "/@v".toList) version)).2.find
          module version
        = some ((store.find module version).getD (importedRow fs root module version)) := hf
    rw [hf']
    rcases h module version with h1 | h1
    · cases hs : store.find module version with
      | none => right; rfl
      | some row => left; rw [← h1, hs]; rfl
    · right; rw [h1]; rfl
  · have : ¬ ((recordOf fs module (root ++ "/".toList ++ module ++ "/@v".toList) version).Name = n
        ∧ (recordOf fs module (root ++ "/".toList ++ module ++ "/@v".toList) version).Version = v) :=
      hk
    rw [find_InsertModule_other _ _ n v this]
    exact h n v

/-- The loop of `createModuleCache` over the lines of a list whose versions all
have a `.mod` file and optional paths that are regular files or do not exist,
for the directory `root/module/@v`. -/
theorem importVersions_round_trip (c : ModuleStore sqlite3.DB) (fs : os.FS)
    (root module : Str) (lines : List Str) (store0 store : sqlite3.DB)
    (hrepo : c.moduleRepository = sqlite3.repository)
    (hplain : ∀ v ∈ lines, v ≠ [] →
      PlainVersion fs (root ++ "/".toList ++ module ++ "/@v".toList) v)
    (hmods : ∀ v ∈ lines, v ≠ [] →
      (os.content fs (gopath.Join [root ++ "/".toList ++ module ++ "/@v".toList,
        TrimSpace v ++ modSuffix])).isSome)
    (hinv : ImportInv fs root store0 store) :
    ImportInv fs root store0
        (importVersions c fs module (root ++ "/".toList ++ module ++ "/@v".toList) lines store).2
    ∧ KeepsRows store
        (importVersions c fs module (root ++ "/".toList ++ module ++ "/@v".toList) lines store).2
    ∧ ∀ v ∈ lines, v ≠ [] →
        ((importVersions c fs module (root ++ "/".toList ++ module ++ "/@v".toList) lines
          store).2.find module (TrimSpace v)).isSome := by
  induction lines generalizing store with
  | nil =>
    refine ⟨hinv, fun _ _ h => h, ?_⟩
    intro v hv; simp at hv
  | cons l rest ih =>
    have hrest : ∀ v ∈ rest, v ≠ [] →
        (os.content fs (gopath.Join [root ++ "/".toList ++ module ++ "/@v".toList,
          TrimSpace v ++ modSuffix])).isSome :=
      fun v hv => hmods v (List.mem_cons_of_mem _ hv)
    have hprest : ∀ v ∈ rest, v ≠ [] →
        PlainVersion fs (root ++ "/".toList ++ module ++ "/@v".toList) v :=
      fun v hv => hplain v (List.mem_cons_of_mem _ hv)
    rw [importVersions]
    by_cases hl : l = []
    · rw [if_pos hl]
      obtain ⟨i1, i2, i3⟩ := ih store hprest hrest hinv
      refine ⟨i1, i2, ?_⟩
      intro v hv hne
      rcases List.mem_cons.mp hv with h | h
      · exact absurd (h.trans hl) hne
      · exact i3 v h hne
    · obtain ⟨_, p2, p3, p4⟩ := hplain l (List.mem_cons_self _ _) hl
      have hm := hmods l (List.mem_cons_self _ _) hl
      rw [if_neg hl, importVersion_sqlite c fs module _ l store hrepo p2 p3 p4]
      have hread : ∃ b, os.ReadFile fs (gopath.Join
          [root ++ "/".toList ++ module ++ "/@v".toList, TrimSpace l ++ modSuffix])
          = Except.ok b := by
        unfold os.content at hm
        unfold os.ReadFile
        cases hs : os.Stat fs (gopath.Join
            [root ++ "/".toList ++ module ++ "/@v".toList, TrimSpace l ++ modSuffix]) with
        | file c => exact ⟨_, rfl⟩
        | dir => rw [hs] at hm; cases hm
        | notExist => rw [hs] at hm; cases hm
        | notDir => rw [hs] at hm; cases hm
      obtain ⟨b, hb⟩ := hread
      simp only [hb]
      obtain ⟨i1, i2, i3⟩ := ih _ hprest hrest (ImportInv_insert fs root module (TrimSpace l)
        store0 store hm hinv)
      refine ⟨i1, ?_, ?_⟩
      · intro n v h
        exact i2 n v (KeepsRows_insert store _ n v h)
      · intro v hv hne
        rcases List.mem_cons.mp hv with h | h
        · subst h
          apply i2
          have := find_InsertModule store
            (recordOf fs module (root ++ "/".toList ++ module ++ "/@v".toList) (TrimSpace v)) hm
          have h' : (sqlite3.InsertModule store (recordOf fs module
              (root ++ "/".toList ++ module ++ "/@v".toList) (TrimSpace v))).2.find module
                (TrimSpace v) = some _ := this
          rw [h']; rfl
        · exact i3 v h hne

/-- Over the SQLite repository, the loop of `createModuleCache` does not fail
when every listed version has a `.mod` file and optional paths that are
regular files or do not exist. -/
theorem importVersions_ok (c : ModuleStore sqlite3.DB) (fs : os.FS)
    (module modulePath : Str) (lines : List Str) (store : sqlite3.DB)
    (hrepo : c.moduleRepository = sqlite3.repository)
    (hplain : ∀ v ∈ lines, v ≠ [] → PlainVersion fs modulePath v)
    (hmods : ∀ v ∈ lines, v ≠ [] →
      (os.content fs (gopath.Join [modulePath, TrimSpace v ++ modSuffix])).isSome) :
    (importVersions c fs module modulePath lines store).1 = none := by
  induction lines generalizing store with
  | nil => rfl
  | cons l rest ih =>
    have hrest : ∀ v ∈ rest, v ≠ [] →
        (os.content fs (gopath.Join [modulePath, TrimSpace v ++ modSuffix])).isSome :=
      fun v hv => hmods v (List.mem_cons_of_mem _ hv)
    have hprest : ∀ v ∈ rest, v ≠ [] → PlainVersion fs modulePath v :=
      fun v hv => hplain v (List.mem_cons_of_mem _ hv)
    rw [importVersions]
    by_cases hl : l = []
    · rw [if_pos hl]
      exact ih store hprest hrest
    · obtain ⟨_, p2, p3, p4⟩ := hplain l (List.mem_cons_self _ _) hl
      have hm := hmods l (List.mem_cons_self _ _) hl
      rw [if_neg hl, importVersion_sqlite c fs module _ l store hrepo p2 p3 p4]
      cases hs : os.ReadFile fs (gopath.Join [modulePath, TrimSpace l ++ modSuffix]) with
      | ok b => exact ih _ hprest hrest
      | error e =>
        exfalso
        unfold os.content at hm
        unfold os.ReadFile at hs
        cases hst : os.Stat fs (gopath.Join [modulePath, TrimSpace l ++ modSuffix]) with
        | file c => rw [hst] at hs; cases hs
        | dir => rw [hst] at hm; cases hm
        | notExist => rw [hst] at hm; cases hm
        | notDir => rw [hst] at hm; cases hm

/-- The walk of `ImportCachedModules` over directories that sit at
`root/module/@v`, whose artifact paths are regular files or do not exist and
whose listed versions all have a `.mod` file. -/
theorem importWalk_round_trip (c : ModuleStore sqlite3.DB) (fs : os.FS) (root : Str)
    (dirs : List Str) (store0 store : sqlite3.DB)
    (hrepo : c.moduleRepository = sqlite3.repository)
    (hsits : ∀ D ∈ dirs, gopath.Base D = "@v".toList →
      D = root ++ "/".toList ++ moduleOfPath root D ++ "/@v".toList)
    (hplain : ∀ D ∈ dirs, gopath.Base D = "@v".toList → PlainCache fs D = true)
    (hmods : ∀ D ∈ dirs, gopath.Base D = "@v".toList →
      ∀ L, os.ReadFile fs (gopath.Join [D, "list".toList]) = Except.ok (some L) →
      ∀ v ∈ Split L [Char.ofNat 10], v ≠ [] →
        (os.content fs (gopath.Join [D, TrimSpace v ++ modSuffix])).isSome)
    (hinv : ImportInv fs root store0 store) :
    ImportInv fs root store0 (importWalk c fs root dirs store).2
    ∧ KeepsRows store (importWalk c fs root dirs store).2
    ∧ ∀ D ∈ dirs, gopath.Base D = "@v".toList →
        ∀ L, os.ReadFile fs (gopath.Join [D, "list".toList]) = Except.ok (some L) →
        ∀ v ∈ Split L [Char.ofNat 10], v ≠ [] →
          ((importWalk c fs root dirs store).2.find (moduleOfPath root D) (TrimSpace v)).isSome := by
  induction dirs generalizing store with
  | nil =>
    refine ⟨hinv, fun _ _ h => h, ?_⟩
    intro D hD; simp at hD
  | cons p rest ih =>
    have hsits' : ∀ D ∈ rest, gopath.Base D = "@v".toList →
        D = root ++ "/".toList ++ moduleOfPath root D ++ "/@v".toList :=
      fun D hD => hsits D (List.mem_cons_of_mem _ hD)
    have hplain' : ∀ D ∈ rest, gopath.Base D = "@v".toList → PlainCache fs D = true :=
      fun D hD => hplain D (List.mem_cons_of_mem _ hD)
    have hmods' : ∀ D ∈ rest, gopath.Base D = "@v".toList →
        ∀ L, os.ReadFile fs (gopath.Join [D, "list".toList]) = Except.ok (some L) →
        ∀ v ∈ Split L [Char.ofNat 10], v ≠ [] →
          (os.content fs (gopath.Join [D, TrimSpace v ++ modSuffix])).isSome :=
      fun D hD => hmods D (List.mem_cons_of_mem _ hD)
    rw [importWalk]
    by_cases hb : gopath.Base p = "@v".toList
    · rw [if_pos hb]
      have hp := hsits p (List.mem_cons_self _ _) hb
      obtain ⟨hpl, hpv⟩ := PlainCache_spec fs p (hplain p (List.mem_cons_self _ _) hb)
      cases hlist : os.ReadFile fs (gopath.Join [p, "list".toList]) with
      | error e0 =>
        have hc : createModuleCache c fs root p store = (some e0, store) := by
          simp only [createModuleCache, hlist]
        have hIs : e0.Is os.ErrNotExist = true := ReadFile_error _ _ _ hpl hlist
        simp only [hc, hIs, if_true]
        obtain ⟨i1, i2, i3⟩ := ih store hsits' hplain' hmods' hinv
        refine ⟨i1, i2, ?_⟩
        intro D hD hbD L hL
        rcases List.mem_cons.mp hD with h | h
        · subst h; rw [hlist] at hL; cases hL
        · exact i3 D h hbD L hL
      | ok Lb =>
        obtain ⟨hLb, hLsome⟩ := ReadFile_ok _ _ _ hlist
        obtain ⟨L, hLeq⟩ := Option.isSome_iff_exists.mp hLsome
        subst hLeq
        have hc : createModuleCache c fs root p store
            = importVersions c fs (moduleOfPath root p) p (Split L [Char.ofNat 10]) store := by
          simp only [createModuleCache, hlist, Option.getD]
        have hm := hmods p (List.mem_cons_self _ _) hb L hlist
        have hpv' := hpv (some L) hlist
        simp only [Option.getD] at hpv'
        have hV := importVersions_round_trip c fs root (moduleOfPath root p)
          (Split L [Char.ofNat 10]) store0 store hrepo (by rw [← hp]; exact hpv')
          (by rw [← hp]; exact hm) hinv
        rw [← hp] at hV
        obtain ⟨v1, v2, v3⟩ := hV
        have hnone := importVersions_ok c fs (moduleOfPath root p) p (Split L [Char.ofNat 10])
          store hrepo hpv' hm
        rw [hc]
        cases hr : importVersions c fs (moduleOfPath root p) p (Split L [Char.ofNat 10]) store with
        | mk err st =>
          rw [hr] at hnone v1 v2 v3
          simp only at hnone v1 v2 v3
          subst hnone
          simp only []
          obtain ⟨i1, i2, i3⟩ := ih st hsits' hplain' hmods' v1
          refine ⟨i1, fun n v h => i2 n v (v2 n v h), ?_⟩
          intro D hD hbD L' hL' v hv hne
          rcases List.mem_cons.mp hD with h | h
          · subst h
            rw [hlist] at hL'
            cases hL'
            exact i2 _ _ (v3 v hv hne)
          · exact i3 D h hbD L' hL' v hv hne
    · rw [if_neg hb]
      obtain ⟨i1, i2, i3⟩ := ih store hsits' hplain' hmods' hinv
      refine ⟨i1, i2, ?_⟩
      intro D hD hbD L hL
      rcases List.mem_cons.mp hD with h | h
      · subst h; exact absurd hbD hb
      · exact i3 D h hbD L hL

/-- The module name that `createModuleCache` derives from a directory reported
as the text `root/module/@v` is `module`. -/
theorem moduleOfPath_sits (root module : Str) :
    moduleOfPath root (root ++ "/".toList ++ module ++ "/@v".toList) = module := by
  unfold moduleOfPath
  have h1 : TrimPrefix (root ++ "/".toList ++ module ++ "/@v".toList) (root ++ "/".toList)
      = module ++ "/@v".toList := by
    unfold TrimPrefix HasPrefix
    have : (root ++ "/".toList).isPrefixOf (root ++ "/".toList ++ module ++ "/@v".toList)
        = true := by
      rw [List.append_assoc (root ++ "/".toList)]
      simp
    rw [if_pos this, List.append_assoc (root ++ "/".toList)]
    simp
  rw [h1, TrimSuffix_append]

/-- A key that selects a row has its version in the version list of its name. -/
theorem mem_GetVersionList_of_find (db : sqlite3.DB) (n v : Str) (row : sqlite3.Row)
    (h : db.find n v = some row) :
    ∃ vs, sqlite3.GetVersionList db n = Except.ok vs ∧ v ∈ vs := by
  refine ⟨_, rfl, ?_⟩
  have hmem := List.mem_of_find?_eq_some h
  have hp := List.find?_some h
  simp only [decide_eq_true_eq] at hp
  simp only [List.mem_map, List.mem_filter, decide_eq_true_eq]
  exact ⟨row, ⟨hmem, hp.1⟩, hp.2⟩

/-- C17, as amended: over the SQLite repository, when the root is a directory,
each `@v` directory of the walk is reported as the text `root/module/@v` (the
module being the one `createModuleCache` derives, by `moduleOfPath_sits`), its
artifact paths are regular files or do not exist, each non-empty line of its
list has no surrounding white space and has a `.mod` file, and the table holds
no row for these keys beforehand, `ImportCachedModules` returns nil and
afterwards, for each such directory and listed version: `GetVersionList` of the
module contains the version, `GetModFile` returns what reading the `.mod` file
returns, and the row of the key holds the contents of the `.mod`, `.info` and
`.zip` files (NULL where there is no file) and of the `.ziphash` file (empty
where there is none). -/
theorem ImportCachedModules_round_trip (c : ModuleStore sqlite3.DB) (fs : os.FS) (root : Str)
    (store0 : sqlite3.DB)
    (hrepo : c.moduleRepository = sqlite3.repository)
    (hroot : os.Stat fs root = os.Node.dir)
    (hsits : ∀ D ∈ os.walkDirs fs root, gopath.Base D = "@v".toList →
      D = root ++ "/".toList ++ moduleOfPath root D ++ "/@v".toList)
    (hplain : ∀ D ∈ os.walkDirs fs root, gopath.Base D = "@v".toList →
      PlainCache fs D = true)
    (hmods : ∀ D ∈ os.walkDirs fs root, gopath.Base D = "@v".toList →
      ∀ L, os.ReadFile fs (gopath.Join [D, "list".toList]) = Except.ok (some L) →
      ∀ v ∈ Split L [Char.ofNat 10], v ≠ [] →
        TrimSpace v = v ∧ (os.content fs (gopath.Join [D, v ++ modSuffix])).isSome)
    (hfresh : ∀ D ∈ os.walkDirs fs root, gopath.Base D = "@v".toList →
      ∀ L, os.ReadFile fs (gopath.Join [D, "list".toList]) = Except.ok (some L) →
      ∀ v ∈ Split L [Char.ofNat 10], v ≠ [] →
        store0.find (moduleOfPath root D) v = none) :
    (ImportCachedModules c fs root store0).1 = Outcome.ok ()
    ∧ ∀ D ∈ os.walkDirs fs root, gopath.Base D = "@v".toList →
        ∀ L, os.ReadFile fs (gopath.Join [D, "list".toList]) = Except.ok (some L) →
        ∀ v ∈ Split L [Char.ofNat 10], v ≠ [] →
          (∃ vs, sqlite3.GetVersionList (ImportCachedModules c fs root store0).2
              (moduleOfPath root D) = Except.ok vs ∧ v ∈ vs)
          ∧ sqlite3.GetModFile (ImportCachedModules c fs root store0).2 (moduleOfPath root D) v
              = os.ReadFile fs (gopath.Join [D, v ++ modSuffix])
          ∧ ∃ row, (ImportCachedModules c fs root store0).2.find (moduleOfPath root D) v
                = some row
              ∧ row.mod = os.content fs (gopath.Join [D, v ++ modSuffix])
              ∧ row.info = os.content fs (gopath.Join [D, v ++ infoSuffix])
              ∧ row.zip = os.content fs (gopath.Join [D, v ++ zipSuffix])
              ∧ row.zip_hash = (os.content fs (gopath.Join [D, v ++ zipHashSuffix])).getD [] := by
  have hw := importWalk_sqlite c fs root (os.walkDirs fs root) store0 hrepo hplain
  have hI : ImportCachedModules c fs root store0
      = (Outcome.ok (), (importWalk c fs root (os.walkDirs fs root) store0).2) := by
    unfold ImportCachedModules
    rw [hroot]
    simp only []
    cases hr : importWalk c fs root (os.walkDirs fs root) store0 with
    | mk err store1 =>
      rw [hr] at hw
      simp only at hw
      subst hw
      rfl
  rw [hI]
  refine ⟨rfl, ?_⟩
  have hmods' : ∀ D ∈ os.walkDirs fs root, gopath.Base D = "@v".toList →
      ∀ L, os.ReadFile fs (gopath.Join [D, "list".toList]) = Except.ok (some L) →
      ∀ v ∈ Split L [Char.ofNat 10], v ≠ [] →
        (os.content fs (gopath.Join [D, TrimSpace v ++ modSuffix])).isSome := by
    intro D hD hb L hL v hv hne
    obtain ⟨h1, h2⟩ := hmods D hD hb L hL v hv hne
    rw [h1]; exact h2
  obtain ⟨i1, _, i3⟩ := importWalk_round_trip c fs root (os.walkDirs fs root) store0 store0
    hrepo hsits hplain hmods' (fun _ _ => Or.inl rfl)
  intro D hD hb L hL v hv hne
  obtain ⟨htrim, hmod⟩ := hmods D hD hb L hL v hv hne
  have hsome := i3 D hD hb L hL v hv hne
  rw [htrim] at hsome
  have hfind : (importWalk c fs root (os.walkDirs fs root) store0).2.find (moduleOfPath root D) v
      = some (importedRow fs root (moduleOfPath root D) v) := by
    rcases i1 (moduleOfPath root D) v with h | h
    · rw [h, hfresh D hD hb L hL v hv hne] at hsome
      cases hsome
    · exact h
  have hD' := hsits D hD hb
  have hrow : importedRow fs root (moduleOfPath root D) v
      = sqlite3.Row.ofModule (recordOf fs (moduleOfPath root D) D v) := by
    unfold importedRow
    rw [← hD']
  rw [hrow] at hfind
  refine ⟨mem_GetVersionList_of_find _ _ _ _ hfind, ?_, _, hfind, rfl, rfl, rfl, rfl⟩
  obtain ⟨content, hc⟩ := Option.isSome_iff_exists.mp hmod
  have hread : os.ReadFile fs (gopath.Join [D, v ++ modSuffix]) = Except.ok (some content) := by
    unfold os.content at hc
    unfold os.ReadFile
    cases hs : os.Stat fs (gopath.Join [D, v ++ modSuffix]) with
    | file c0 =>
      rw [hs] at hc
      simp only [Option.some.injEq] at hc
      rw [hc]
    | dir => rw [hs] at hc; cases hc
    | notExist => rw [hs] at hc; cases hc
    | notDir => rw [hs] at hc; cases hc
  simp only [sqlite3.GetModFile, hfind, sqlite3.Row.ofModule, recordOf, hc, hread]

/-- C17, witness: `root/example.com/m/@v` with the list `v1.0.0` and its `.mod`,
imported into an empty table. -/
theorem ImportCachedModules_round_trip_witness :
    (ImportCachedModules (Scenario.sqliteStore "") Scenario.cacheTree "root".toList
        { rows := [] }).1 = Outcome.ok ()
    ∧ (∃ vs, sqlite3.GetVersionList
          (ImportCachedModules (Scenario.sqliteStore "") Scenario.cacheTree "root".toList
            { rows := [] }).2 "example.com/m".toList = Except.ok vs ∧ "v1.0.0".toList ∈ vs)
    ∧ sqlite3.GetModFile
          (ImportCachedModules (Scenario.sqliteStore "") Scenario.cacheTree "root".toList
            { rows := [] }).2 "example.com/m".toList "v1.0.0".toList
        = Except.ok (some "module example.com/m\n".toList) := by
  have hw : os.walkDirs Scenario.cacheTree "root".toList
      = ["root".toList, "root/example.com".toList, "root/example.com/m".toList,
         "root/example.com/m/@v".toList] := by decide
  have hall : ∀ (P : Str → Prop), P "root/example.com/m/@v".toList →
      ∀ D ∈ os.walkDirs Scenario.cacheTree "root".toList, gopath.Base D = "@v".toList → P D := by
    intro P hP D hD hb
    rw [hw] at hD
    simp only [List.mem_cons, List.mem_singleton, List.not_mem_nil, or_false] at hD
    rcases hD with h | h | h | h
    · subst h; exact absurd hb (by decide)
    · subst h; exact absurd hb (by decide)
    · subst h; exact absurd hb (by decide)
    · subst h; exact hP
  have hlist : ∀ (Q : Str → Prop), Q "v1.0.0".toList →
      ∀ L, os.ReadFile Scenario.cacheTree
          (gopath.Join ["root/example.com/m/@v".toList, "list".toList]) = Except.ok (some L) →
        ∀ v ∈ Split L [Char.ofNat 10], v ≠ [] → Q v := by
    intro Q hQ L hL v hv hne
    have hL' : L = "v1.0.0\n".toList := by
      have : os.ReadFile Scenario.cacheTree
          (gopath.Join ["root/example.com/m/@v".toList, "list".toList])
          = Except.ok (some "v1.0.0\n".toList) := by rfl
      rw [this] at hL
      simp only [Except.ok.injEq, Option.some.injEq] at hL
      exact hL.symm
    subst hL'
    have hs : Split "v1.0.0\n".toList [Char.ofNat 10] = ["v1.0.0".toList, []] := by decide
    rw [hs] at hv
    simp only [List.mem_cons, List.mem_singleton, List.not_mem_nil, or_false] at hv
    rcases hv with h | h
    · subst h; exact hQ
    · exact absurd h hne
  have h := ImportCachedModules_round_trip (Scenario.sqliteStore "") Scenario.cacheTree
    "root".toList { rows := [] } rfl rfl
    (hall _ (by decide))
    (by decide)
    (hall _ (hlist _ ⟨by decide, by decide⟩))
    (hall _ (hlist _ (by decide)))
  have hin : "root/example.com/m/@v".toList ∈ os.walkDirs Scenario.cacheTree "root".toList := by
    rw [hw]; simp
  have h2 := h.2 "root/example.com/m/@v".toList hin (by decide) "v1.0.0\n".toList rfl
    "v1.0.0".toList (by decide) (by decide)
  exact ⟨h.1, h2.1, h2.2.1⟩

/-- C17, counterexample to the claim as stated: the `@v` directory sits at
`root/example.com/m/@v`, its list names `v1.0.0`, which has a `.mod` file, and
a directory stands where `v1.0.0.info` would be.  `ImportCachedModules`
returns the error of reading that directory and the table stays empty:
`GetVersionList` of the module does not contain the version. -/
theorem ImportCachedModules_info_directory :
    (os.walkDirs Scenario.cacheTreeInfoDir "root".toList).filter
        (fun D => decide (gopath.Base D = "@v".toList))
      = ["root".toList ++ "/".toList ++ "example.com/m".toList ++ "/@v".toList]
    ∧ os.ReadFile Scenario.cacheTreeInfoDir "root/example.com/m/@v/list".toList
      = Except.ok (some "v1.0.0\n".toList)
    ∧ os.ReadFile Scenario.cacheTreeInfoDir "root/example.com/m/@v/v1.0.0.mod".toList
      = Except.ok (some "module example.com/m\n".toList)
    ∧ os.Stat Scenario.cacheTreeInfoDir "root/example.com/m/@v/v1.0.0.info".toList
      = os.Node.dir
    ∧ ImportCachedModules (Scenario.sqliteStore "") Scenario.cacheTreeInfoDir "root".toList
        { rows := [] }
      = (Outcome.error
          (os.errPathIsDir "read".toList "root/example.com/m/@v/v1.0.0.info".toList),
         { rows := [] })
    ∧ sqlite3.GetVersionList
        (ImportCachedModules (Scenario.sqliteStore "") Scenario.cacheTreeInfoDir "root".toList
          { rows := [] }).2 "example.com/m".toList
      = Except.ok [] := by
  refine ⟨by decide, rfl, rfl, rfl, rfl, rfl⟩

/-- The root written with a trailing slash: the walk reports the directory as
`root/example.com/m/@v`, the prefix `root//` is not found on it, and the
version is imported under the name `root/example.com/m`. -/
theorem ImportCachedModules_trailing_slash :
    (ImportCachedModules (Scenario.sqliteStore "") Scenario.cacheTree "root/".toList
        { rows := [] }).2.rows.map (fun r => (r.name, r.version))
      = [("root/example.com/m".toList, "v1.0.0".toList)] := by
  rfl

/-! ## The order of versions and the latest tag -/

/-- A key compares equal to itself. -/
theorem sgn_self {α : Type} [LinearOrder α] (a : α) : semver.sgn a a = 0 := by
  simp [semver.sgn]

/-- The comparison is 0 exactly for equal keys. -/
theorem sgn_eq_zero {α : Type} [LinearOrder α] (a b : α) : semver.sgn a b = 0 ↔ a = b := by
  unfold semver.sgn
  by_cases h : a = b
  · simp [h]
  · simp only [h, if_false, iff_false]
    split <;> decide

/-- The comparison is negative exactly for a smaller key. -/
theorem sgn_neg {α : Type} [LinearOrder α] (a b : α) : semver.sgn a b < 0 ↔ a < b := by
  unfold semver.sgn
  by_cases h : a = b
  · simp [h]
  · by_cases h2 : a < b
    · simp [h, h2]
    · simp [h, h2]

/-- The comparison is not positive exactly for a key that is not larger. -/
theorem sgn_nonpos {α : Type} [LinearOrder α] (a b : α) : semver.sgn a b ≤ 0 ↔ a ≤ b := by
  unfold semver.sgn
  by_cases h : a = b
  · simp [h]
  · by_cases h2 : a < b
    · simp [h, h2, le_of_lt h2]
    · have : ¬ a ≤ b := fun hle => h2 (lt_of_le_of_ne hle h)
      simp [h, h2, this]

/-- The comparison of a lexicographic pair: the first components decide unless
they are equal. -/
theorem sgn_lex {α β : Type} [LinearOrder α] [LinearOrder β] (a c : α) (b d : β) :
    semver.sgn (toLex (a, b)) (toLex (c, d))
      = if semver.sgn a c ≠ 0 then semver.sgn a c else semver.sgn b d := by
  by_cases hac : a = c
  · subst hac
    simp only [sgn_self, ne_eq, not_true_eq_false, if_false]
    unfold semver.sgn
    by_cases hbd : b = d
    · simp [hbd]
    · have h1 : ¬ (toLex (a, b) = toLex (a, d)) := by
        intro h
        exact hbd (Prod.mk.inj (toLex.injective h)).2
      simp only [h1, hbd, if_false, Prod.Lex.lt_iff, lt_self_iff_false, true_and, false_or]
  · have h0 : semver.sgn a c ≠ 0 := fun h => hac ((sgn_eq_zero a c).mp h)
    rw [if_pos h0]
    unfold semver.sgn
    have h1 : ¬ (toLex (a, b) = toLex (c, d)) := by
      intro h
      exact hac (Prod.mk.inj (toLex.injective h)).1
    simp only [h1, hac, if_false, Prod.Lex.lt_iff, false_and, or_false]

/-- The library's `compareInt` is the comparison of the number keys. -/
theorem compareInt_eq_sgn (x y : Str) :
    semver.compareInt x y = semver.sgn (semver.intKey x) (semver.intKey y) := by
  unfold semver.compareInt semver.sgn semver.intKey
  by_cases h : x = y
  · simp [h]
  · have h1 : ¬ (toLex (x.length, x) = toLex (y.length, y)) := by
      intro h'
      exact h (Prod.mk.inj (toLex.injective h')).2
    simp only [h, h1, if_false, Prod.Lex.lt_iff]
    by_cases hl : x.length < y.length
    · simp [hl]
    · by_cases hg : x.length > y.length
      · have : ¬ (x.length = y.length) := by omega
        simp [hl, hg, this]
      · have : x.length = y.length := by omega
        simp [hl, this]

/-- Different identifiers have different keys. -/
theorem identKey_injective (a b : Str) (h : semver.identKey a = semver.identKey b) : a = b := by
  unfold semver.identKey semver.intKey at h
  by_cases ha : semver.isNum a = true <;> by_cases hb : semver.isNum b = true
  · simp only [ha, hb, if_true] at h
    have := Sum.inl.inj (toLex.injective h)
    exact (Prod.mk.inj (toLex.injective this)).2
  · simp only [ha, hb, if_true, Bool.false_eq_true, if_false] at h
    exact absurd (toLex.injective h) (by simp)
  · simp only [ha, hb, if_true, Bool.false_eq_true, if_false] at h
    exact absurd (toLex.injective h) (by simp)
  · simp only [ha, hb, Bool.false_eq_true, if_false] at h
    exact Sum.inr.inj (toLex.injective h)

/-- The comparison of two different identifiers in the loop of
`comparePrerelease`, by their keys. -/
theorem compareIdent_eq (dx dy : Str) :
    (if semver.isNum dx ≠ semver.isNum dy then (if semver.isNum dx then (-1 : Int) else 1)
     else if semver.isNum dx ∧ dx.length < dy.length then -1
     else if semver.isNum dx ∧ dx.length > dy.length then 1
     else if dx < dy then -1 else 1)
    = if semver.identKey dx < semver.identKey dy then -1 else 1 := by
  unfold semver.identKey semver.intKey
  by_cases ha : semver.isNum dx = true <;> by_cases hb : semver.isNum dy = true
  · simp only [ha, hb, ne_eq, not_true_eq_false, if_false, if_true, true_and,
      Sum.Lex.inl_lt_inl_iff, Prod.Lex.lt_iff]
    by_cases hl : dx.length < dy.length
    · simp [hl]
    · by_cases hg : dx.length > dy.length
      · have : ¬ (dx.length = dy.length) := by omega
        simp [hl, hg, this]
      · have : dx.length = dy.length := by omega
        simp [hl, this]
  · have hb' : semver.isNum dy = false := by simpa using hb
    simp only [ha, hb', ne_eq, Bool.true_eq_false, not_false_eq_true, if_true,
      Bool.false_eq_true, if_false, Sum.Lex.inl_lt_inr]
  · have ha' : semver.isNum dx = false := by simpa using ha
    simp only [ha', hb, ne_eq, Bool.false_eq_true, not_false_eq_true, if_true, if_false,
      Sum.Lex.not_inr_lt_inl]
  · have ha' : semver.isNum dx = false := by simpa using ha
    have hb' : semver.isNum dy = false := by simpa using hb
    simp only [ha', hb', ne_eq, not_true_eq_false, if_false, Bool.false_eq_true, false_and,
      Sum.Lex.inr_lt_inr_iff]

/-- The lexicographic order of two non-empty lists. -/
theorem cons_le_cons_iff {α : Type} [LinearOrder α] (a b : α) (l m : List α) :
    a :: l ≤ b :: m ↔ a < b ∨ (a = b ∧ l ≤ m) := by
  rw [← not_lt, ← not_lt (a := m)]
  constructor
  · intro h
    rcases lt_trichotomy a b with hab | hab | hab
    · exact Or.inl hab
    · subst hab
      exact Or.inr ⟨rfl, fun hlt => h (List.Lex.cons hlt)⟩
    · exact absurd (List.Lex.rel hab) h
  · rintro (hab | ⟨hab, hlm⟩) hlt
    · cases hlt with
      | cons h => exact lt_irrefl _ hab
      | rel h => exact lt_asymm hab h
    · subst hab
      cases hlt with
      | cons h => exact hlm h
      | rel h => exact lt_irrefl _ h

/-- The identifiers read off a prerelease do not depend on the fuel, once it
exceeds the length. -/
theorem identsGo_fuel (n k : Nat) (x : Str) (hn : x.length < n) (hk : x.length < k) :
    semver.identsGo n x = semver.identsGo k x := by
  induction n generalizing k x with
  | zero => omega
  | succ n ih =>
    cases k with
    | zero => omega
    | succ k =>
      unfold semver.identsGo
      by_cases hx : x = []
      · simp [hx]
      · simp only [hx, if_false]
        have hlen : (semver.nextIdent x.tail).2.length < x.length := by
          unfold semver.nextIdent
          have h1 := (List.dropWhile_sublist (fun c => c != '.') (l := x.tail)).length_le
          have h2 : x.tail.length < x.length := by
            cases x with
            | nil => exact absurd rfl hx
            | cons c t => simp
          exact lt_of_le_of_lt h1 h2
        rw [ih k _ (by omega) (by omega)]

/-- Only the empty text has no identifier. -/
theorem identsGo_eq_nil (n : Nat) (x : Str) (hn : x.length < n) :
    semver.identsGo n x = [] ↔ x = [] := by
  cases n with
  | zero => omega
  | succ n =>
    unfold semver.identsGo
    by_cases hx : x = []
    · simp [hx]
    · simp [hx]

/-- What `nextIdent` leaves is shorter than the text it was cut from. -/
theorem nextIdent_length (x : Str) (hx : x ≠ []) :
    (semver.nextIdent x.tail).2.length < x.length := by
  unfold semver.nextIdent
  have h1 := (List.dropWhile_sublist (fun c => c != '.') (l := x.tail)).length_le
  have h2 : x.tail.length < x.length := by
    cases x with
    | nil => exact absurd rfl hx
    | cons c t => simp
  exact lt_of_le_of_lt h1 h2

/-- The keys of the empty text. -/
theorem identKeys_nil : semver.identKeys [] = [] := rfl

/-- The keys of a non-empty text: the first identifier, then the rest. -/
theorem identKeys_cons (x : Str) (hx : x ≠ []) :
    semver.identKeys x
      = semver.identKey (semver.nextIdent x.tail).1
          :: semver.identKeys (semver.nextIdent x.tail).2 := by
  unfold semver.identKeys
  rw [semver.identsGo]
  simp only [hx, if_false, List.map_cons]
  rw [identsGo_fuel x.length _ _ (nextIdent_length x hx) (Nat.lt_succ_self _)]

/-- The loop of `comparePrerelease` decides by the keys of the identifiers:
the lexicographic order of the lists, the exhausted side first. -/
theorem comparePrereleaseGo_eq (n : Nat) (x y : Str) (hn : x.length < n) :
    semver.comparePrereleaseGo n x y
      = if semver.identKeys x ≤ semver.identKeys y then -1 else 1 := by
  induction n generalizing x y with
  | zero => omega
  | succ n ih =>
    unfold semver.comparePrereleaseGo
    by_cases hx : x = []
    · subst hx
      simp [identKeys_nil]
    · by_cases hy : y = []
      · subst hy
        rw [identKeys_cons x hx, identKeys_nil]
        have : ¬ (semver.identKey (semver.nextIdent x.tail).1
            :: semver.identKeys (semver.nextIdent x.tail).2 ≤ []) := by
          rw [not_le]
          exact List.nil_lt_cons _ _
        simp [hx, this]
      · rw [identKeys_cons x hx, identKeys_cons y hy]
        have hiff := cons_le_cons_iff (semver.identKey (semver.nextIdent x.tail).1)
          (semver.identKey (semver.nextIdent y.tail).1)
          (semver.identKeys (semver.nextIdent x.tail).2)
          (semver.identKeys (semver.nextIdent y.tail).2)
        simp only [hx, hy, ne_eq, not_false_eq_true, and_self, if_true]
        by_cases hd : (semver.nextIdent x.tail).1 = (semver.nextIdent y.tail).1
        · rw [if_neg (not_not.mpr hd), ih _ _ (by have := nextIdent_length x hx; omega)]
          have hiff' : (semver.identKey (semver.nextIdent x.tail).1
                :: semver.identKeys (semver.nextIdent x.tail).2
              ≤ semver.identKey (semver.nextIdent y.tail).1
                :: semver.identKeys (semver.nextIdent y.tail).2)
              ↔ semver.identKeys (semver.nextIdent x.tail).2
                ≤ semver.identKeys (semver.nextIdent y.tail).2 := by
            rw [hiff, hd]
            simp
          simp only [hiff']
        · rw [if_pos hd]
          have hk : semver.identKey (semver.nextIdent x.tail).1
              ≠ semver.identKey (semver.nextIdent y.tail).1 :=
            fun h => hd (identKey_injective _ _ h)
          have hiff' : (semver.identKey (semver.nextIdent x.tail).1
                :: semver.identKeys (semver.nextIdent x.tail).2
              ≤ semver.identKey (semver.nextIdent y.tail).1
                :: semver.identKeys (semver.nextIdent y.tail).2)
              ↔ semver.identKey (semver.nextIdent x.tail).1
                < semver.identKey (semver.nextIdent y.tail).1 := by
            rw [hiff]
            simp [hk]
          simp only [hiff']
          exact compareIdent_eq (semver.nextIdent x.tail).1 (semver.nextIdent y.tail).1

/-- The empty text has no identifier. -/
theorem identsGo_nil (n : Nat) : semver.identsGo n [] = [] := by
  cases n <;> simp [semver.identsGo]

/-- Two prereleases that begin alike and have the same identifiers are equal. -/
theorem identsGo_injective (n : Nat) (x y : Str) (hx : x.length < n) (hy : y.length < n)
    (hh : x.head? = y.head?) (h : semver.identsGo n x = semver.identsGo n y) : x = y := by
  induction n generalizing x y with
  | zero => omega
  | succ n ih =>
    cases x with
    | nil =>
      rw [identsGo_nil] at h
      exact ((identsGo_eq_nil _ y hy).mp h.symm).symm
    | cons c t =>
      cases y with
      | nil =>
        rw [identsGo_nil] at h
        exact (identsGo_eq_nil _ (c :: t) hx).mp h
      | cons c' t' =>
        simp only [List.head?_cons, Option.some.injEq] at hh
        subst hh
        unfold semver.identsGo at h
        simp only [List.cons_ne_nil, if_false, List.tail_cons, List.cons.injEq,
          semver.nextIdent] at h
        obtain ⟨h1, h2⟩ := h
        have hlt : (t.dropWhile (fun c => c != '.')).length < n := by
          have := (List.dropWhile_sublist (fun c => c != '.') (l := t)).length_le
          simp only [List.length_cons] at hx
          omega
        have hlt' : (t'.dropWhile (fun c => c != '.')).length < n := by
          have := (List.dropWhile_sublist (fun c => c != '.') (l := t')).length_le
          simp only [List.length_cons] at hy
          omega
        have hhead : ∀ (s : Str) (d : Char), (s.dropWhile (fun c => c != '.')).head? = some d →
            d = '.' := by
          intro s d hd
          have := List.head?_dropWhile_not (fun c => c != '.') s
          rw [hd] at this
          simpa using this
        have hheads : (t.dropWhile (fun c => c != '.')).head?
            = (t'.dropWhile (fun c => c != '.')).head? := by
          cases hr : t.dropWhile (fun c => c != '.') with
          | nil =>
            rw [hr, identsGo_nil] at h2
            rw [(identsGo_eq_nil n _ hlt').mp h2.symm]
          | cons d r =>
            cases hr' : t'.dropWhile (fun c => c != '.') with
            | nil =>
              rw [hr', identsGo_nil] at h2
              have := (identsGo_eq_nil n _ hlt).mp h2
              rw [hr] at this
              cases this
            | cons d' r' =>
              have e1 := hhead t d (by rw [hr]; rfl)
              have e2 := hhead t' d' (by rw [hr']; rfl)
              simp [e1, e2]
        have hrest := ih _ _ hlt hlt' hheads h2
        have e1 := List.takeWhile_append_dropWhile (fun c => c != '.') t
        have e2 := List.takeWhile_append_dropWhile (fun c => c != '.') t'
        rw [← e1, ← e2, h1, hrest]

/-- Two prereleases that begin alike and have the same keys are equal. -/
theorem identKeys_injective (x y : Str) (hh : x.head? = y.head?)
    (h : semver.identKeys x = semver.identKeys y) : x = y := by
  unfold semver.identKeys at h
  have hinj : Function.Injective semver.identKey := fun a b => identKey_injective a b
  have h' := List.map_injective_iff.mpr hinj h
  rw [identsGo_fuel (x.length + 1) (max x.length y.length + 1) x (by omega) (by omega),
    identsGo_fuel (y.length + 1) (max x.length y.length + 1) y (by omega) (by omega)] at h'
  exact identsGo_injective _ x y (by omega) (by omega) hh h'

/-- The comparison of two prereleases as `parse` gives them (empty, or from a
hyphen on), by their keys. -/
theorem comparePrerelease_eq_sgn (x y : Str)
    (hx : x = [] ∨ x.head? = some '-') (hy : y = [] ∨ y.head? = some '-') :
    semver.comparePrerelease x y = semver.sgn (semver.preKey x) (semver.preKey y) := by
  unfold semver.comparePrerelease
  by_cases hxy : x = y
  · subst hxy
    simp [sgn_self]
  · rw [if_neg hxy]
    unfold semver.sgn semver.preKey
    by_cases hx0 : x = []
    · have hy0 : y ≠ [] := fun h => hxy (hx0.trans h.symm)
      simp [hx0, hy0]
    · by_cases hy0 : y = []
      · simp only [hx0, hy0, if_false, if_true]
        simp [WithTop.coe_lt_top]
      · simp only [hx0, hy0, if_false]
        have hheads : x.head? = y.head? := by
          rcases hx with h | h
          · exact absurd h hx0
          · rcases hy with h' | h'
            · exact absurd h' hy0
            · rw [h, h']
        have hne : semver.identKeys x ≠ semver.identKeys y :=
          fun h => hxy (identKeys_injective x y hheads h)
        rw [comparePrereleaseGo_eq _ x y (Nat.lt_succ_self _)]
        simp only [WithTop.coe_eq_coe, hne, if_false, WithTop.coe_lt_coe]
        by_cases hlt : semver.identKeys x < semver.identKeys y
        · simp [hlt, le_of_lt hlt]
        · have : ¬ (semver.identKeys x ≤ semver.identKeys y) :=
            fun hle => hlt (lt_of_le_of_ne hle hne)
          simp [hlt, this]

/-- What `parsePrerelease` returns begins with the hyphen. -/
theorem parsePrerelease_head (v pre rest : Str)
    (h : semver.parsePrerelease v = some (pre, rest)) : pre.head? = some '-' := by
  unfold semver.parsePrerelease at h
  cases v with
  | nil => cases h
  | cons c cs =>
    simp only at h
    split at h
    · cases h
    · rename_i hc
      split at h
      · simp only [Option.some.injEq, Prod.mk.injEq] at h
        rw [← h.1]
        simp only [ne_eq, not_not] at hc
        simp [hc]
      · cases h

/-- The prerelease that `parseTail` records is empty or begins with the hyphen. -/
theorem parseTail_prerelease (major minor patch v : Str) (p : semver.parsed)
    (h : semver.parseTail major minor patch v = some p) :
    p.prerelease = [] ∨ p.prerelease.head? = some '-' := by
  unfold semver.parseTail at h
  by_cases hv : v.head? = some '-'
  · simp only [hv, if_true] at h
    cases hp : semver.parsePrerelease v with
    | none => simp [hp] at h
    | some pr =>
      obtain ⟨pre, rest⟩ := pr
      have hh := parsePrerelease_head v pre rest hp
      simp only [hp] at h
      split at h
      · cases h
      · split at h
        · cases h
        · simp only [Option.some.injEq] at h
          rw [← h]
          exact Or.inr hh
  · simp only [hv, if_false] at h
    split at h
    · cases h
    · split at h
      · cases h
      · simp only [Option.some.injEq] at h
        rw [← h]
        exact Or.inl rfl

/-- The prerelease of a parsed version is empty or begins with the hyphen. -/
theorem parse_prerelease (v : Str) (p : semver.parsed) (h : semver.parse v = some p) :
    p.prerelease = [] ∨ p.prerelease.head? = some '-' := by
  unfold semver.parse at h
  repeat (first
    | contradiction
    | (simp only [Option.some.injEq] at h; rw [← h]; exact Or.inl rfl)
    | exact parseTail_prerelease _ _ _ _ _ h
    | split at h)

/-- The comparison of two valid versions is that of their keys. -/
theorem sgn_coe_withBot {α : Type} [LinearOrder α] (a b : α) :
    semver.sgn (a : WithBot α) (b : WithBot α) = semver.sgn a b := by
  unfold semver.sgn
  simp only [WithBot.coe_eq_coe, WithBot.coe_lt_coe]

/-- The library's `Compare` is the comparison of the order keys. -/
theorem Compare_eq_sgn (v w : Str) :
    semver.Compare v w = semver.sgn (semver.versionKey v) (semver.versionKey w) := by
  unfold semver.Compare semver.versionKey
  cases hv : semver.parse v with
  | none =>
    cases hw : semver.parse w with
    | none => simp [sgn_self]
    | some pw => simp [semver.sgn, WithBot.bot_lt_coe]
  | some pv =>
    cases hw : semver.parse w with
    | none => simp [semver.sgn]
    | some pw =>
      simp only [sgn_coe_withBot, semver.parsedKey, sgn_lex, compareInt_eq_sgn,
        comparePrerelease_eq_sgn _ _ (parse_prerelease v pv hv) (parse_prerelease w pw hw)]

/-- The library's `ByVersion.Less` is the strict order of the sort keys. -/
theorem Less_eq (a b : Str) :
    semver.Less a b = decide (semver.sortKey a < semver.sortKey b) := by
  unfold semver.Less semver.sortKey
  rw [Compare_eq_sgn]
  by_cases h0 : semver.sgn (semver.versionKey a) (semver.versionKey b) = 0
  · have he := (sgn_eq_zero _ _).mp h0
    simp only [h0, ne_eq, not_true_eq_false, if_false, Prod.Lex.lt_iff, he, lt_self_iff_false,
      true_and, false_or, sgn_self]
  · have hne : semver.versionKey a ≠ semver.versionKey b := fun h => h0 ((sgn_eq_zero _ _).mpr h)
    simp only [h0, ne_eq, not_false_eq_true, if_true, Prod.Lex.lt_iff, hne, false_and, or_false,
      sgn_neg]

/-- The relation of the sort, by the sort keys. -/
theorem not_Less_iff (a b : Str) :
    semver.Less b a = false ↔ semver.sortKey a ≤ semver.sortKey b := by
  rw [Less_eq]
  simp

/-- The last element of the sorted tags is a tag that no tag exceeds under
`Compare`. -/
theorem SortStrings_getLast (tags : List Str) (hne : tags ≠ []) :
    ∃ t, (semver.SortStrings tags).getLast? = some t ∧ t ∈ tags
      ∧ ∀ u ∈ tags, semver.Compare u t ≤ 0 := by
  have htotal : IsTotal Str (fun a b => semver.Less b a = false) :=
    ⟨fun a b => by
      simp only [not_Less_iff]
      exact le_total _ _⟩
  have htrans : IsTrans Str (fun a b => semver.Less b a = false) :=
    ⟨fun a b c => by
      simp only [not_Less_iff]
      exact le_trans⟩
  have hsorted : List.Sorted (fun a b => semver.Less b a = false) (semver.SortStrings tags) :=
    List.sorted_insertionSort _ tags
  have hperm : (semver.SortStrings tags).Perm tags := List.perm_insertionSort _ tags
  have hne' : semver.SortStrings tags ≠ [] := by
    intro h
    rw [h] at hperm
    exact hne (List.Perm.nil_eq hperm).symm
  cases hl : (semver.SortStrings tags).getLast? with
  | none => exact absurd (List.getLast?_eq_none_iff.mp hl) hne'
  | some t =>
    refine ⟨t, rfl, hperm.subset (List.mem_of_getLast?_eq_some hl), ?_⟩
    obtain ⟨init, hinit⟩ := List.getLast?_eq_some_iff.mp hl
    intro u hu
    have hu' : u ∈ init ++ [t] := by
      rw [← hinit]
      exact hperm.symm.subset hu
    rw [Compare_eq_sgn, sgn_nonpos]
    rcases List.mem_append.mp hu' with h | h
    · rw [hinit] at hsorted
      have hr := (List.pairwise_append.mp hsorted).2.2 u h t (by simp)
      have hle := (not_Less_iff u t).mp hr
      unfold semver.sortKey at hle
      rcases (Prod.Lex.le_iff _ _).mp hle with h1 | h1
      · exact le_of_lt h1
      · exact le_of_eq h1.1
    · simp only [List.mem_singleton] at h
      rw [h]

/-- The sorted arrangement does not depend on the sorting algorithm: every
rearrangement of the tags that is in the order of `ByVersion.Less` is the one
computed by `SortStrings`. -/
theorem SortStrings_unique (tags sorted : List Str) (hperm : sorted.Perm tags)
    (hsorted : List.Sorted (fun a b => semver.Less b a = false) sorted) :
    sorted = semver.SortStrings tags := by
  have htotal : IsTotal Str (fun a b => semver.Less b a = false) :=
    ⟨fun a b => by
      simp only [not_Less_iff]
      exact le_total _ _⟩
  have htrans : IsTrans Str (fun a b => semver.Less b a = false) :=
    ⟨fun a b c => by
      simp only [not_Less_iff]
      exact le_trans⟩
  have hanti : IsAntisymm Str (fun a b => semver.Less b a = false) :=
    ⟨fun a b hab hba => by
      rw [not_Less_iff] at hab hba
      have h := le_antisymm hab hba
      unfold semver.sortKey at h
      exact (Prod.mk.inj (toLex.injective h)).2⟩
  exact List.eq_of_perm_of_sorted
    (hperm.trans (List.perm_insertionSort _ tags).symm) hsorted
    (List.sorted_insertionSort _ tags)

/-- C12: for a module that matches the private prefixes, whose path unescapes,
and a non-empty tag list returned by `FetchTags`, `Query` on
`module/@latest` returns as its body a tag of the list, and no tag of the list
compares greater than it under `semver.Compare`. -/
theorem Query_latest_private {σ : Type} (c : ModuleStore σ) (m m1 : Str) (tags : List Str)
    (run : Run σ)
    (hpriv : xmod.MatchPrefixPatterns c.goPrivate m = true)
    (hm : xmod.UnescapePath m = some m1)
    (htags : c.vcs.FetchTags m1 = Except.ok tags)
    (hne : tags ≠ []) :
    ∃ t, t ∈ tags
      ∧ (Query c (m ++ "/@latest".toList) run).1 = Outcome.ok (some t)
      ∧ ∀ u ∈ tags, semver.Compare u t ≤ 0 := by
  obtain ⟨t, hlast, hmem, hmax⟩ := SortStrings_getLast tags hne
  refine ⟨t, hmem, ?_, hmax⟩
  rw [Query_latest c m run (by rw [hm]; rfl)]
  unfold queryLatest
  simp only [hpriv, if_true, hm, htags, hlast]

/-- C12, witness: the tags `v0.9.0`, `v1.0.0`, `v1.0.0-rc1` give `v1.0.0`. -/
theorem Query_latest_private_witness :
    (Query (Scenario.taggedStore ["v0.9.0", "v1.0.0", "v1.0.0-rc1"])
        "example.com/m/@latest".toList Scenario.emptyRun).1
      = Outcome.ok (some "v1.0.0".toList)
    ∧ ∃ t, t ∈ ["v0.9.0".toList, "v1.0.0".toList, "v1.0.0-rc1".toList]
      ∧ (Query (Scenario.taggedStore ["v0.9.0", "v1.0.0", "v1.0.0-rc1"])
          ("example.com/m".toList ++ "/@latest".toList) Scenario.emptyRun).1
          = Outcome.ok (some t)
      ∧ ∀ u ∈ ["v0.9.0".toList, "v1.0.0".toList, "v1.0.0-rc1".toList],
          semver.Compare u t ≤ 0 :=
  ⟨rfl, Query_latest_private (Scenario.taggedStore ["v0.9.0", "v1.0.0", "v1.0.0-rc1"])
    "example.com/m".toList "example.com/m".toList
    ["v0.9.0".toList, "v1.0.0".toList, "v1.0.0-rc1".toList] Scenario.emptyRun
    rfl rfl rfl (by decide)⟩

end Astera
